import Mathlib

/-!
A shallow embedding, in Lean, of the markdown form-definition parser and
serializer of the formgen repository (`src/shared/markdownParser.ts`, over the
field model of `src/shared/schema.ts`), together with theorems settling the
behavioural claims about it.

Modelling conventions.  Strings are `List Char` (`Str`); the JavaScript
string operations the source uses (`split('\n')`, `trim`, regular-expression
tests, `JSON.parse`, `JSON.stringify`, `String(..)`, `Number(..)`) are
reimplemented as structural functions so that every definition evaluates
inside the kernel.  JavaScript numbers are modelled as exact base-10 scaled
integers `mantissa * 10 ^ exponent`, which is exact on everything the program
manipulates (integral megabyte sizes) and sidesteps binary floating point.
The field-identifier generator (`Date.now()` plus a random suffix) is an
uninterpreted constant: ids are opaque and every comparison in the source
excludes them.  `console.warn` diagnostics carry no semantics and are
dropped.  Known small deviations, each called out at its definition: decimal
rendering of numbers never switches to exponent notation, `Number(..)` of
hex or `Infinity` literals is treated as `NaN`, and `\u` escapes denoting
lone surrogates collapse to the null character.
-/

namespace Formgen

/-- Characters of a JavaScript string, in order. -/
abbrev Str := List Char

/-- Shorthand moving a Lean string literal into the model. -/
def toStr (s : String) : Str := s.data

/-- JavaScript `\s` / `trim` whitespace, restricted to the ASCII whitespace
characters that can actually occur in this program's data. -/
def jsWsCh (c : Char) : Bool :=
  c == ' ' || c == '\t' || c == '\n' || c == '\r' || c == '\x0b' || c == '\x0c'

/-- `String.prototype.trimStart`. -/
def trimL (s : Str) : Str := s.dropWhile jsWsCh

/-- `String.prototype.trimEnd`. -/
def trimR (s : Str) : Str := (trimL s.reverse).reverse

/-- `String.prototype.trim`. -/
def trim (s : Str) : Str := trimR (trimL s)

/-- `str.split('\n')`: split at every newline; no trailing special case, so
the empty string yields one empty piece. -/
def splitNl : Str → List Str
  | [] => [[]]
  | c :: cs =>
    if c = '\n' then [] :: splitNl cs
    else
      match splitNl cs with
      | [] => [[c]]
      | h :: t => (c :: h) :: t

/-- `Array.prototype.join(sep)` over strings. -/
def joinSep (sep : Str) : List Str → Str
  | [] => []
  | [s] => s
  | s :: ss => s ++ sep ++ joinSep sep ss

/-- Map a character-level expansion over a string and concatenate. -/
def strConcatMap (f : Char → Str) : Str → Str
  | [] => []
  | c :: cs => f c ++ strConcatMap f cs

/-- ASCII decimal digit test. -/
def isDigitCh (c : Char) : Bool := '0' ≤ c && c ≤ '9'

/-- ASCII lowercase letter test (`[a-z]` in the source's regular expressions). -/
def isLowerCh (c : Char) : Bool := 'a' ≤ c && c ≤ 'z'

/-- Decimal digit characters of a natural number, most significant first.
The first argument is recursion fuel (any value `≥` the digit count works). -/
def natToStrAux : Nat → Nat → Str
  | 0, _ => []
  | fuel + 1, n => if n = 0 then [] else natToStrAux fuel (n / 10) ++ [Char.ofNat (48 + n % 10)]

/-- Decimal rendering of a natural number. -/
def natToStr (n : Nat) : Str := if n = 0 then ['0'] else natToStrAux (n + 1) n

/-- Decimal rendering of an integer. -/
def intToStr (i : Int) : Str := (if i < 0 then ['-'] else []) ++ natToStr i.natAbs

/-- Strip factors of ten out of the mantissa so that scaled-decimal equality
coincides with structural equality (`1.50` and `1.5` denote one value). -/
def normNumAux : Nat → Int → Int → Int × Int
  | 0, m, e => (m, e)
  | fuel + 1, m, e => if m % 10 == 0 then normNumAux fuel (m / 10) (e + 1) else (m, e)

/-- Normal form of a scaled-decimal number `m * 10 ^ e`. -/
def normNum (m e : Int) : Int × Int :=
  if m = 0 then (0, 0) else normNumAux m.natAbs m e

/-- JavaScript's default decimal rendering of a (normalised) scaled decimal.
Deviation: JavaScript switches to exponent notation for magnitudes beyond
`1e21` or below `1e-6`; this rendering stays positional for every magnitude.
No value this program renders reaches those ranges. -/
def jsNumToStr (m e : Int) : Str :=
  if 0 ≤ e then intToStr (m * (10 : Int) ^ e.toNat)
  else
    let ds := natToStr m.natAbs
    let k := e.natAbs
    let sign := if m < 0 then ['-'] else []
    if k < ds.length then
      sign ++ ds.take (ds.length - k) ++ ['.'] ++ ds.drop (ds.length - k)
    else
      sign ++ ['0', '.'] ++ List.replicate (k - ds.length) '0' ++ ds

mutual
/-- A JSON value, as produced by `JSON.parse`.  Arrays and objects are their
own inductive types (rather than `List`-nested) so that the functions over
them are mutual structural recursions the kernel can evaluate. -/
inductive Jv where
  | jnull : Jv
  | jbool : Bool → Jv
  | jnum : Int → Int → Jv
  | jstr : Str → Jv
  | jarr : JvArr → Jv
  | jobj : JvObj → Jv

/-- The elements of a JSON array, in order. -/
inductive JvArr where
  | anil : JvArr
  | acons : Jv → JvArr → JvArr

/-- The members of a JSON object, in insertion order, with unique keys. -/
inductive JvObj where
  | onil : JvObj
  | ocons : Str → Jv → JvObj → JvObj
end

/-- Property lookup on an object (keys are unique, so the first hit is it). -/
def objGet (k : Str) : JvObj → Option Jv
  | .onil => none
  | .ocons k' v r => if k' = k then some v else objGet k r

/-- Remove a key from an object. -/
def objRemove (k : Str) : JvObj → JvObj
  | .onil => .onil
  | .ocons k' v r => if k' = k then r else .ocons k' v (objRemove k r)

/-- Prepend a member the way JavaScript property assignment resolves
duplicates: the earliest occurrence of a key fixes its position, the latest
fixes its value.  `rest` holds the members assigned after this one. -/
def consPair (k : Str) (v : Jv) (rest : JvObj) : JvObj :=
  match objGet k rest with
  | some v' => .ocons k v' (objRemove k rest)
  | none => .ocons k v rest

/-- The member list of an object, as pairs. -/
def objPairs : JvObj → List (Str × Jv)
  | .onil => []
  | .ocons k v r => (k, v) :: objPairs r

/-- The element list of an array. -/
def arrElems : JvArr → List Jv
  | .anil => []
  | .acons v r => v :: arrElems r

/-- Build a JSON array from a list of values. -/
def arrOfList : List Jv → JvArr
  | [] => .anil
  | v :: vs => .acons v (arrOfList vs)

/-- JavaScript truthiness of a JSON value (`undefined` is `Option.none` at
the use sites).  A JSON number is falsy exactly when its mantissa is zero. -/
def jvTruthy : Jv → Bool
  | .jnull => false
  | .jbool b => b
  | .jnum m _ => !(m == 0)
  | .jstr s => !s.isEmpty
  | .jarr _ => true
  | .jobj _ => true

mutual
/-- JavaScript `String(v)` on a JSON value. -/
def jsToString : Jv → Str
  | .jnull => toStr "null"
  | .jbool true => toStr "true"
  | .jbool false => toStr "false"
  | .jnum m e => jsNumToStr m e
  | .jstr s => s
  | .jarr vs => jsArrToString vs
  | .jobj _ => toStr "[object Object]"

/-- `Array.prototype.join(',')`, which renders `null` elements as the empty
string, as `String(..)` of an array does. -/
def jsArrToString : JvArr → Str
  | .anil => []
  | .acons .jnull .anil => []
  | .acons v .anil => jsToString v
  | .acons .jnull r => ',' :: jsArrToString r
  | .acons v r => jsToString v ++ [','] ++ jsArrToString r
end

/-- Leading digit run and the rest. -/
def takeDigits (s : Str) : Str × Str := (s.takeWhile isDigitCh, s.dropWhile isDigitCh)

/-- Numeric value of a digit run. -/
def digitsVal (ds : Str) : Int :=
  Int.ofNat (ds.foldl (fun a c => a * 10 + (c.toNat - 48)) 0)

/-- The unsigned decimal-literal part of JavaScript string-to-number
conversion: digits, optional fraction, optional exponent, nothing trailing.
Returns `none` for `NaN`.  Deviation: hex literals and `Infinity`, which
`Number(..)` also accepts, are treated as `NaN`; this program never feeds
them to a numeric property. -/
def strToNumberBody (s : Str) : Option (Int × Int) :=
  let (ip, r1) := takeDigits s
  let (fp, r2) : Str × Str :=
    match r1 with
    | '.' :: r => takeDigits r
    | _ => ([], r1)
  if ip.isEmpty && fp.isEmpty then none
  else
    let (ex, r3, exOk) : Int × Str × Bool :=
      match r2 with
      | 'e' :: r =>
        let (sg, rs) : Int × Str :=
          match r with
          | '+' :: q => (1, q)
          | '-' :: q => (-1, q)
          | _ => (1, r)
        let (ed, rr) := takeDigits rs
        (sg * digitsVal ed, rr, !ed.isEmpty)
      | 'E' :: r =>
        let (sg, rs) : Int × Str :=
          match r with
          | '+' :: q => (1, q)
          | '-' :: q => (-1, q)
          | _ => (1, r)
        let (ed, rr) := takeDigits rs
        (sg * digitsVal ed, rr, !ed.isEmpty)
      | _ => (0, r2, true)
    if exOk && r3.isEmpty then some (normNum (digitsVal (ip ++ fp)) (ex - fp.length))
    else none

/-- JavaScript `Number(s)` on a string: trim, empty means zero, optional
sign, then a decimal literal. -/
def strToNumber (s : Str) : Option (Int × Int) :=
  match trim s with
  | [] => some (0, 0)
  | '+' :: r => strToNumberBody r
  | '-' :: r => (strToNumberBody r).map (fun p => (-p.1, p.2))
  | t => strToNumberBody t

/-- JavaScript `Number(v)` on a JSON value (`none` is `NaN`); arrays and
objects go through their string rendering, as `ToPrimitive` does. -/
def jsToNumber : Jv → Option (Int × Int)
  | .jnull => some (0, 0)
  | .jbool true => some (1, 0)
  | .jbool false => some (0, 0)
  | .jnum m e => some (m, e)
  | .jstr s => strToNumber s
  | .jarr vs => strToNumber (jsArrToString vs)
  | .jobj _ => strToNumber (toStr "[object Object]")

/-- Lower-case hex digit for a value below 16. -/
def toHexCh (n : Nat) : Char := if n < 10 then Char.ofNat (48 + n) else Char.ofNat (87 + n)

/-- `JSON.stringify` escaping of one string character. -/
def jsonEscapeChar (c : Char) : Str :=
  if c = '"' then ['\\', '"']
  else if c = '\\' then ['\\', '\\']
  else if c = '\n' then ['\\', 'n']
  else if c = '\r' then ['\\', 'r']
  else if c = '\t' then ['\\', 't']
  else if c = '\x08' then ['\\', 'b']
  else if c = '\x0c' then ['\\', 'f']
  else if c.toNat < 32 then
    ['\\', 'u', '0', '0', toHexCh (c.toNat / 16), toHexCh (c.toNat % 16)]
  else [c]

/-- `JSON.stringify` escaping of a whole string body. -/
def jsonEscape (s : Str) : Str := strConcatMap jsonEscapeChar s

mutual
/-- `JSON.stringify` of a JSON value (no indentation, as the source calls it). -/
def jvToJson : Jv → Str
  | .jnull => toStr "null"
  | .jbool true => toStr "true"
  | .jbool false => toStr "false"
  | .jnum m e => jsNumToStr m e
  | .jstr s => '"' :: jsonEscape s ++ ['"']
  | .jarr vs => '[' :: jvArrBody vs ++ [']']
  | .jobj kvs => '\x7b' :: jvObjBody kvs ++ ['\x7d']

/-- Comma-separated rendering of array elements. -/
def jvArrBody : JvArr → Str
  | .anil => []
  | .acons v .anil => jvToJson v
  | .acons v r => jvToJson v ++ [','] ++ jvArrBody r

/-- Comma-separated rendering of object members. -/
def jvObjBody : JvObj → Str
  | .onil => []
  | .ocons k v .onil => '"' :: jsonEscape k ++ ['"', ':'] ++ jvToJson v
  | .ocons k v r => '"' :: jsonEscape k ++ ['"', ':'] ++ jvToJson v ++ [','] ++ jvObjBody r
end

/-- JSON's whitespace set (strictly smaller than JavaScript's `\s`). -/
def jsonWsCh (c : Char) : Bool := c == ' ' || c == '\t' || c == '\n' || c == '\r'

/-- Skip JSON whitespace. -/
def skipJWs (s : Str) : Str := s.dropWhile jsonWsCh

/-- Value of a hex digit character. -/
def hexDigVal (c : Char) : Option Nat :=
  if '0' ≤ c && c ≤ '9' then some (c.toNat - 48)
  else if 'a' ≤ c && c ≤ 'f' then some (c.toNat - 87)
  else if 'A' ≤ c && c ≤ 'F' then some (c.toNat - 55)
  else none

/-- JSON short escapes.  (`\u` is handled separately.) -/
def unescCh : Char → Option Char
  | '"' => some '"'
  | '\\' => some '\\'
  | '/' => some '/'
  | 'b' => some '\x08'
  | 'f' => some '\x0c'
  | 'n' => some '\n'
  | 'r' => some '\r'
  | 't' => some '\t'
  | _ => none

/-- Parse a JSON string body after its opening quote.  The accumulator holds
the characters read so far, reversed.  Deviation: a `\u` escape naming a
lone UTF-16 surrogate, which JavaScript would keep, collapses to the null
character; the escape still parses. -/
def parseJStr : Str → Str → Except Str (Str × Str)
  | acc, '"' :: r => .ok (acc.reverse, r)
  | acc, '\\' :: 'u' :: a :: b :: c :: d :: r =>
    match hexDigVal a, hexDigVal b, hexDigVal c, hexDigVal d with
    | some va, some vb, some vc, some vd =>
      parseJStr (Char.ofNat (((va * 16 + vb) * 16 + vc) * 16 + vd) :: acc) r
    | _, _, _, _ => .error (toStr "Bad Unicode escape in JSON")
  | acc, '\\' :: e :: r =>
    match unescCh e with
    | some ch => parseJStr (ch :: acc) r
    | none => .error (toStr "Bad escaped character in JSON string")
  | acc, c :: r =>
    if c.toNat < 32 then .error (toStr "Bad control character in JSON string literal")
    else parseJStr (c :: acc) r
  | _, [] => .error (toStr "Unterminated string in JSON")

/-- Parse a JSON number (strict grammar: no leading zeros, a fraction and an
exponent need digits). -/
def parseJNum (s : Str) : Except Str ((Int × Int) × Str) :=
  let (neg, s1) : Bool × Str :=
    match s with
    | '-' :: r => (true, r)
    | _ => (false, s)
  let (ip, r1) := takeDigits s1
  match ip with
  | [] => .error (toStr "No number after minus sign in JSON")
  | '0' :: _ :: _ => .error (toStr "Unexpected number in JSON")
  | _ =>
    let (fp, r2, fracOk) : Str × Str × Bool :=
      match r1 with
      | '.' :: r =>
        let (d, rr) := takeDigits r
        (d, rr, !d.isEmpty)
      | _ => ([], r1, true)
    if !fracOk then .error (toStr "Unterminated fractional number in JSON")
    else
      let (ex, r3, exOk) : Int × Str × Bool :=
        match r2 with
        | 'e' :: r =>
          let (sg, rs) : Int × Str :=
            match r with
            | '+' :: q => (1, q)
            | '-' :: q => (-1, q)
            | _ => (1, r)
          let (ed, rr) := takeDigits rs
          (sg * digitsVal ed, rr, !ed.isEmpty)
        | 'E' :: r =>
          let (sg, rs) : Int × Str :=
            match r with
            | '+' :: q => (1, q)
            | '-' :: q => (-1, q)
            | _ => (1, r)
          let (ed, rr) := takeDigits rs
          (sg * digitsVal ed, rr, !ed.isEmpty)
        | _ => (0, r2, true)
      if !exOk then .error (toStr "Exponent part is missing a number in JSON")
      else
        let mAbs := digitsVal (ip ++ fp)
        let m := if neg then -mAbs else mAbs
        .ok (normNum m (ex - fp.length), r3)

mutual
/-- Parse one JSON value.  Fuel only bounds recursion; the top-level wrapper
supplies more than any input can consume, so running out of fuel is
unreachable there. -/
def parseJVal : Nat → Str → Except Str (Jv × Str)
  | 0, _ => .error (toStr "JSON recursion fuel exhausted")
  | fuel + 1, s =>
    match skipJWs s with
    | 'n' :: 'u' :: 'l' :: 'l' :: r => .ok (.jnull, r)
    | 't' :: 'r' :: 'u' :: 'e' :: r => .ok (.jbool true, r)
    | 'f' :: 'a' :: 'l' :: 's' :: 'e' :: r => .ok (.jbool false, r)
    | '"' :: r =>
      match parseJStr [] r with
      | .ok (str, r') => .ok (.jstr str, r')
      | .error e => .error e
    | '[' :: r =>
      match skipJWs r with
      | ']' :: r' => .ok (.jarr .anil, r')
      | r' =>
        match parseJElems fuel r' with
        | .ok (vs, r'') => .ok (.jarr vs, r'')
        | .error e => .error e
    | '\x7b' :: r =>
      match skipJWs r with
      | '\x7d' :: r' => .ok (.jobj .onil, r')
      | r' =>
        match parseJPairs fuel r' with
        | .ok (kvs, r'') => .ok (.jobj kvs, r'')
        | .error e => .error e
    | c :: r =>
      if c = '-' || isDigitCh c then
        match parseJNum (c :: r) with
        | .ok (n, r') => .ok (.jnum n.1 n.2, r')
        | .error e => .error e
      else .error (toStr "Unexpected token in JSON")
    | [] => .error (toStr "Unexpected end of JSON input")

/-- Parse one-or-more comma-separated array elements, then `]`. -/
def parseJElems : Nat → Str → Except Str (JvArr × Str)
  | 0, _ => .error (toStr "JSON recursion fuel exhausted")
  | fuel + 1, s =>
    match parseJVal fuel s with
    | .error e => .error e
    | .ok (v, r) =>
      match skipJWs r with
      | ',' :: r' =>
        match parseJElems fuel r' with
        | .ok (vs, r'') => .ok (.acons v vs, r'')
        | .error e => .error e
      | ']' :: r' => .ok (.acons v .anil, r')
      | _ => .error (toStr "Expected comma or end of array in JSON")

/-- Parse one-or-more `"key": value` members, then the closing brace. -/
def parseJPairs : Nat → Str → Except Str (JvObj × Str)
  | 0, _ => .error (toStr "JSON recursion fuel exhausted")
  | fuel + 1, s =>
    match skipJWs s with
    | '"' :: r =>
      match parseJStr [] r with
      | .error e => .error e
      | .ok (k, r1) =>
        match skipJWs r1 with
        | ':' :: r2 =>
          match parseJVal fuel r2 with
          | .error e => .error e
          | .ok (v, r3) =>
            match skipJWs r3 with
            | ',' :: r4 =>
              match parseJPairs fuel r4 with
              | .ok (kvs, r5) => .ok (consPair k v kvs, r5)
              | .error e => .error e
            | '\x7d' :: r4 => .ok (.ocons k v .onil, r4)
            | _ => .error (toStr "Expected comma or end of object in JSON")
        | _ => .error (toStr "Expected colon after key in JSON object")
    | _ => .error (toStr "Expected double-quoted property name in JSON object")
end

/-- `JSON.parse` on a whole document.  The fuel `2 * length + 2` dominates
the parser's call depth, which consumes at least one character every two
nested calls. -/
def jsonParse (s : Str) : Except Str Jv :=
  match parseJVal (2 * s.length + 2) s with
  | .error e => .error e
  | .ok (v, r) => if (skipJWs r).isEmpty then .ok v else .error (toStr "Unexpected non-whitespace character after JSON data")

/-- The closed enumeration of field types (`FormFieldType` in `schema.ts`). -/
inductive FieldTy where
  | text
  | textarea
  | email
  | number
  | date
  | select
  | radio
  | checkbox
  | file
  | table
  | separator
deriving DecidableEq

/-- The string naming a field type in the markdown grammar. -/
def FieldTy.name : FieldTy → Str
  | .text => toStr "text"
  | .textarea => toStr "textarea"
  | .email => toStr "email"
  | .number => toStr "number"
  | .date => toStr "date"
  | .select => toStr "select"
  | .radio => toStr "radio"
  | .checkbox => toStr "checkbox"
  | .file => toStr "file"
  | .table => toStr "table"
  | .separator => toStr "separator"

/-- `isValidFieldType` plus the ensuing cast: the type named by a string. -/
def fieldTyOfStr (s : Str) : Option FieldTy :=
  if s = toStr "text" then some .text
  else if s = toStr "textarea" then some .textarea
  else if s = toStr "email" then some .email
  else if s = toStr "number" then some .number
  else if s = toStr "date" then some .date
  else if s = toStr "select" then some .select
  else if s = toStr "radio" then some .radio
  else if s = toStr "checkbox" then some .checkbox
  else if s = toStr "file" then some .file
  else if s = toStr "table" then some .table
  else if s = toStr "separator" then some .separator
  else none

/-- The `FormField` record of `schema.ts`.  Optional attributes are `Option`;
`maxFileSize` is a scaled-decimal number. -/
structure FormField where
  id : Str
  ftype : FieldTy
  label : Str
  helpText : Option Str := none
  required : Bool
  options : Option (List Str) := none
  placeholder : Option Str := none
  acceptedFileTypes : Option (List Str) := none
  maxFileSize : Option (Int × Int) := none
  multiple : Option Bool := none
  columns : Option (List Str) := none
deriving DecidableEq

/-- The id the source builds from `Date.now()` and `Math.random()`:
nondeterministic and opaque.  Every comparison in the source excludes ids,
so a constant stands in. -/
def generatedId : Str := toStr "field_0_0"

/-- `isConfigLine`: the test `/^\s*\[[a-z]+\]/` against the trimmed line. -/
def configLineTest (line : Str) : Bool :=
  match trimL (trim line) with
  | '[' :: rest =>
    let letters := rest.takeWhile isLowerCh
    !letters.isEmpty && ((rest.drop letters.length).head? == some ']')
  | _ => false

/-- First match of `/\[([^\]]+)\]/`: scan for a `[`, take the nonempty run of
non-`]` characters, require the closing `]`; on failure resume the scan one
position further, as the regular-expression engine does. -/
def bracketTok : Str → Option Str
  | [] => none
  | c :: cs =>
    if c = '[' then
      let body := cs.takeWhile (fun d => !(d == ']'))
      if !body.isEmpty && ((cs.drop body.length).head? == some ']') then some body
      else bracketTok cs
    else bracketTok cs

/-- First match of the properties pattern, braces instead of brackets. -/
def braceTok : Str → Option Str
  | [] => none
  | c :: cs =>
    if c = '\x7b' then
      let body := cs.takeWhile (fun d => !(d == '\x7d'))
      if !body.isEmpty && ((cs.drop body.length).head? == some '\x7d') then some body
      else braceTok cs
    else braceTok cs

/-- Match of `\(\s*required\s*\?\s*\)|\(\s*required\s*\)` (case-insensitive)
anchored at the head of the string. -/
def reqAt (s : Str) : Bool :=
  match s with
  | '(' :: r =>
    let r1 := r.dropWhile jsWsCh
    match r1.map Char.toLower with
    | 'r' :: 'e' :: 'q' :: 'u' :: 'i' :: 'r' :: 'e' :: 'd' :: _ =>
      let r2 := (r1.drop 8).dropWhile jsWsCh
      match r2 with
      | ')' :: _ => true
      | '?' :: r3 => ((r3.dropWhile jsWsCh).head? == some ')')
      | _ => false
    | _ => false
  | _ => false

/-- The required-flag test: the pattern of `reqAt` occurring anywhere. -/
def requiredTest : Str → Bool
  | [] => false
  | c :: cs => reqAt (c :: cs) || requiredTest cs

/-- A trimmed line that is a horizontal rule: `---` or three-plus hyphens. -/
def isHrTrim (t : Str) : Bool :=
  (t == toStr "---") || (decide (3 ≤ t.length) && t.all (fun c => c == '-'))

/-- `replace(/^##\s*/, '')`: strip a leading `##` and following whitespace. -/
def stripHdr (s : Str) : Str :=
  match s with
  | '#' :: '#' :: r => r.dropWhile jsWsCh
  | _ => s

/-- Error message texts of the parser, verbatim from the source. -/
def headerErrMsg : Str := toStr "Pole musi rozpoczynać się od nagłówka ##"

/-- Message for an empty field label. -/
def emptyLabelMsg : Str := toStr "Etykieta pola nie może być pusta"

/-- Message for a missing `[typ]` token. -/
def typeRequiredMsg : Str := toStr "Typ pola jest wymagany w nawiasach kwadratowych [typ]"

/-- Message for an unrecognised field type. -/
def invalidTypeMsg (t : Str) : Str :=
  toStr "Nieprawidłowy typ pola: " ++ t
    ++ toStr ". Dostępne typy: text, textarea, email, number, date, select, radio, checkbox, file"

/-- Message wrapping a JSON failure inside `parseProperties`. -/
def invalidJsonMsg (inner : Str) : Str :=
  toStr "Nieprawidłowe właściwości JSON: " ++ inner
    ++ toStr ". Użyj formatu: \"klucz\": \"wartość\", \"tablica\": [\"element1\", \"element2\"]"

/-- Message wrapping a properties failure inside `parseConfigLine`; the
`${error}` interpolation of an `Error` renders as `Error: ` plus message. -/
def invalidPropsMsg (inner : Str) : Str :=
  toStr "Nieprawidłowa składnia właściwości: Error: " ++ inner

/-- Message for a choice field without a usable `options` property. -/
def missingOptionsMsg (t : FieldTy) : Str :=
  toStr "Typ pola '" ++ t.name
    ++ toStr "' wymaga właściwości tablicy \"options\". Przykład: \x7b\"options\": [\"Opcja 1\", \"Opcja 2\"]\x7d"

/-- Message for a non-array `options` property. -/
def optionsNotArrayMsg : Str := toStr "Opcje muszą być tablicą"

/-- Message for a table field with an empty `columns` array. -/
def emptyColumnsMsg : Str := toStr "Tabela musi zawierać co najmniej jedną kolumnę"

/-- Message for a non-array `columns` property. -/
def columnsNotArrayMsg : Str := toStr "Kolumny tabeli muszą być tablicą"

/-- Message for a table field without a usable `columns` property. -/
def missingColumnsMsg : Str :=
  toStr "Typ pola \"table\" wymaga właściwości tablicy \"columns\". Przykład: \x7b\"columns\": [\"Kolumna 1\", \"Kolumna 2\"]\x7d"

/-- Message for a non-array `acceptedFileTypes` property. -/
def fileTypesNotArrayMsg : Str := toStr "acceptedFileTypes musi być tablicą"

/-- Message for a `maxFileSize` that is `NaN` or not positive. -/
def badMaxFileSizeMsg : Str := toStr "maxFileSize musi być liczbą dodatnią"

/-- `parseProperties`: empty content short-circuits to an empty object;
otherwise wrap in braces, parse strictly, require an object.  Both JSON
failures and the non-object check are announced through the same wrapper
message (the inner throw sits inside the same `try`). -/
def parseProperties (propertiesStr : Str) : Except Str JvObj :=
  if (trim propertiesStr).isEmpty then .ok .onil
  else
    match jsonParse ('\x7b' :: (propertiesStr ++ ['\x7d'])) with
    | .error e => .error (invalidJsonMsg e)
    | .ok (.jobj kvs) => .ok kvs
    | .ok _ => .error (invalidJsonMsg (toStr "Właściwości muszą być obiektem"))

/-- The parsed content of a configuration line. -/
structure ParsedConfig where
  ftype : FieldTy
  required : Bool
  properties : JvObj

/-- `parseConfigLine`: type token, required flag, optional properties. -/
def parseConfigLine (line : Str) : Except Str ParsedConfig :=
  match bracketTok line with
  | none => .error typeRequiredMsg
  | some tok =>
    let typeStr := trim tok
    match fieldTyOfStr typeStr with
    | none => .error (invalidTypeMsg typeStr)
    | some t =>
      let req := requiredTest line
      match braceTok line with
      | none => .ok ⟨t, req, .onil⟩
      | some content =>
        match parseProperties content with
        | .ok props => .ok ⟨t, req, props⟩
        | .error e => .error (invalidPropsMsg e)

/-- `String(..)` over the elements of a JSON array. -/
def jsArrMapString (vs : JvArr) : List Str := (arrElems vs).map jsToString

/-- The shared placeholder step of `applyFieldProperties`: copy a truthy
`placeholder` property, stringified. -/
def applyPlaceholder (field : FormField) (properties : JvObj) : FormField :=
  match objGet (toStr "placeholder") properties with
  | some v => if jvTruthy v then { field with placeholder := some (jsToString v) } else field
  | none => field

/-- The `acceptedFileTypes` step of the `file` branch. -/
def applyFileTypes (f : FormField) (properties : JvObj) : Except Str FormField :=
  match objGet (toStr "acceptedFileTypes") properties with
  | some v =>
    if jvTruthy v then
      match v with
      | .jarr vs => .ok { f with acceptedFileTypes := some (jsArrMapString vs) }
      | _ => .error fileTypesNotArrayMsg
    else .ok f
  | none => .ok f

/-- The `maxFileSize` step of the `file` branch (a present key is processed
whatever its value; `NaN` or a non-positive number throws). -/
def applyMaxSize (f : FormField) (properties : JvObj) : Except Str FormField :=
  match objGet (toStr "maxFileSize") properties with
  | some v =>
    match jsToNumber v with
    | none => .error badMaxFileSizeMsg
    | some n => if n.1 ≤ 0 then .error badMaxFileSizeMsg else .ok { f with maxFileSize := some n }
  | none => .ok f

/-- The `multiple` step of the `file` branch (boolean coercion). -/
def applyMultiple (f : FormField) (properties : JvObj) : FormField :=
  match objGet (toStr "multiple") properties with
  | some v => { f with multiple := some (jvTruthy v) }
  | none => f

/-- `applyFieldProperties`, functionally: the source mutates the field record
in place; here each step yields the updated record or the thrown message. -/
def applyFieldProperties (field : FormField) (properties : JvObj) : Except Str FormField :=
  match field.ftype with
  | .select | .radio | .checkbox =>
    match objGet (toStr "options") properties with
    | some v =>
      if jvTruthy v then
        match v with
        | .jarr vs =>
          .ok { applyPlaceholder field properties with options := some (jsArrMapString vs) }
        | _ => .error optionsNotArrayMsg
      else .error (missingOptionsMsg field.ftype)
    | none => .error (missingOptionsMsg field.ftype)
  | .file =>
    match applyFileTypes (applyPlaceholder field properties) properties with
    | .error e => .error e
    | .ok f1 =>
      match applyMaxSize f1 properties with
      | .error e => .error e
      | .ok f2 => .ok (applyMultiple f2 properties)
  | .table =>
    match objGet (toStr "columns") properties with
    | some v =>
      if jvTruthy v then
        match v with
        | .jarr vs =>
          if (jsArrMapString vs).isEmpty then .error emptyColumnsMsg
          else .ok { applyPlaceholder field properties with columns := some (jsArrMapString vs) }
        | _ => .error columnsNotArrayMsg
      else .error missingColumnsMsg
    | none => .error missingColumnsMsg
  | _ => .ok (applyPlaceholder field properties)

/-- The configuration-line scan of `parseSection`: the first matching line
becomes the configuration line; lines before it are `unshift`ed (hence
accumulate reversed), lines after it are appended. -/
def scanConfig : List Str → Bool → Str → List Str → Str × List Str
  | [], _, cfg, help => (cfg, help)
  | l :: ls, found, cfg, help =>
    if !found && configLineTest l then scanConfig ls true l help
    else if found then scanConfig ls found cfg (help ++ [l])
    else scanConfig ls found cfg (l :: help)

/-- The help text of a section: the scanned lines joined with spaces and
trimmed, absent when empty. -/
def sectionHelpText (helpLines : List Str) : Option Str :=
  let j := trim (joinSep [' '] helpLines)
  if j.isEmpty then none else some j

/-- The field record `parseSection` builds before applying properties. -/
def baseField (t : FieldTy) (label : Str) (req : Bool) (helpLines : List Str) : FormField :=
  { id := generatedId, ftype := t, label := label, required := req,
    helpText := sectionHelpText helpLines }

/-- The body of `parseSection`, over the already trimmed-and-filtered lines:
header check, label, configuration scan, property application.  `none`
stands for the source's `null` return on a section with no nonblank line. -/
def parseSectionLines : List Str → Except Str (Option FormField)
  | [] => .ok none
  | headerLine :: rest =>
    if !(List.isPrefixOf (toStr "##") headerLine) then .error headerErrMsg
    else
      let label := trim (stripHdr headerLine)
      if label.isEmpty then .error emptyLabelMsg
      else
        let scanned := scanConfig rest false [] []
        match parseConfigLine scanned.1 with
        | .error e => .error e
        | .ok config =>
          match applyFieldProperties
              (baseField config.ftype label config.required scanned.2) config.properties with
          | .error e => .error e
          | .ok f => .ok (some f)

/-- `parseSection`: split into lines, trim them, drop the empty ones, and
run the section body. -/
def parseSection (sec : Str) : Except Str (Option FormField) :=
  parseSectionLines (((splitNl sec).map trim).filter (fun l => !l.isEmpty))

/-- One step of the section splitter's line loop: `##` starts a section, a
horizontal rule flushes and seeds a synthetic separator section, other lines
join the open section and are dropped when none is open. -/
def sisStep (st : List Str × List Str) (line : Str) : List Str × List Str :=
  let t := trim line
  if List.isPrefixOf (toStr "##") t then
    (if st.2.isEmpty then st.1 else st.1 ++ [joinSep ['\n'] st.2], [line])
  else if isHrTrim t then
    (if st.2.isEmpty then st.1 else st.1 ++ [joinSep ['\n'] st.2],
     [toStr "## Belka dzieląca", toStr "[separator]"])
  else if !st.2.isEmpty then (st.1, st.2 ++ [line])
  else st

/-- `splitIntoSections`: run the line loop, flush the open section, and drop
whitespace-only sections. -/
def splitIntoSections (markdown : Str) : List Str :=
  (if ((splitNl markdown).foldl sisStep ([], [])).2.isEmpty
   then ((splitNl markdown).foldl sisStep ([], [])).1
   else ((splitNl markdown).foldl sisStep ([], [])).1
     ++ [joinSep ['\n'] ((splitNl markdown).foldl sisStep ([], [])).2]).filter
    (fun s => !(trim s).isEmpty)

/-- An entry of the error list `parseMarkdown` returns (`section` in the
source names the best-effort section label). -/
structure ParseErr where
  sectionLabel : Str
  error : Str
deriving DecidableEq

/-- The result record of `parseMarkdown`. -/
structure ParseResult where
  fields : List FormField
  errors : List ParseErr
deriving DecidableEq

/-- The best-effort label attached to a failed section: the first raw line
whose trimmed form starts with `##`, put through the same strip-and-trim as a
header (note the strip is applied to the raw, untrimmed line). -/
def bestEffortLabel (s : Str) : Str :=
  match (splitNl s).find? (fun l => List.isPrefixOf (toStr "##") (trim l)) with
  | some h => trim (stripHdr h)
  | none => toStr "Nieznana sekcja"

/-- One iteration of `parseMarkdown`'s section loop. -/
def pmStep (acc : ParseResult) (s : Str) : ParseResult :=
  match parseSection s with
  | .ok (some f) => { acc with fields := acc.fields ++ [f] }
  | .ok none => acc
  | .error e => { acc with errors := acc.errors ++ [⟨bestEffortLabel s, e⟩] }

/-- `parseMarkdown`: per-section parsing with per-section error capture. -/
def parseMarkdown (markdown : Str) : ParseResult :=
  (splitIntoSections markdown).foldl pmStep ⟨[], []⟩

/-- The default separator label. -/
def defaultSepLabel : Str := toStr "Belka dzieląca"

/-- Concatenate a list of lists. -/
def concatAll {α : Type} : List (List α) → List α
  | [] => []
  | l :: ls => l ++ concatAll ls

/-- A list of strings as a JSON array value. -/
def listToJArr (xs : List Str) : Jv := .jarr (arrOfList (xs.map Jv.jstr))

/-- Build an object from an (already unique-keyed) assignment list. -/
def objOfList : List (Str × Jv) → JvObj
  | [] => .onil
  | (k, v) :: r => .ocons k v (objOfList r)

/-- The properties object `exportToMarkdown` assembles for one field, in the
source's assignment order.  Choice fields always receive `options` (empty if
need be) and table fields always receive a nonempty `columns` (two default
names if need be); both substitutions are logged warnings in the source. -/
def exportProps (field : FormField) : JvObj :=
  let p1 : List (Str × Jv) :=
    match field.placeholder with
    | some p => if !p.isEmpty then [(toStr "placeholder", .jstr p)] else []
    | none => []
  let p2 : List (Str × Jv) :=
    if field.ftype = .select ∨ field.ftype = .radio ∨ field.ftype = .checkbox then
      match field.options with
      | some os => if !os.isEmpty then [(toStr "options", listToJArr os)] else [(toStr "options", listToJArr [])]
      | none => [(toStr "options", listToJArr [])]
    else
      match field.options with
      | some os => if !os.isEmpty then [(toStr "options", listToJArr os)] else []
      | none => []
  let p3 : List (Str × Jv) :=
    match field.acceptedFileTypes with
    | some ts => if !ts.isEmpty then [(toStr "acceptedFileTypes", listToJArr ts)] else []
    | none => []
  let p4 : List (Str × Jv) :=
    match field.maxFileSize with
    | some n => if !(n.1 == 0) then [(toStr "maxFileSize", Jv.jnum n.1 n.2)] else []
    | none => []
  let p5 : List (Str × Jv) :=
    match field.multiple with
    | some b => if b then [(toStr "multiple", Jv.jbool true)] else []
    | none => []
  let p6 : List (Str × Jv) :=
    if field.ftype = .table then
      match field.columns with
      | some cs =>
        if !cs.isEmpty then [(toStr "columns", listToJArr cs)]
        else [(toStr "columns", listToJArr [toStr "Kolumna 1", toStr "Kolumna 2"])]
      | none => [(toStr "columns", listToJArr [toStr "Kolumna 1", toStr "Kolumna 2"])]
    else
      match field.columns with
      | some cs => if !cs.isEmpty then [(toStr "columns", listToJArr cs)] else []
      | none => []
  objOfList (p1 ++ p2 ++ p3 ++ p4 ++ p5 ++ p6)

/-- The markdown block `exportToMarkdown` emits for one field. -/
def exportFieldMd (field : FormField) : Str :=
  if field.ftype = .separator then
    (if !field.label.isEmpty && !(field.label == defaultSepLabel)
     then toStr "<!-- " ++ field.label ++ toStr " -->\n" else [])
    ++ (match field.helpText with
        | some h => if !h.isEmpty then toStr "<!-- " ++ h ++ toStr " -->\n" else []
        | none => [])
    ++ toStr "---\n\n"
  else
    let fieldLine0 :=
      '[' :: (field.ftype.name ++ [']']) ++ (if field.required then toStr " (required)" else [])
    let props := exportProps field
    let fieldLine :=
      match props with
      | .onil => fieldLine0
      | _ => fieldLine0 ++ [' '] ++ jvToJson (.jobj props)
    toStr "## " ++ field.label ++ ['\n']
    ++ fieldLine ++ ['\n']
    ++ (match field.helpText with
        | some h => if !h.isEmpty then h ++ ['\n'] else []
        | none => [])
    ++ ['\n']

/-- `exportToMarkdown`: optional title and description header, one block per
field, and a final `trim` of the whole document. -/
def exportToMarkdown (fields : List FormField) (formTitle formDescription : Option Str) : Str :=
  let head1 : Str :=
    match formTitle with
    | some t => if !t.isEmpty then toStr "# " ++ t ++ toStr "\n\n" else []
    | none => []
  let head2 : Str :=
    match formDescription with
    | some d => if !d.isEmpty then d ++ toStr "\n\n" else []
    | none => []
  trim (head1 ++ head2 ++ concatAll (fields.map exportFieldMd))

/-- `arraysEqual` of the fidelity validator. -/
def arraysEqual (a b : Option (List Str)) : Bool :=
  match a, b with
  | none, none => true
  | some x, some y => x == y
  | _, _ => false

/-- Numeric (value-level) equality of scaled decimals, as JavaScript's `!==`
compares numbers. -/
def jsNumEq (a b : Int × Int) : Bool := normNum a.1 a.2 == normNum b.1 b.2

/-- One fidelity error record.  The source also carries the offending
`original`/`reimported` values (typed `any`); the comparison's outcome is
captured by the property name and message. -/
structure FidelityError where
  fieldId : Str
  fieldLabel : Str
  property : Str
  errMsg : Str
deriving DecidableEq

/-- One fidelity warning record. -/
structure FidelityWarning where
  fieldId : Str
  fieldLabel : Str
  message : Str
deriving DecidableEq

/-- The result record of `validateExportFidelity`. -/
structure FidelityResult where
  isValid : Bool
  errors : List FidelityError
  warnings : List FidelityWarning
deriving DecidableEq

/-- The per-pair property comparisons of the fidelity validator, in source
order. -/
def compareFieldPair (original reimported : FormField) : List FidelityError :=
  (if !(original.label == reimported.label)
   then [⟨original.id, original.label, toStr "label", toStr "Label mismatch"⟩] else [])
  ++ (if !(original.ftype == reimported.ftype)
      then [⟨original.id, original.label, toStr "type", toStr "Type mismatch"⟩] else [])
  ++ (if !(original.required == reimported.required)
      then [⟨original.id, original.label, toStr "required", toStr "Required status mismatch"⟩] else [])
  ++ (if !(original.helpText == reimported.helpText)
      then [⟨original.id, original.label, toStr "helpText", toStr "Help text mismatch"⟩] else [])
  ++ (if !(original.placeholder == reimported.placeholder)
      then [⟨original.id, original.label, toStr "placeholder", toStr "Placeholder mismatch"⟩] else [])
  ++ (if !(arraysEqual original.options reimported.options)
      then [⟨original.id, original.label, toStr "options", toStr "Options array mismatch"⟩] else [])
  ++ (if !(arraysEqual original.columns reimported.columns)
      then [⟨original.id, original.label, toStr "columns", toStr "Columns array mismatch"⟩] else [])
  ++ (if !(arraysEqual original.acceptedFileTypes reimported.acceptedFileTypes)
      then [⟨original.id, original.label, toStr "acceptedFileTypes", toStr "Accepted file types mismatch"⟩] else [])
  ++ (if !(match original.maxFileSize, reimported.maxFileSize with
           | none, none => true
           | some a, some b => jsNumEq a b
           | _, _ => false)
      then [⟨original.id, original.label, toStr "maxFileSize", toStr "Max file size mismatch"⟩] else [])
  ++ (if !(original.multiple == reimported.multiple)
      then [⟨original.id, original.label, toStr "multiple", toStr "Multiple files flag mismatch"⟩] else [])

/-- The field-count mismatch message. -/
def fieldCountMsg (expected got : Nat) : Str :=
  toStr "Field count mismatch: expected " ++ natToStr expected ++ toStr ", got " ++ natToStr got

/-- `validateExportFidelity`: export, reparse, turn reimport section errors
into warnings, compare counts and aligned pairs.  The surrounding
`try`/`catch` only guards against runtime exceptions, which the (total,
pure) pipeline cannot produce, so it has no residue here. -/
def validateExportFidelity (fields : List FormField) (formTitle formDescription : Option Str) :
    FidelityResult :=
  let exported := exportToMarkdown fields formTitle formDescription
  let pr := parseMarkdown exported
  let reimported := pr.fields
  let warnings := pr.errors.map (fun e =>
    (⟨toStr "unknown", e.sectionLabel,
      toStr "Parse error in section '" ++ e.sectionLabel ++ toStr "': " ++ e.error⟩ : FidelityWarning))
  let countErrs : List FidelityError :=
    if fields.length = reimported.length then []
    else [⟨toStr "all", toStr "Form Structure", toStr "field_count",
           fieldCountMsg fields.length reimported.length⟩]
  let pairErrs := concatAll ((fields.zip reimported).map (fun p => compareFieldPair p.1 p.2))
  let errors := countErrs ++ pairErrs
  ⟨errors.isEmpty, errors, warnings⟩

/-- A form template as `exportResponsesToMarkdown` consumes it. -/
structure FormTemplate where
  title : Str
  description : Option Str
  fields : List FormField

/-- One collected response: id, value map, and an opaque timestamp token
whose locale rendering is a parameter of the reporter. -/
structure ResponseRec where
  id : Str
  responses : List (Str × Jv)
  submittedAt : Str

/-- Property read on a response's value map. -/
def respGet (m : List (Str × Jv)) (k : Str) : Option Jv :=
  match m.find? (fun p => p.1 == k) with
  | some p => some p.2
  | none => none

/-- Insertion-ordered set add. -/
def addUnique (xs : List Str) (x : Str) : List Str :=
  if xs.contains x then xs else xs ++ [x]

/-- Insertion-ordered map set (later writes keep the first position). -/
def setAssoc (m : List (Str × Str)) (k v : Str) : List (Str × Str) :=
  if m.any (fun p => p.1 == k) then m.map (fun p => if p.1 == k then (k, v) else p)
  else m ++ [(k, v)]

/-- The label maps of the response reporter: field id to label from the
template (separators excluded), then ids seen only in responses mapped to
themselves, both in insertion order. -/
def collectIdLabel (template : FormTemplate) (responses : List ResponseRec) :
    List (Str × Str) × List Str :=
  let step1 := template.fields.foldl
    (fun (acc : List (Str × Str) × List Str) f =>
      if f.ftype = .separator then acc
      else (setAssoc acc.1 f.id f.label, addUnique acc.2 f.label))
    ([], [])
  responses.foldl
    (fun acc r =>
      r.responses.foldl
        (fun (acc2 : List (Str × Str) × List Str) p =>
          if acc2.1.any (fun q => q.1 == p.1) then acc2
          else (setAssoc acc2.1 p.1 p.1, addUnique acc2.2 p.1))
        acc)
    step1

/-- `typeof v === 'object' && v !== null`: arrays and objects. -/
def isObjectNonNull : Jv → Bool
  | .jobj _ => true
  | .jarr _ => true
  | _ => false

/-- `Object.values(row)`: member values of an object, elements of an array,
characters of a string, nothing for other primitives. -/
def rowValues : Jv → List Jv
  | .jobj kvs => (objPairs kvs).map Prod.snd
  | .jarr vs => arrElems vs
  | .jstr s => s.map (fun c => Jv.jstr [c])
  | _ => []

/-- `Array.prototype.join` over JSON values (`null` renders empty). -/
def joinJvs (sep : Str) (vs : List Jv) : Str :=
  joinSep sep (vs.map (fun v => match v with | .jnull => [] | w => jsToString w))

/-- The type-directed cell formatting of the response reporter: table-field
data (an array whose first element is object-like) renders row-wise, other
arrays join with commas, objects are JSON, everything else is `String(..)`. -/
def formatCell : Jv → Str
  | .jarr (.acons h t) =>
    if isObjectNonNull h then
      joinSep (toStr "; ")
        ((arrElems (.acons h t)).map (fun row => joinJvs (toStr " | ") (rowValues row)))
    else joinJvs (toStr ", ") (arrElems (.acons h t))
  | .jarr .anil => []
  | .jobj kvs => jvToJson (.jobj kvs)
  | v => jsToString v

/-- The pipe escaping of a cell character (`replace(/\|/g, '\\|')`). -/
def escPipe (c : Char) : Str := if c = '|' then ['\\', '|'] else [c]

/-- The newline flattening of a cell character (`replace(/\n/g, ' ')`). -/
def flattenNl (c : Char) : Char := if c = '\n' then ' ' else c

/-- The cell clean-up: escape pipes, flatten newlines, trim, dash if empty. -/
def escapeCell (s : Str) : Str :=
  if (trim ((strConcatMap escPipe s).map flattenNl)).isEmpty then ['-']
  else trim ((strConcatMap escPipe s).map flattenNl)

/-- The value cells of one response row, one per collected label. -/
def responseCells (f2l : List (Str × Str)) (labels : List Str) (resp : List (Str × Jv)) :
    List Str :=
  labels.map (fun label =>
    let fieldId : Str :=
      match f2l.find? (fun p => p.2 == label) with
      | some p => p.1
      | none => []
    let cellValue : Jv :=
      match respGet resp fieldId with
      | some v => if jvTruthy v then v else .jstr []
      | none => .jstr []
    escapeCell (formatCell cellValue))

/-- One emitted table row: submission date cell then the value cells. -/
def responseRow (fmtDate : Str → Str) (f2l : List (Str × Str)) (labels : List Str)
    (r : ResponseRec) : Str :=
  toStr "| " ++ joinSep (toStr " | ") (fmtDate r.submittedAt :: responseCells f2l labels r.responses)
    ++ toStr " |\n"

/-- The narrative per-field block of the optional form-definition section. -/
def exportFieldDef (field : FormField) : Str :=
  if field.ftype = .separator then
    (if !field.label.isEmpty && !(field.label == defaultSepLabel)
     then toStr "<!-- " ++ field.label ++ toStr " -->\n" else [])
    ++ (match field.helpText with
        | some h => if !h.isEmpty then toStr "<!-- " ++ h ++ toStr " -->\n" else []
        | none => [])
    ++ toStr "---\n\n"
  else
    toStr "### " ++ field.label ++ ['\n']
    ++ toStr "**Typ:** `" ++ field.ftype.name ++ ['`']
    ++ (if field.required then toStr " *(wymagane)*" else []) ++ toStr "\n\n"
    ++ (match field.helpText with
        | some h => if !h.isEmpty then toStr "**Opis:** " ++ h ++ toStr "\n\n" else []
        | none => [])
    ++ (match field.options with
        | some os => if !os.isEmpty then toStr "**Opcje:** " ++ joinSep (toStr ", ") os ++ toStr "\n\n" else []
        | none => [])
    ++ (match field.placeholder with
        | some p => if !p.isEmpty then toStr "**Symbol zastępczy:** \"" ++ p ++ toStr "\"\n\n" else []
        | none => [])

/-- `exportResponsesToMarkdown`.  The two environment readings — the export
timestamp (`new Date()`) and the locale rendering of submission timestamps —
enter as the parameters `nowStr` and `fmtDate`. -/
def exportResponsesToMarkdown (fmtDate : Str → Str) (nowStr : Str) (formTemplate : FormTemplate)
    (responses : List ResponseRec) (includeFormDefinition : Bool) : Str :=
  let md1 := toStr "# Odpowiedzi Formularza: " ++ formTemplate.title ++ toStr "\n\n"
  let md2 : Str :=
    match formTemplate.description with
    | some d => if !d.isEmpty then d ++ toStr "\n\n" else []
    | none => []
  let md3 := toStr "**Data eksportu:** " ++ nowStr ++ ['\n']
    ++ toStr "**Liczba odpowiedzi:** " ++ natToStr responses.length ++ toStr "\n\n"
  let md4 : Str :=
    if includeFormDefinition && !formTemplate.fields.isEmpty then
      toStr "## Definicja Formularza\n\n" ++ concatAll (formTemplate.fields.map exportFieldDef) ++ ['\n']
    else []
  if responses.isEmpty then
    md1 ++ md2 ++ md3 ++ md4 ++ toStr "## Odpowiedzi\n\nBrak odpowiedzi.\n"
  else
    let cl := collectIdLabel formTemplate responses
    let headers := toStr "Data wysłania" :: cl.2
    let tableHead := toStr "| " ++ joinSep (toStr " | ") headers ++ toStr " |\n"
      ++ toStr "| " ++ joinSep (toStr " | ") (headers.map (fun _ => toStr "---")) ++ toStr " |\n"
    let rows := concatAll (responses.map (responseRow fmtDate cl.1 cl.2))
    let summary := toStr "## Podsumowanie\n\n"
      ++ toStr "- **Łączna liczba odpowiedzi:** " ++ natToStr responses.length ++ ['\n']
      ++ (match responses.getLast?, responses.head? with
          | some rl, some rh =>
            toStr "- **Pierwsza odpowiedź:** " ++ fmtDate rl.submittedAt ++ ['\n']
            ++ toStr "- **Ostatnia odpowiedź:** " ++ fmtDate rh.submittedAt ++ ['\n']
          | _, _ => [])
    md1 ++ md2 ++ md3 ++ md4
      ++ toStr "## Odpowiedzi (" ++ natToStr responses.length ++ toStr ")\n\n"
      ++ tableHead ++ rows ++ ['\n'] ++ summary

/-- The field a section contributes to `parseMarkdown`'s output, if any. -/
def sectionFieldOf (s : Str) : Option FormField :=
  match parseSection s with
  | .ok (some f) => some f
  | _ => none

/-- The error entry a section contributes to `parseMarkdown`'s output, if any. -/
def sectionErrorOf (s : Str) : Option ParseErr :=
  match parseSection s with
  | .error e => some ⟨bestEffortLabel s, e⟩
  | _ => none

/-- Lower-cased copy of a string. -/
def lowerStr (s : Str) : Str := s.map Char.toLower

/-- Substring occurrence test. -/
def containsSub (pat : Str) : Str → Bool
  | [] => pat.isEmpty
  | c :: cs => List.isPrefixOf pat (c :: cs) || containsSub pat cs

/-- Case-insensitive substring occurrence test. -/
def caseInsContains (pat s : Str) : Bool := containsSub (lowerStr pat) (lowerStr s)

/-- A line at which the section splitter opens a section: a `##` header or a
horizontal rule. -/
def isSectionStartLine (l : Str) : Bool :=
  List.isPrefixOf (toStr "##") (trim l) || isHrTrim (trim l)

/-- No newline character occurs. -/
def noNl (s : Str) : Bool := s.all (fun c => !(c == '\n'))

/-- Every pipe character is immediately preceded by a backslash. -/
def pipesEscaped : Str → Bool
  | [] => true
  | ['\\'] => true
  | '\\' :: '|' :: r => pipesEscaped r
  | '\\' :: c :: r => pipesEscaped (c :: r)
  | c :: cs => if c = '|' then false else pipesEscaped cs

/-- Number of newline characters. -/
def countNl (s : Str) : Nat := (s.filter (fun c => c == '\n')).length

/-- The four-section document of the partial-failure scenario: three valid
sections around one whose configuration line is missing. -/
def docPartialFailure : Str :=
  toStr "## A\n[text]\n\n## Zła\nbrak typu\n\n## B\n[date]\n\n## C\n[textarea]\n"

/-- The shape the required-flag pattern actually accepts at the head of a
string: `(`, optional whitespace, `required` case-insensitively, optional
whitespace, an optional `?` with optional following whitespace, `)`. -/
def ReqTokenAt (sfx : Str) : Prop :=
  ∃ w1 r w2 q b, sfx = '(' :: (w1 ++ r ++ w2 ++ q ++ ')' :: b)
    ∧ (∀ ch ∈ w1, jsWsCh ch = true)
    ∧ lowerStr r = toStr "required"
    ∧ (∀ ch ∈ w2, jsWsCh ch = true)
    ∧ (q = [] ∨ ∃ w3, q = '?' :: w3 ∧ ∀ ch ∈ w3, jsWsCh ch = true)

/-- The field of the leading-lines scenario for C10. -/
def fieldC10 : FormField :=
  { id := toStr "f1", ftype := .text, label := toStr "Pole", required := true,
    placeholder := some (toStr "Wpisz tekst"), helpText := some (toStr "Pomoc") }

/-- Length of a JSON array. -/
def arrLen : JvArr → Nat
  | .anil => 0
  | .acons _ r => arrLen r + 1

/-- The value shapes `exportProps` writes into a properties object — strings,
booleans, nonzero scaled decimals, and arrays of strings — with no closing
brace inside any string. -/
def cleanVal : Jv → Prop
  | .jstr s => '\x7d' ∉ s
  | .jbool _ => True
  | .jnum m _ => m ≠ 0
  | .jarr vs => ∀ v ∈ arrElems vs, ∃ s, v = Jv.jstr s ∧ '\x7d' ∉ s
  | _ => False

/-- An object of clean values with brace-free, pairwise distinct keys. -/
def cleanObj : JvObj → Prop
  | .onil => True
  | .ocons k v r => '\x7d' ∉ k ∧ cleanVal v ∧ objGet k r = none ∧ cleanObj r

/-- Number of members of an object. -/
def objLen : JvObj → Nat
  | .onil => 0
  | .ocons _ _ r => objLen r + 1

/-- Fuel needed by `parseJVal` on a printed clean value. -/
def valFuel : Jv → Nat
  | .jarr vs => arrLen vs + 1
  | _ => 1

/-- Fuel needed by `parseJPairs` on a printed clean object body. -/
def objFuel : JvObj → Nat
  | .onil => 1
  | .ocons _ v r => valFuel v + 1 + objFuel r

/-- The line discipline of the amended C3 statement: the label and help text
stay on one line, the help text does not itself look like a configuration
line, and no exported property string smuggles in a closing brace. -/
def lineDisciplined (f : FormField) : Prop :=
  noNl f.label = true
  ∧ (∀ h, f.helpText = some h → noNl h = true ∧ configLineTest h = false)
  ∧ (∀ os, f.options = some os → ∀ s ∈ os, '\x7d' ∉ s)
  ∧ (∀ cs, f.columns = some cs → ∀ s ∈ cs, '\x7d' ∉ s)
  ∧ (∀ p, f.placeholder = some p → '\x7d' ∉ p)
  ∧ (∀ ts, f.acceptedFileTypes = some ts → ∀ s ∈ ts, '\x7d' ∉ s)

/-- The select field of the C3 counterexample: its label smuggles a section
header and a bare type token into the exported markdown. -/
def fieldC3bad : FormField :=
  { id := toStr "f1", ftype := .select, label := toStr "A\n## B\n[select]",
    required := false, options := some [toStr "x"] }

/-- Whether a message is one the amended C3 statement forbids. -/
def notBanned (e : Str) : Prop :=
  (∀ ty, e ≠ missingOptionsMsg ty) ∧ e ≠ emptyColumnsMsg ∧ e ≠ missingColumnsMsg

/-- A configuration line is scan-safe when, if its parse succeeds, applying
its properties to a field of its type never throws a forbidden message. -/
def safeLine (l : Str) : Prop :=
  ∀ cfg, parseConfigLine l = .ok cfg →
    ∀ fld : FormField, fld.ftype = cfg.ftype →
      ∀ e, applyFieldProperties fld cfg.properties = .error e → notBanned e

/-- Scan safety of an arbitrary (already trimmed) section line. -/
def scanSafe (l : Str) : Prop := configLineTest l = true → safeLine l

/-- A line that can occur inside a section of a document: a line of the
document itself or one of the two synthetic separator-section lines. -/
def docLine (md : Str) (raw : Str) : Prop :=
  raw ∈ splitNl md ∨ raw = toStr "## Belka dzieląca" ∨ raw = toStr "[separator]"

/-- Value similarity: equal, except that a number may reparse to any number. -/
def simVal (v w : Jv) : Prop :=
  match v with
  | Jv.jnum _ _ => ∃ m e, w = Jv.jnum m e
  | _ => w = v

/-- Object similarity: same keys in order, similar values. -/
inductive SimObj : JvObj → JvObj → Prop where
  | nil : SimObj .onil .onil
  | cons (k : Str) (v v' : Jv) (r r' : JvObj) :
      simVal v v' → SimObj r r' → SimObj (.ocons k v r) (.ocons k v' r')


/-! ## C3: verdict -/

/-- The concrete disciplined fields of the C3 witness. -/
def fieldC3sel : FormField :=
  { id := toStr "s1", ftype := .select, label := toStr "Wybór", required := true,
    options := some [toStr "Tak", toStr "Nie"] }

/-- A table field without columns: the export forces two default columns. -/
def fieldC3tab : FormField :=
  { id := toStr "t1", ftype := .table, label := toStr "Tabela", required := false,
    helpText := some (toStr "Wpisz dane") }

/-- A file field with a fractional size limit, exercising the number printer. -/
def fieldC3file : FormField :=
  { id := toStr "f1", ftype := .file, label := toStr "Plik", required := false,
    acceptedFileTypes := some [toStr ".pdf"], maxFileSize := some (15, -1),
    multiple := some true }

/-! ## Theorems -/

/-- `parseMarkdown`'s fold appends each section's contribution. -/
theorem foldl_pmStep (secs : List Str) (acc : ParseResult) :
    secs.foldl pmStep acc
      = ⟨acc.fields ++ secs.filterMap sectionFieldOf,
         acc.errors ++ secs.filterMap sectionErrorOf⟩ := by
  induction secs generalizing acc with
  | nil => simp
  | cons s ss ih =>
    rw [List.foldl_cons, ih]
    rw [List.filterMap_cons, List.filterMap_cons]
    unfold pmStep sectionFieldOf sectionErrorOf
    cases h : parseSection s with
    | ok o => cases o <;> simp
    | error e => simp

/-- C1: the claim asserts that `validateExportFidelity` reports a clean
round trip for every field list satisfying the data-model invariants.  The
code falsifies it: a separator field with a custom label satisfies every
§3 invariant, yet its label is exported as an HTML comment that the section
splitter never reads back, so the validator reports a label mismatch and
`isValid: false`.  The spec's round-trip contract is the stated intent
(§2 requires the encoding to survive reimport losslessly, and §9 flags this
very asymmetry as a likely latent bug), so this is a code bug, evaluated
here at the failing input. -/
theorem validateExportFidelity_custom_separator :
    validateExportFidelity
      [{ id := toStr "sep1", ftype := .separator, label := toStr "Sekcja", required := false }]
      none none
    = ⟨false, [⟨toStr "sep1", toStr "Sekcja", toStr "label", toStr "Label mismatch"⟩], []⟩ := by
  rfl

/-- C2: `parseMarkdown` processes sections independently: every successfully
parsed section contributes exactly one field, in section order, every failing
section contributes exactly one error entry (best-effort label plus message),
and no failure stops the others — in particular the four-section document
with one configuration-less section yields exactly the three good fields in
order and exactly one error. -/
theorem parseMarkdown_section_isolation :
    (∀ md, parseMarkdown md
      = ⟨(splitIntoSections md).filterMap sectionFieldOf,
         (splitIntoSections md).filterMap sectionErrorOf⟩)
    ∧ (parseMarkdown docPartialFailure).fields.map FormField.label
        = [toStr "A", toStr "B", toStr "C"]
    ∧ (parseMarkdown docPartialFailure).errors.map ParseErr.sectionLabel = [toStr "Zła"] := by
  refine ⟨fun md => ?_, by rfl, by rfl⟩
  unfold parseMarkdown
  rw [foldl_pmStep]
  simp

/-- Reduction of the section body once the header and label checks pass. -/
theorem parseSectionLines_cons (hd : Str) (rest : List Str)
    (hhdr : List.isPrefixOf (toStr "##") hd = true)
    (hlab : (trim (stripHdr hd)).isEmpty = false) :
    parseSectionLines (hd :: rest)
      = match parseConfigLine (scanConfig rest false [] []).1 with
        | .error e => .error e
        | .ok config =>
          match applyFieldProperties
              (baseField config.ftype (trim (stripHdr hd)) config.required
                (scanConfig rest false [] []).2) config.properties with
          | .error e => .error e
          | .ok f => .ok (some f) := by
  simp [parseSectionLines, hhdr, hlab]

/-- Property application on a choice-typed field: no `options` key (or a
falsy one) throws the missing-options message; an array value succeeds with
the stringified elements. -/
theorem applyFieldProperties_choice (f : FormField) (props : JvObj)
    (hty : f.ftype = .select ∨ f.ftype = .radio ∨ f.ftype = .checkbox) :
    (objGet (toStr "options") props = none →
      applyFieldProperties f props = .error (missingOptionsMsg f.ftype))
    ∧ (∀ vs, objGet (toStr "options") props = some (.jarr vs) →
        applyFieldProperties f props
          = .ok { applyPlaceholder f props with options := some (jsArrMapString vs) }) := by
  constructor
  · intro hnone
    unfold applyFieldProperties
    rcases hty with h | h | h <;> rw [h] <;> simp [hnone]
  · intro vs hsome
    unfold applyFieldProperties
    rcases hty with h | h | h <;> rw [h] <;> simp [hsome, jvTruthy]

/-- Property application on a table-typed field: a nonempty array of columns
succeeds stringified, an empty array throws the empty-columns message, and
a missing key throws the missing-columns message. -/
theorem applyFieldProperties_table (f : FormField) (props : JvObj)
    (hty : f.ftype = .table) :
    (∀ v vs, objGet (toStr "columns") props = some v → v = .jarr vs → vs ≠ .anil →
      applyFieldProperties f props
        = .ok { applyPlaceholder f props with columns := some (jsArrMapString vs) })
    ∧ (objGet (toStr "columns") props = some (.jarr .anil) →
        applyFieldProperties f props = .error emptyColumnsMsg)
    ∧ (objGet (toStr "columns") props = none →
        applyFieldProperties f props = .error missingColumnsMsg) := by
  refine ⟨?_, ?_, ?_⟩
  · intro v vs hsome hv hne
    subst hv
    unfold applyFieldProperties
    rw [hty]
    have hne' : (jsArrMapString vs).isEmpty = false := by
      cases vs with
      | anil => exact absurd rfl hne
      | acons a r => rfl
    simp [hsome, jvTruthy, hne']
  · intro hsome
    unfold applyFieldProperties
    rw [hty]
    simp [hsome, jvTruthy, jsArrMapString, arrElems]
  · intro hnone
    unfold applyFieldProperties
    rw [hty]
    simp [hnone]

/-- C4: for a section whose configuration line parses to a choice type
(`select`, `radio`, `checkbox`): a properties object without an `options`
key fails the section with the `MissingOptions` message naming the type,
while an `options` key holding an array — empty included — lets the section
parse, with the field's options the array's elements coerced to strings. -/
theorem choice_options_requirement
    (s hd : Str) (rest : List Str) (cfg : ParsedConfig)
    (hlines : ((splitNl s).map trim).filter (fun l => !l.isEmpty) = hd :: rest)
    (hhdr : List.isPrefixOf (toStr "##") hd = true)
    (hlab : (trim (stripHdr hd)).isEmpty = false)
    (hcfg : parseConfigLine (scanConfig rest false [] []).1 = .ok cfg)
    (hchoice : cfg.ftype = .select ∨ cfg.ftype = .radio ∨ cfg.ftype = .checkbox) :
    (objGet (toStr "options") cfg.properties = none →
      parseSection s = .error (missingOptionsMsg cfg.ftype))
    ∧ (∀ vs, objGet (toStr "options") cfg.properties = some (.jarr vs) →
        ∃ f, parseSection s = .ok (some f)
          ∧ f.options = some ((arrElems vs).map jsToString)) := by
  have hbase : (baseField cfg.ftype (trim (stripHdr hd)) cfg.required
      (scanConfig rest false [] []).2).ftype = cfg.ftype := rfl
  have hred : parseSection s
      = match applyFieldProperties
            (baseField cfg.ftype (trim (stripHdr hd)) cfg.required
              (scanConfig rest false [] []).2) cfg.properties with
        | .error e => .error e
        | .ok f => .ok (some f) := by
    unfold parseSection
    rw [hlines, parseSectionLines_cons hd rest hhdr hlab, hcfg]
  constructor
  · intro hnone
    rw [hred,
      (applyFieldProperties_choice _ cfg.properties (by rw [hbase]; exact hchoice)).1 hnone]
    exact rfl
  · intro vs hsome
    rw [hred,
      (applyFieldProperties_choice _ cfg.properties (by rw [hbase]; exact hchoice)).2 vs hsome]
    exact ⟨_, rfl, rfl⟩

/-- Witness for C4's theorem: `## X` over a bare `[select]` fails with the
`MissingOptions` message, and the same section with `{"options": []}`
parses to a field with an empty options array. -/
theorem choice_options_requirement_witness :
    parseSection (toStr "## X\n[select]") = .error (missingOptionsMsg .select)
    ∧ ∃ f, parseSection (toStr "## X\n[select] \x7b\"options\": []\x7d") = .ok (some f)
        ∧ f.options = some [] := by
  constructor
  · exact (choice_options_requirement _ _ _ ⟨.select, false, .onil⟩ (by rfl) (by rfl)
      (by rfl) (by rfl) (Or.inl rfl)).1 (by rfl)
  · exact (choice_options_requirement _ _ _
      ⟨.select, false, .ocons (toStr "options") (.jarr .anil) .onil⟩ (by rfl) (by rfl)
      (by rfl) (by rfl) (Or.inl rfl)).2 .anil (by rfl)

/-- C5: for a section whose configuration line parses to type `table`: a
`columns` key holding a nonempty array lets the section parse with the
field's columns the elements coerced to strings; a present-but-empty array
fails with the `EmptyColumns` message; a missing key fails the section too
(with the missing-columns message). -/
theorem table_columns_requirement
    (s hd : Str) (rest : List Str) (cfg : ParsedConfig)
    (hlines : ((splitNl s).map trim).filter (fun l => !l.isEmpty) = hd :: rest)
    (hhdr : List.isPrefixOf (toStr "##") hd = true)
    (hlab : (trim (stripHdr hd)).isEmpty = false)
    (hcfg : parseConfigLine (scanConfig rest false [] []).1 = .ok cfg)
    (ht : cfg.ftype = .table) :
    (∀ v vs, objGet (toStr "columns") cfg.properties = some v → v = .jarr vs → vs ≠ .anil →
        ∃ f, parseSection s = .ok (some f)
          ∧ f.columns = some ((arrElems vs).map jsToString))
    ∧ (objGet (toStr "columns") cfg.properties = some (.jarr .anil) →
        parseSection s = .error emptyColumnsMsg)
    ∧ (objGet (toStr "columns") cfg.properties = none →
        parseSection s = .error missingColumnsMsg) := by
  have hred : parseSection s
      = match applyFieldProperties
            (baseField cfg.ftype (trim (stripHdr hd)) cfg.required
              (scanConfig rest false [] []).2) cfg.properties with
        | .error e => .error e
        | .ok f => .ok (some f) := by
    unfold parseSection
    rw [hlines, parseSectionLines_cons hd rest hhdr hlab, hcfg]
  refine ⟨?_, ?_, ?_⟩
  · intro v vs hsome hv hne
    rw [hred, (applyFieldProperties_table _ cfg.properties (by rw [ht]; rfl)).1 v vs hsome hv hne]
    exact ⟨_, rfl, rfl⟩
  · intro hsome
    rw [hred, (applyFieldProperties_table _ cfg.properties (by rw [ht]; rfl)).2.1 hsome]
  · intro hnone
    rw [hred, (applyFieldProperties_table _ cfg.properties (by rw [ht]; rfl)).2.2 hnone]

/-- Witness for C5's theorem: `{"columns": ["A"]}` parses with columns
`["A"]`, `{"columns": []}` fails with the `EmptyColumns` message, and a bare
`[table]` fails with the missing-columns message. -/
theorem table_columns_requirement_witness :
    (∃ f, parseSection (toStr "## X\n[table] \x7b\"columns\": [\"A\"]\x7d") = .ok (some f)
        ∧ f.columns = some [toStr "A"])
    ∧ parseSection (toStr "## X\n[table] \x7b\"columns\": []\x7d") = .error emptyColumnsMsg
    ∧ parseSection (toStr "## X\n[table]") = .error missingColumnsMsg := by
  refine ⟨?_, ?_, ?_⟩
  · exact (table_columns_requirement _ _ _
      ⟨.table, false, .ocons (toStr "columns") (.jarr (.acons (.jstr (toStr "A")) .anil)) .onil⟩
      (by rfl) (by rfl) (by rfl) (by rfl) (by rfl)).1 _ (.acons (.jstr (toStr "A")) .anil)
      (by rfl) rfl (by intro h; cases h)
  · exact (table_columns_requirement _ _ _
      ⟨.table, false, .ocons (toStr "columns") (.jarr .anil) .onil⟩
      (by rfl) (by rfl) (by rfl) (by rfl) (by rfl)).2.1 (by rfl)
  · exact (table_columns_requirement _ _ _ ⟨.table, false, .onil⟩
      (by rfl) (by rfl) (by rfl) (by rfl) (by rfl)).2.2 (by rfl)

/-- One step of the JSON value parser on a brace-headed input. -/
theorem parseJVal_brace (n : Nat) (rest : Str) :
    parseJVal (n + 1) ('\x7b' :: rest)
      = match skipJWs rest with
        | '\x7d' :: r' => .ok (.jobj .onil, r')
        | r' =>
          match parseJPairs n r' with
          | .ok (kvs, r'') => .ok (.jobj kvs, r'')
          | .error e => .error e := rfl

/-- A successful `JSON.parse` of a brace-headed document yields an object,
so the non-object check inside `parseProperties` is unreachable there. -/
theorem jsonParse_brace_obj (s : Str) (v : Jv) (h : jsonParse ('\x7b' :: s) = .ok v) :
    ∃ kvs, v = .jobj kvs := by
  unfold jsonParse at h
  rw [show (2 * ('\x7b' :: s).length + 2) = (2 * ('\x7b' :: s).length + 1) + 1 from rfl,
    parseJVal_brace] at h
  split at h
  · cases h
  · rename_i p hvr
    split at h
    · split at hvr
      · cases hvr
        cases h
        exact ⟨_, rfl⟩
      · split at hvr
        · cases hvr
          cases h
          exact ⟨_, rfl⟩
        · cases hvr
    · cases h

/-- Reduction of `parseConfigLine` once its three tokens are given. -/
theorem parseConfigLine_props (line tok c : Str) (t : FieldTy)
    (htok : bracketTok line = some tok)
    (hty : fieldTyOfStr (trim tok) = some t)
    (hbrace : braceTok line = some c) :
    parseConfigLine line
      = match parseProperties c with
        | .ok props => .ok ⟨t, requiredTest line, props⟩
        | .error e => .error (invalidPropsMsg e) := by
  unfold parseConfigLine
  rw [htok]
  simp [hty, hbrace]

/-- Reduction of `parseConfigLine` when the bracket token is missing. -/
theorem parseConfigLine_no_tok (line : Str) (htok : bracketTok line = none) :
    parseConfigLine line = .error typeRequiredMsg := by
  unfold parseConfigLine
  rw [htok]

/-- Reduction of `parseConfigLine` on an unrecognised type token. -/
theorem parseConfigLine_no_type (line tok : Str) (htok : bracketTok line = some tok)
    (hty : fieldTyOfStr (trim tok) = none) :
    parseConfigLine line = .error (invalidTypeMsg (trim tok)) := by
  unfold parseConfigLine
  rw [htok]
  simp [hty]

/-- Reduction of `parseConfigLine` without a properties token. -/
theorem parseConfigLine_no_props (line tok : Str) (t : FieldTy)
    (htok : bracketTok line = some tok) (hty : fieldTyOfStr (trim tok) = some t)
    (hbrace : braceTok line = none) :
    parseConfigLine line = .ok ⟨t, requiredTest line, .onil⟩ := by
  unfold parseConfigLine
  rw [htok]
  simp [hty, hbrace]

/-- C7 (amended): for a configuration line carrying a `{...}` properties
token: whitespace-only contents yield the empty properties object without a
JSON parse; otherwise, if wrapping the contents in braces parses as strict
JSON the result is necessarily an object and becomes the properties object
exactly, and if the wrapped contents are malformed strict JSON the section
fails with the `InvalidProperties` wrapper message, which contains the
underlying JSON error message as an infix. -/
theorem config_properties_strict_json (line tok c : Str) (t : FieldTy)
    (htok : bracketTok line = some tok)
    (hty : fieldTyOfStr (trim tok) = some t)
    (hbrace : braceTok line = some c) :
    ((trim c).isEmpty = true → parseConfigLine line = .ok ⟨t, requiredTest line, .onil⟩)
    ∧ ((trim c).isEmpty = false →
        (∀ kvs, jsonParse ('\x7b' :: (c ++ ['\x7d'])) = .ok (.jobj kvs) →
            parseConfigLine line = .ok ⟨t, requiredTest line, kvs⟩)
        ∧ (∀ v, jsonParse ('\x7b' :: (c ++ ['\x7d'])) = .ok v → ∃ kvs, v = Jv.jobj kvs)
        ∧ (∀ e, jsonParse ('\x7b' :: (c ++ ['\x7d'])) = .error e →
            parseConfigLine line = .error (invalidPropsMsg (invalidJsonMsg e))
            ∧ List.IsInfix e (invalidPropsMsg (invalidJsonMsg e)))) := by
  rw [parseConfigLine_props line tok c t htok hty hbrace]
  constructor
  · intro hws
    unfold parseProperties
    rw [hws]
    rfl
  · intro hws
    refine ⟨?_, ?_, ?_⟩
    · intro kvs hok
      unfold parseProperties
      rw [hws]
      simp only [Bool.false_eq_true, if_false, hok]
    · intro v hok
      exact jsonParse_brace_obj _ v hok
    · intro e herr
      constructor
      · unfold parseProperties
        rw [hws]
        simp only [Bool.false_eq_true, if_false, herr]
      · refine ⟨toStr "Nieprawidłowa składnia właściwości: Error: "
          ++ toStr "Nieprawidłowe właściwości JSON: ", ?_, ?_⟩
        · exact toStr ". Użyj formatu: \"klucz\": \"wartość\", \"tablica\": [\"element1\", \"element2\"]"
        · simp [invalidPropsMsg, invalidJsonMsg, toStr]

/-- Witness for C7's theorem: a quoted-key properties block parses to
exactly its object, and the unquoted-key variant fails with the
`InvalidProperties` wrapper containing the JSON parser's message. -/
theorem config_properties_strict_json_witness :
    parseConfigLine (toStr "[select] \x7b\"options\": [\"a\"]\x7d")
      = .ok ⟨.select, false,
          .ocons (toStr "options") (.jarr (.acons (.jstr (toStr "a")) .anil)) .onil⟩
    ∧ parseConfigLine (toStr "[select] \x7boptions: [\"a\"]\x7d")
      = .error (invalidPropsMsg (invalidJsonMsg
          (toStr "Expected double-quoted property name in JSON object"))) := by
  constructor
  · exact ((config_properties_strict_json _ (toStr "select") _ .select (by rfl) (by rfl)
      (by rfl)).2 (by rfl)).1 _ (by rfl)
  · exact (((config_properties_strict_json _ (toStr "select") _ .select (by rfl) (by rfl)
      (by rfl)).2 (by rfl)).2.2 _ (by rfl)).1

/-- C7's counterexample to the claim as stated: the contents `"\x0b"` (a
vertical tab) are malformed strict JSON once wrapped — `JSON.parse` rejects
them — yet the section does not fail: JavaScript's `trim` discards `\x0b`,
so `parseProperties` short-circuits to an empty object and the line parses
successfully. -/
theorem strict_json_ws_counterexample :
    (∃ e, jsonParse ('\x7b' :: (['\x0b'] ++ ['\x7d'])) = .error e)
    ∧ braceTok (toStr "[text] \x7b\x0b\x7d") = some ['\x0b']
    ∧ parseConfigLine (toStr "[text] \x7b\x0b\x7d") = .ok ⟨.text, false, .onil⟩ := by
  exact ⟨⟨_, rfl⟩, rfl, rfl⟩

/-- Dropping while a predicate holds jumps over a satisfying prefix. -/
theorem dropWhile_all_append (p : Char → Bool) (w s : Str) (hw : ∀ c ∈ w, p c = true) :
    (w ++ s).dropWhile p = s.dropWhile p := by
  induction w with
  | nil => rfl
  | cons c cs ih =>
    rw [List.cons_append, List.dropWhile_cons, if_pos (hw c (by simp))]
    exact ih (fun d hd => hw d (by simp [hd]))

/-- Dropping-while stops at a failing head. -/
theorem dropWhile_cons_of_neg (p : Char → Bool) (c : Char) (s : Str) (h : p c = false) :
    (c :: s).dropWhile p = c :: s := by
  rw [List.dropWhile_cons, if_neg (by simp [h])]

/-- The six whitespace characters of `jsWsCh`. -/
theorem jsWs_cases (c : Char) (h : jsWsCh c = true) :
    c = ' ' ∨ c = '\t' ∨ c = '\n' ∨ c = '\r' ∨ c = '\x0b' ∨ c = '\x0c' := by
  simp [jsWsCh] at h
  tauto

/-- A character lowering to `r` is not whitespace. -/
theorem toLower_r_not_ws (c : Char) (h : Char.toLower c = 'r') : jsWsCh c = false := by
  by_contra hc
  rw [Bool.not_eq_false] at hc
  rcases jsWs_cases c hc with h1 | h1 | h1 | h1 | h1 | h1 <;> subst h1 <;> exact absurd h (by decide)

/-- One step of the head-anchored required matcher past its parenthesis. -/
theorem reqAt_paren (r : Str) :
    reqAt ('(' :: r)
      = (match (List.dropWhile jsWsCh r).map Char.toLower with
         | 'r' :: 'e' :: 'q' :: 'u' :: 'i' :: 'r' :: 'e' :: 'd' :: _ =>
           match List.dropWhile jsWsCh ((List.dropWhile jsWsCh r).drop 8) with
           | ')' :: _ => true
           | '?' :: r3 => ((List.dropWhile jsWsCh r3).head? == some ')')
           | _ => false
         | _ => false) := rfl

/-- The matcher once the lowered text is known to begin with `required`. -/
theorem reqAt_step2 (r tail : Str)
    (hm : (List.dropWhile jsWsCh r).map Char.toLower
        = 'r' :: 'e' :: 'q' :: 'u' :: 'i' :: 'r' :: 'e' :: 'd' :: tail) :
    reqAt ('(' :: r)
      = (match List.dropWhile jsWsCh ((List.dropWhile jsWsCh r).drop 8) with
         | ')' :: _ => true
         | '?' :: r3 => ((List.dropWhile jsWsCh r3).head? == some ')')
         | _ => false) := by
  rw [reqAt_paren, hm]
  rfl

/-- The head-anchored matcher accepts exactly the `ReqTokenAt` shape. -/
theorem reqAt_iff (s : Str) : reqAt s = true ↔ ReqTokenAt s := by
  constructor
  · intro h
    cases s with
    | nil => simp [reqAt] at h
    | cons c cs =>
      by_cases hc : c = '('
      · subst hc
        rw [reqAt_paren] at h
        split at h
        · rename_i tail heq2
          have hcs : cs = cs.takeWhile jsWsCh ++ List.dropWhile jsWsCh cs :=
            (List.takeWhile_append_dropWhile _ _).symm
          have hr8 : lowerStr ((List.dropWhile jsWsCh cs).take 8) = toStr "required" := by
            have h8 : ((List.dropWhile jsWsCh cs).map Char.toLower).take 8 = toStr "required" := by
              rw [heq2]
              rfl
            rw [← List.map_take] at h8
            exact h8
          have hr1split : List.dropWhile jsWsCh cs
              = (List.dropWhile jsWsCh cs).take 8 ++ (List.dropWhile jsWsCh cs).drop 8 :=
            (List.take_append_drop 8 _).symm
          have hrest' : (List.dropWhile jsWsCh cs).drop 8
              = ((List.dropWhile jsWsCh cs).drop 8).takeWhile jsWsCh
                ++ List.dropWhile jsWsCh ((List.dropWhile jsWsCh cs).drop 8) :=
            (List.takeWhile_append_dropWhile _ _).symm
          split at h
          · rename_i b heq3
            refine ⟨cs.takeWhile jsWsCh, (List.dropWhile jsWsCh cs).take 8,
              ((List.dropWhile jsWsCh cs).drop 8).takeWhile jsWsCh, [], b,
              ?_, fun ch hch => List.mem_takeWhile_imp hch, hr8,
              fun ch hch => List.mem_takeWhile_imp hch, Or.inl rfl⟩
            have hchain : cs = cs.takeWhile jsWsCh ++ ((List.dropWhile jsWsCh cs).take 8
                ++ (((List.dropWhile jsWsCh cs).drop 8).takeWhile jsWsCh ++ (')' :: b))) := by
              rw [← heq3, ← hrest', ← hr1split]
              exact hcs
            simp only [List.nil_append, List.cons_append, List.append_assoc]
            exact congrArg (List.cons '(') hchain
          · rename_i r3 heq3
            have hb : ∃ b, List.dropWhile jsWsCh r3 = ')' :: b := by
              cases hd : List.dropWhile jsWsCh r3 with
              | nil => rw [hd] at h; cases h
              | cons d t =>
                rw [hd] at h
                simp at h
                exact ⟨t, by rw [h]⟩
            obtain ⟨b, hb⟩ := hb
            refine ⟨cs.takeWhile jsWsCh, (List.dropWhile jsWsCh cs).take 8,
              ((List.dropWhile jsWsCh cs).drop 8).takeWhile jsWsCh,
              '?' :: r3.takeWhile jsWsCh, b,
              ?_, fun ch hch => List.mem_takeWhile_imp hch, hr8,
              fun ch hch => List.mem_takeWhile_imp hch,
              Or.inr ⟨r3.takeWhile jsWsCh, rfl, fun ch hch => List.mem_takeWhile_imp hch⟩⟩
            have hr3 : r3 = r3.takeWhile jsWsCh ++ (')' :: b) := by
              rw [← hb]
              exact (List.takeWhile_append_dropWhile _ _).symm
            have hchain : cs = cs.takeWhile jsWsCh ++ ((List.dropWhile jsWsCh cs).take 8
                ++ (((List.dropWhile jsWsCh cs).drop 8).takeWhile jsWsCh
                  ++ ('?' :: (r3.takeWhile jsWsCh ++ (')' :: b))))) := by
              rw [← hr3, ← heq3, ← hrest', ← hr1split]
              exact hcs
            simp only [List.cons_append, List.append_assoc]
            exact congrArg (List.cons '(') hchain
          · cases h
        · cases h
      · unfold reqAt at h
        split at h
        · rename_i heq
          injection heq with h1 _
          exact absurd h1 hc
        · cases h
  · rintro ⟨w1, r, w2, q, b, hs, hw1, hr, hw2, hq⟩
    subst hs
    obtain ⟨rh, rt, rfl⟩ : ∃ rh rt, r = rh :: rt := by
      cases r with
      | nil => exact absurd (congrArg List.length hr) (by decide)
      | cons rh rt => exact ⟨rh, rt, rfl⟩
    have hr' : Char.toLower rh :: lowerStr rt
        = 'r' :: 'e' :: 'q' :: 'u' :: 'i' :: 'r' :: 'e' :: 'd' :: [] := hr
    have hrh : Char.toLower rh = 'r' := by injection hr'
    have hrt : lowerStr rt = ['e', 'q', 'u', 'i', 'r', 'e', 'd'] := by
      injection hr'
    have hlen : (rh :: rt).length = 8 := by
      have hl := congrArg List.length hrt
      simp [lowerStr] at hl
      simp [hl]
    have hdw : List.dropWhile jsWsCh (w1 ++ rh :: rt ++ w2 ++ q ++ ')' :: b)
        = rh :: (rt ++ (w2 ++ q ++ ')' :: b)) := by
      simp only [List.append_assoc, List.cons_append]
      rw [dropWhile_all_append _ w1 _ hw1]
      exact dropWhile_cons_of_neg _ _ _ (toLower_r_not_ws rh hrh)
    have hmap : (rh :: (rt ++ (w2 ++ q ++ ')' :: b))).map Char.toLower
        = 'r' :: 'e' :: 'q' :: 'u' :: 'i' :: 'r' :: 'e' :: 'd' ::
            ((w2 ++ q ++ ')' :: b).map Char.toLower) := by
      show Char.toLower rh :: (rt ++ (w2 ++ q ++ ')' :: b)).map Char.toLower = _
      rw [List.map_append, hrh]
      rw [show (rt.map Char.toLower) = lowerStr rt from rfl, hrt]
      rfl
    have hdrop8 : (rh :: (rt ++ (w2 ++ q ++ ')' :: b))).drop 8 = w2 ++ q ++ ')' :: b := by
      have hd : ((rh :: rt) ++ (w2 ++ q ++ ')' :: b)).drop ((rh :: rt).length)
          = w2 ++ q ++ ')' :: b := List.drop_left _ _
      rw [hlen] at hd
      simpa using hd
    have hm : (List.dropWhile jsWsCh (w1 ++ rh :: rt ++ w2 ++ q ++ ')' :: b)).map Char.toLower
        = 'r' :: 'e' :: 'q' :: 'u' :: 'i' :: 'r' :: 'e' :: 'd' ::
            ((w2 ++ q ++ ')' :: b).map Char.toLower) := by
      rw [hdw]
      exact hmap
    rw [reqAt_step2 _ _ hm, hdw, hdrop8]
    rcases hq with rfl | ⟨w3, rfl, hw3⟩
    · rw [show w2 ++ ([] : Str) ++ ')' :: b = w2 ++ ')' :: b by simp,
        dropWhile_all_append _ w2 _ hw2, dropWhile_cons_of_neg _ _ _ (by decide)]
      rfl
    · rw [show w2 ++ ('?' :: w3) ++ ')' :: b = w2 ++ '?' :: (w3 ++ ')' :: b) by simp,
        dropWhile_all_append _ w2 _ hw2, dropWhile_cons_of_neg _ _ _ (by decide)]
      show ((List.dropWhile jsWsCh (w3 ++ ')' :: b)).head? == some ')') = true
      rw [dropWhile_all_append _ w3 _ hw3, dropWhile_cons_of_neg _ _ _ (by decide)]
      rfl

/-- The whole-line test succeeds exactly when some suffix matches. -/
theorem requiredTest_eq_any (line : Str) :
    requiredTest line = true ↔ ∃ a sfx, line = a ++ sfx ∧ reqAt sfx = true := by
  induction line with
  | nil =>
    constructor
    · intro h; simp [requiredTest] at h
    · rintro ⟨a, sfx, heq, hs⟩
      obtain ⟨rfl, rfl⟩ := List.append_eq_nil.mp heq.symm
      simp [reqAt] at hs
  | cons c cs ih =>
    rw [show requiredTest (c :: cs) = (reqAt (c :: cs) || requiredTest cs) from rfl,
      Bool.or_eq_true, ih]
    constructor
    · rintro (h | ⟨a, sfx, rfl, hs⟩)
      · exact ⟨[], c :: cs, rfl, h⟩
      · exact ⟨c :: a, sfx, rfl, hs⟩
    · rintro ⟨a, sfx, heq, hs⟩
      cases a with
      | nil =>
        simp only [List.nil_append] at heq
        subst heq
        exact Or.inl hs
      | cons a0 a' =>
        injection heq with h1 h2
        exact Or.inr ⟨a', sfx, h2, hs⟩

/-- C8 (amended): the parsed configuration's required flag is the result of
the required-pattern test, and that test succeeds exactly when the line
contains, anywhere, a case-insensitive `required` between parentheses with
optional whitespace around it and an optional trailing `?` — not only the
two literal tokens `(required)` and `(required?)` the claim names. -/
theorem required_flag_characterization (line : Str) :
    (∀ cfg, parseConfigLine line = .ok cfg → cfg.required = requiredTest line)
    ∧ (requiredTest line = true ↔ ∃ a sfx, line = a ++ sfx ∧ ReqTokenAt sfx) := by
  constructor
  · intro cfg h
    cases hbr : bracketTok line with
    | none =>
      rw [parseConfigLine_no_tok line hbr] at h
      cases h
    | some tok =>
      cases hty : fieldTyOfStr (trim tok) with
      | none =>
        rw [parseConfigLine_no_type line tok hbr hty] at h
        cases h
      | some t =>
        cases hbt : braceTok line with
        | none =>
          rw [parseConfigLine_no_props line tok t hbr hty hbt] at h
          cases h
          rfl
        | some c =>
          rw [parseConfigLine_props line tok c t hbr hty hbt] at h
          cases hp : parseProperties c with
          | ok props =>
            rw [hp] at h
            cases h
            rfl
          | error e =>
            rw [hp] at h
            cases h
  · rw [requiredTest_eq_any]
    constructor
    · rintro ⟨a, sfx, rfl, hs⟩
      exact ⟨a, sfx, rfl, (reqAt_iff sfx).mp hs⟩
    · rintro ⟨a, sfx, rfl, hs⟩
      exact ⟨a, sfx, rfl, (reqAt_iff sfx).mpr hs⟩

/-- Witness for C8's theorem, at the line `[text] (Required?)`: the parsed
flag equals the test's verdict, and the matching suffix exists. -/
theorem required_flag_characterization_witness :
    (⟨FieldTy.text, true, JvObj.onil⟩ : ParsedConfig).required
        = requiredTest (toStr "[text] (Required?)")
    ∧ ∃ a sfx, toStr "[text] (Required?)" = a ++ sfx ∧ ReqTokenAt sfx := by
  constructor
  · exact (required_flag_characterization _).1 _ (by rfl)
  · exact (required_flag_characterization _).2.mp (by rfl)

/-- C8's counterexample to the claim as stated: `( required )` — whitespace
inside the parentheses — sets the parsed flag although the line contains
neither literal token `(required)` nor `(required?)`, case-insensitively. -/
theorem required_literal_token_counterexample :
    requiredTest (toStr "[text] ( required )") = true
    ∧ (∃ cfg, parseConfigLine (toStr "[text] ( required )") = .ok cfg ∧ cfg.required = true)
    ∧ caseInsContains (toStr "(required)") (toStr "[text] ( required )") = false
    ∧ caseInsContains (toStr "(required?)") (toStr "[text] ( required )") = false := by
  exact ⟨rfl, ⟨_, rfl, rfl⟩, rfl, rfl⟩

/-- Once the configuration line is found, later lines append in order. -/
theorem scanConfig_found (ls : List Str) (cfg : Str) (help : List Str) :
    scanConfig ls true cfg help = (cfg, help ++ ls) := by
  induction ls generalizing help with
  | nil => simp [scanConfig]
  | cons l ls ih => simp [scanConfig, ih]

/-- Before the configuration line is found, lines accumulate reversed; the
first matching line becomes the configuration line and the remainder
appends in order. -/
theorem scanConfig_not_found (ls : List Str) (cfg : Str) (help : List Str) :
    scanConfig ls false cfg help
      = match ls.dropWhile (fun l => !configLineTest l) with
        | [] => (cfg, ls.reverse ++ help)
        | c :: after => (c, (ls.takeWhile (fun l => !configLineTest l)).reverse ++ help ++ after) := by
  induction ls generalizing help with
  | nil => simp [scanConfig]
  | cons l ls ih =>
    by_cases hc : configLineTest l
    · have h1 : scanConfig (l :: ls) false cfg help = scanConfig ls true l help := by
        simp [scanConfig, hc]
      have h2 : (l :: ls).dropWhile (fun x => !configLineTest x) = l :: ls := by
        simp [List.dropWhile_cons, hc]
      rw [h1, scanConfig_found, h2]
      simp [List.takeWhile_cons, hc]
    · have h1 : scanConfig (l :: ls) false cfg help = scanConfig ls false cfg (l :: help) := by
        simp [scanConfig, hc]
      have h2 : (l :: ls).dropWhile (fun x => !configLineTest x)
          = ls.dropWhile (fun x => !configLineTest x) := by
        simp [List.dropWhile_cons, hc]
      have h3 : (l :: ls).takeWhile (fun x => !configLineTest x)
          = l :: ls.takeWhile (fun x => !configLineTest x) := by
        simp [List.takeWhile_cons, hc]
      rw [h1, ih, h2, h3]
      cases hd : ls.dropWhile (fun x => !configLineTest x) with
      | nil => simp
      | cons c after => simp

/-- The placeholder step never touches the help text. -/
theorem applyPlaceholder_helpText (f : FormField) (props : JvObj) :
    (applyPlaceholder f props).helpText = f.helpText := by
  unfold applyPlaceholder
  split
  · split <;> rfl
  · rfl

/-- The `acceptedFileTypes` step never touches the help text. -/
theorem applyFileTypes_helpText (f : FormField) (props : JvObj) (r : FormField)
    (h : applyFileTypes f props = .ok r) : r.helpText = f.helpText := by
  unfold applyFileTypes at h
  repeat' split at h
  all_goals cases h
  all_goals rfl

/-- The `maxFileSize` step never touches the help text. -/
theorem applyMaxSize_helpText (f : FormField) (props : JvObj) (r : FormField)
    (h : applyMaxSize f props = .ok r) : r.helpText = f.helpText := by
  unfold applyMaxSize at h
  repeat' split at h
  all_goals cases h
  all_goals rfl

/-- The `multiple` step never touches the help text. -/
theorem applyMultiple_helpText (f : FormField) (props : JvObj) :
    (applyMultiple f props).helpText = f.helpText := by
  unfold applyMultiple
  split <;> rfl

/-- Property application never touches the help text. -/
theorem applyFieldProperties_helpText (f : FormField) (props : JvObj) (r : FormField)
    (h : applyFieldProperties f props = .ok r) : r.helpText = f.helpText := by
  have hp := applyPlaceholder_helpText f props
  unfold applyFieldProperties at h
  cases hty : f.ftype <;> simp only [hty] at h
  case text =>
    cases h
    exact hp
  case textarea =>
    cases h
    exact hp
  case email =>
    cases h
    exact hp
  case number =>
    cases h
    exact hp
  case date =>
    cases h
    exact hp
  case separator =>
    cases h
    exact hp
  case select =>
    cases ho : objGet (toStr "options") props <;> simp only [ho] at h
    · cases h
    · rename_i v
      cases htr : jvTruthy v <;>
        simp only [htr, Bool.false_eq_true, if_false, eq_self_iff_true, if_true] at h
      · cases h
      · cases v <;> cases h
        all_goals exact hp
  case radio =>
    cases ho : objGet (toStr "options") props <;> simp only [ho] at h
    · cases h
    · rename_i v
      cases htr : jvTruthy v <;>
        simp only [htr, Bool.false_eq_true, if_false, eq_self_iff_true, if_true] at h
      · cases h
      · cases v <;> cases h
        all_goals exact hp
  case checkbox =>
    cases ho : objGet (toStr "options") props <;> simp only [ho] at h
    · cases h
    · rename_i v
      cases htr : jvTruthy v <;>
        simp only [htr, Bool.false_eq_true, if_false, eq_self_iff_true, if_true] at h
      · cases h
      · cases v <;> cases h
        all_goals exact hp
  case table =>
    cases ho : objGet (toStr "columns") props <;> simp only [ho] at h
    · cases h
    · rename_i v
      cases htr : jvTruthy v <;>
        simp only [htr, Bool.false_eq_true, if_false, eq_self_iff_true, if_true] at h
      · cases h
      · cases v with
        | jarr vs =>
          cases hemp : (jsArrMapString vs).isEmpty <;>
            simp only [hemp, Bool.false_eq_true, if_false, eq_self_iff_true, if_true] at h
          · cases h
            exact hp
          · cases h
        | jnull => cases h
        | jbool b => cases h
        | jnum m e => cases h
        | jstr s2 => cases h
        | jobj o => cases h
  case file =>
    cases h1 : applyFileTypes (applyPlaceholder f props) props <;> simp only [h1] at h
    · cases h
    · rename_i f1
      cases h2 : applyMaxSize f1 props <;> simp only [h2] at h
      · cases h
      · rename_i f2
        cases h
        rw [applyMultiple_helpText, applyMaxSize_helpText _ _ _ h2,
          applyFileTypes_helpText _ _ _ h1]
        exact hp

/-- C6 (amended): the help text of a section with a configuration line is
the space-joined concatenation of the non-configuration lines, but with the
lines preceding the configuration line in *reverse* source order (the
source `unshift`s them), followed by the lines after it in source order. -/
theorem helpText_pre_lines_reversed
    (s hd : Str) (rest : List Str)
    (hlines : ((splitNl s).map trim).filter (fun l => !l.isEmpty) = hd :: rest) :
    ∀ f, parseSection s = .ok (some f) →
      f.helpText = sectionHelpText
        ((rest.takeWhile (fun l => !configLineTest l)).reverse
          ++ (rest.dropWhile (fun l => !configLineTest l)).tail) := by
  intro f h
  unfold parseSection at h
  rw [hlines] at h
  by_cases hhdr : List.isPrefixOf (toStr "##") hd
  case neg =>
    have hred : parseSectionLines (hd :: rest) = .error headerErrMsg := by
      unfold parseSectionLines
      simp [hhdr]
    rw [hred] at h
    cases h
  case pos =>
    by_cases hlab : (trim (stripHdr hd)).isEmpty = true
    case pos =>
      have hred : parseSectionLines (hd :: rest) = .error emptyLabelMsg := by
        unfold parseSectionLines
        simp [hhdr, hlab]
      rw [hred] at h
      cases h
    case neg =>
      have hlab' : (trim (stripHdr hd)).isEmpty = false := by simpa using hlab
      rw [parseSectionLines_cons hd rest hhdr hlab', scanConfig_not_found] at h
      cases hd2 : rest.dropWhile (fun l => !configLineTest l) with
      | nil =>
        simp only [hd2] at h
        have hpc : parseConfigLine ([] : Str) = .error typeRequiredMsg := rfl
        rw [hpc] at h
        cases h
      | cons c after =>
        simp only [hd2] at h
        cases hc : parseConfigLine c with
        | error e =>
          simp only [hc] at h
          cases h
        | ok config =>
          simp only [hc] at h
          split at h
          · cases h
          · rename_i r ha
            cases h
            simp only [List.tail_cons]
            rw [applyFieldProperties_helpText _ _ _ ha]
            simp [baseField]

/-- Witness for C6's theorem, at a section with two pre-configuration lines
and one post-configuration line. -/
theorem helpText_pre_lines_reversed_witness :
    ({ id := generatedId, ftype := FieldTy.text, label := toStr "H", required := false,
       helpText := some (toStr "p2 p1 post") } : FormField).helpText
      = sectionHelpText
          (([toStr "p1", toStr "p2", toStr "[text]", toStr "post"].takeWhile
              (fun l => !configLineTest l)).reverse
            ++ ([toStr "p1", toStr "p2", toStr "[text]", toStr "post"].dropWhile
              (fun l => !configLineTest l)).tail) :=
  helpText_pre_lines_reversed (toStr "## H\np1\np2\n[text]\npost") (toStr "## H")
    [toStr "p1", toStr "p2", toStr "[text]", toStr "post"] (by rfl) _ (by rfl)

/-- C6's counterexample to the claim as stated: in `## H` over lines `p1`,
`p2`, `[text]`, `post` the parsed help text is `p2 p1 post` — the lines
before the configuration line come out in reverse source order (the source
`unshift`s them) — whereas the claim predicts `p1 p2 post`. -/
theorem helpText_order_counterexample :
    (∃ f, parseSection (toStr "## H\np1\np2\n[text]\npost") = .ok (some f)
        ∧ f.helpText = some (toStr "p2 p1 post"))
    ∧ some (toStr "p2 p1 post") ≠ some (toStr "p1 p2 post") := by
  exact ⟨⟨_, rfl, rfl⟩, by decide⟩

/-- Members of a line split carry no newline. -/
theorem splitNl_no_nl (md : Str) : ∀ l ∈ splitNl md, noNl l = true := by
  induction md with
  | nil =>
    intro l hl
    simp [splitNl] at hl
    simp [hl, noNl]
  | cons c cs ih =>
    intro l hl
    unfold splitNl at hl
    by_cases hc : c = '\n'
    · rw [if_pos hc] at hl
      rcases List.mem_cons.mp hl with rfl | hl'
      · rfl
      · exact ih l hl'
    · rw [if_neg hc] at hl
      cases hsp : splitNl cs with
      | nil => rw [hsp] at hl; simp at hl; simp [hl, noNl, hc]
      | cons h t =>
        rw [hsp] at hl
        rcases List.mem_cons.mp hl with rfl | hl'
        · have hh : noNl h = true := ih h (by rw [hsp]; exact List.mem_cons_self _ _)
          simp only [noNl, List.all_cons, Bool.and_eq_true] at hh ⊢
          exact ⟨by simp [hc], hh⟩
        · exact ih l (by rw [hsp]; exact List.mem_cons_of_mem _ hl')

/-- Splitting a newline-free line yields just that line. -/
theorem splitNl_single (l : Str) (h : noNl l = true) : splitNl l = [l] := by
  induction l with
  | nil => rfl
  | cons c cs ih =>
    unfold splitNl
    simp [noNl] at h
    rw [if_neg (by simpa using h.1)]
    rw [ih (by simpa [noNl] using h.2)]

/-- One non-newline step of the line splitter. -/
theorem splitNl_cons_not_nl (c : Char) (cs : Str) (hc : ¬ c = '\n') :
    splitNl (c :: cs) = match splitNl cs with
      | [] => [[c]]
      | h :: t => (c :: h) :: t := by
  conv_lhs => rw [splitNl]
  rw [if_neg hc]

/-- Splitting after a newline-free line resumes at the newline. -/
theorem splitNl_append_nl (l r : Str) (h : noNl l = true) :
    splitNl (l ++ '\n' :: r) = l :: splitNl r := by
  induction l with
  | nil => simp [splitNl]
  | cons c cs ih =>
    simp [noNl] at h
    rw [List.cons_append, splitNl_cons_not_nl c _ (by simpa using h.1),
      ih (by simpa [noNl] using h.2)]

/-- Joining newline-free lines with newlines inverts the line split. -/
theorem splitNl_joinNl (ls : List Str) (h : ∀ l ∈ ls, noNl l = true) (hne : ls ≠ []) :
    splitNl (joinSep ['\n'] ls) = ls := by
  induction ls with
  | nil => exact absurd rfl hne
  | cons l ls ih =>
    cases ls with
    | nil => exact splitNl_single l (h l (by simp))
    | cons l2 ls' =>
      have hjoin : joinSep ['\n'] (l :: l2 :: ls') = l ++ '\n' :: joinSep ['\n'] (l2 :: ls') := by
        simp [joinSep]
      rw [hjoin, splitNl_append_nl l _ (h l (by simp)),
        ih (fun x hx => h x (by simp [hx])) (by simp)]

/-- Members of a dropWhile are members of the list. -/
theorem mem_dropWhile_mem {α : Type} {p : α → Bool} {l : List α} {x : α}
    (h : x ∈ l.dropWhile p) : x ∈ l := by
  induction l with
  | nil => simp [List.dropWhile] at h
  | cons a as ih =>
    rw [List.dropWhile_cons] at h
    by_cases hp : p a = true
    · rw [if_pos hp] at h
      exact List.mem_cons_of_mem _ (ih h)
    · rw [if_neg hp] at h
      exact h

/-- Lines before the first section start leave the splitter's state alone. -/
theorem foldl_sisStep_drop (lines : List Str) :
    lines.foldl sisStep ([], [])
      = (lines.dropWhile (fun l => !isSectionStartLine l)).foldl sisStep ([], []) := by
  induction lines with
  | nil => rfl
  | cons l ls ih =>
    by_cases hs : isSectionStartLine l = true
    · simp [List.dropWhile_cons, hs]
    · have hs' : isSectionStartLine l = false := by simpa using hs
      have hstep : sisStep ([], []) l = ([], []) := by
        unfold isSectionStartLine at hs'
        simp only [Bool.or_eq_false_iff] at hs'
        unfold sisStep
        simp [hs'.1, hs'.2]
      rw [List.foldl_cons, hstep, ih]
      simp [List.dropWhile_cons, hs']

/-- C10: every line before the first `##`-header or horizontal-rule line is
silently discarded by `parseMarkdown` — dropping those leading lines changes
neither the fields nor the errors — and in particular the `# <title>` line
and description paragraph that `exportToMarkdown` emits are lost on
reimport without a diagnostic. -/
theorem leading_lines_discarded :
    (∀ md, parseMarkdown md
        = parseMarkdown (joinSep ['\n'] ((splitNl md).dropWhile (fun l => !isSectionStartLine l))))
    ∧ parseMarkdown (exportToMarkdown [fieldC10]
          (some (toStr "Tytuł formularza")) (some (toStr "Opis formularza")))
        = parseMarkdown (exportToMarkdown [fieldC10] none none) := by
  constructor
  · intro md
    have hsec : splitIntoSections md
        = splitIntoSections (joinSep ['\n'] ((splitNl md).dropWhile (fun l => !isSectionStartLine l))) := by
      cases hdrop : (splitNl md).dropWhile (fun l => !isSectionStartLine l) with
      | nil =>
        unfold splitIntoSections
        rw [foldl_sisStep_drop, hdrop]
        rfl
      | cons d ds =>
        have hmem : ∀ l ∈ d :: ds, noNl l = true := by
          rw [← hdrop]
          exact fun l hl => splitNl_no_nl md l (mem_dropWhile_mem hl)
        unfold splitIntoSections
        rw [splitNl_joinNl _ hmem (by simp), foldl_sisStep_drop, hdrop]
    unfold parseMarkdown
    rw [hsec]
  · rfl

/-! ## C9: response-table cell escaping -/

/-- The escaped-pipe test consumes an escaped pipe pair. -/
theorem pipesEscaped_bs_pipe (r : Str) :
    pipesEscaped ('\\' :: '|' :: r) = pipesEscaped r := rfl

/-- The escaped-pipe test steps over a backslash before a non-pipe. -/
theorem pipesEscaped_bs_other (c : Char) (r : Str) (hc : ¬ c = '|') :
    pipesEscaped ('\\' :: c :: r) = pipesEscaped (c :: r) := by
  conv_lhs => unfold pipesEscaped
  split
  all_goals try simp_all
  rename_i h1 h2 heq
  rw [← heq.1]
  intro _
  decide

/-- The escaped-pipe test on a non-backslash head. -/
theorem pipesEscaped_cons_plain (c : Char) (cs : Str) (hc : ¬ c = '\\') :
    pipesEscaped (c :: cs) = if c = '|' then false else pipesEscaped cs := by
  conv_lhs => unfold pipesEscaped
  split
  all_goals try simp_all

/-- A backslash can always be prepended to an escaped string. -/
theorem pipesEscaped_cons_bs (t : Str) (h : pipesEscaped t = true) :
    pipesEscaped ('\\' :: t) = true := by
  cases t with
  | nil => decide
  | cons x r =>
    by_cases hx : x = '|'
    · subst hx
      rw [pipesEscaped_cons_plain '|' r (by decide)] at h
      simp at h
    · rw [pipesEscaped_bs_other x r hx]
      exact h

/-- The escaped-pipe test is closed under taking initial segments
(length-bounded form). -/
theorem pipesEscaped_of_append_aux (n : Nat) :
    ∀ t w : Str, t.length ≤ n → pipesEscaped (t ++ w) = true →
      pipesEscaped t = true := by
  induction n with
  | zero =>
    intro t w hl _
    rw [List.length_eq_zero.mp (Nat.le_zero.mp hl)]
    rfl
  | succ n ih =>
    intro t w hl h
    cases t with
    | nil => rfl
    | cons c cs =>
      simp only [List.cons_append] at h
      by_cases hcb : c = '\\'
      · subst hcb
        cases cs with
        | nil => decide
        | cons c2 r =>
          simp only [List.cons_append] at h
          by_cases hc2 : c2 = '|'
          · subst hc2
            rw [pipesEscaped_bs_pipe] at h ⊢
            exact ih r w (by simp at hl; omega) h
          · rw [pipesEscaped_bs_other c2 _ hc2] at h
            rw [pipesEscaped_bs_other c2 r hc2]
            exact ih (c2 :: r) w (by simp at hl ⊢; omega) (by simpa using h)
      · rw [pipesEscaped_cons_plain c _ hcb] at h
        rw [pipesEscaped_cons_plain c cs hcb]
        by_cases hp : c = '|'
        · rw [if_pos hp] at h
          simp at h
        · rw [if_neg hp] at h ⊢
          exact ih cs w (by simp at hl; omega) h

/-- The escaped-pipe test is closed under taking initial segments. -/
theorem pipesEscaped_of_append (t w : Str) (h : pipesEscaped (t ++ w) = true) :
    pipesEscaped t = true :=
  pipesEscaped_of_append_aux t.length t w le_rfl h

/-- Newline flattening never produces a pipe from a non-pipe. -/
theorem flattenNl_ne_pipe (c : Char) (hc : ¬ c = '|') : ¬ flattenNl c = '|' := by
  by_cases hn : c = '\n'
  · subst hn; decide
  · simpa [flattenNl, hn] using hc

/-- Newline flattening never produces a backslash from a non-backslash. -/
theorem flattenNl_ne_bs (c : Char) (hc : ¬ c = '\\') : ¬ flattenNl c = '\\' := by
  by_cases hn : c = '\n'
  · subst hn; decide
  · simpa [flattenNl, hn] using hc

/-- Newline flattening preserves the escaped-pipe test (length-bounded form). -/
theorem pipesEscaped_map_aux (n : Nat) :
    ∀ t : Str, t.length ≤ n → pipesEscaped t = true →
      pipesEscaped (t.map flattenNl) = true := by
  induction n with
  | zero =>
    intro t hl _
    rw [List.length_eq_zero.mp (Nat.le_zero.mp hl)]
    rfl
  | succ n ih =>
    intro t hl h
    cases t with
    | nil => rfl
    | cons c cs =>
      by_cases hcb : c = '\\'
      · subst hcb
        cases cs with
        | nil => decide
        | cons c2 r =>
          simp only [List.map_cons]
          rw [show flattenNl '\\' = '\\' from rfl]
          by_cases hc2 : c2 = '|'
          · subst hc2
            rw [show flattenNl '|' = '|' from rfl, pipesEscaped_bs_pipe]
            rw [pipesEscaped_bs_pipe] at h
            exact ih r (by simp at hl; omega) h
          · rw [pipesEscaped_bs_other _ _ (flattenNl_ne_pipe c2 hc2)]
            rw [pipesEscaped_bs_other c2 r hc2] at h
            rw [← List.map_cons]
            exact ih (c2 :: r) (by simp at hl ⊢; omega) h
      · rw [List.map_cons, pipesEscaped_cons_plain _ _ (flattenNl_ne_bs c hcb)]
        rw [pipesEscaped_cons_plain c cs hcb] at h
        by_cases hp : c = '|'
        · rw [if_pos hp] at h
          simp at h
        · rw [if_neg (flattenNl_ne_pipe c hp)]
          rw [if_neg hp] at h
          exact ih cs (by simp at hl; omega) h

/-- Newline flattening preserves the escaped-pipe test. -/
theorem pipesEscaped_map_flattenNl (t : Str) (h : pipesEscaped t = true) :
    pipesEscaped (t.map flattenNl) = true :=
  pipesEscaped_map_aux t.length t le_rfl h

/-- The pipe-escaping pass itself produces an escaped string. -/
theorem pipesEscaped_escPipe (s : Str) :
    pipesEscaped (strConcatMap escPipe s) = true := by
  induction s with
  | nil => rfl
  | cons c cs ih =>
    by_cases hc : c = '|'
    · subst hc
      show pipesEscaped ('\\' :: '|' :: strConcatMap escPipe cs) = true
      rw [pipesEscaped_bs_pipe]
      exact ih
    · by_cases hb : c = '\\'
      · subst hb
        show pipesEscaped ('\\' :: strConcatMap escPipe cs) = true
        exact pipesEscaped_cons_bs _ ih
      · show pipesEscaped (escPipe c ++ strConcatMap escPipe cs) = true
        rw [show escPipe c = [c] from by simp [escPipe, hc]]
        rw [List.cons_append, List.nil_append]
        rw [pipesEscaped_cons_plain c _ hb, if_neg hc]
        exact ih

/-- Trimming from the left preserves the escaped-pipe test. -/
theorem pipesEscaped_trimL : ∀ s : Str, pipesEscaped s = true →
    pipesEscaped (trimL s) = true := by
  intro s
  induction s with
  | nil => intro h; exact h
  | cons c cs ih =>
    intro h
    unfold trimL
    rw [List.dropWhile_cons]
    by_cases hw : jsWsCh c = true
    · rw [if_pos hw]
      have hbs : ¬ c = '\\' := by
        rcases jsWs_cases c hw with h1 | h1 | h1 | h1 | h1 | h1 <;> subst h1 <;> decide
      have hbar : ¬ c = '|' := by
        rcases jsWs_cases c hw with h1 | h1 | h1 | h1 | h1 | h1 <;> subst h1 <;> decide
      rw [pipesEscaped_cons_plain c cs hbs, if_neg hbar] at h
      exact ih h
    · rw [if_neg hw]
      exact h

/-- A string is its right-trim followed by its dropped whitespace suffix. -/
theorem trimR_decomp (s : Str) :
    s = trimR s ++ (s.reverse.takeWhile jsWsCh).reverse := by
  have h0 : s.reverse.takeWhile jsWsCh ++ s.reverse.dropWhile jsWsCh = s.reverse :=
    List.takeWhile_append_dropWhile _ _
  calc s = s.reverse.reverse := (List.reverse_reverse s).symm
    _ = (s.reverse.takeWhile jsWsCh ++ s.reverse.dropWhile jsWsCh).reverse := by rw [h0]
    _ = (s.reverse.dropWhile jsWsCh).reverse ++ (s.reverse.takeWhile jsWsCh).reverse := by
        rw [List.reverse_append]
    _ = trimR s ++ (s.reverse.takeWhile jsWsCh).reverse := rfl

/-- Trimming from the right preserves the escaped-pipe test. -/
theorem pipesEscaped_trimR (s : Str) (h : pipesEscaped s = true) :
    pipesEscaped (trimR s) = true :=
  pipesEscaped_of_append (trimR s) ((s.reverse.takeWhile jsWsCh).reverse)
    (by rw [← trimR_decomp s]; exact h)

/-- Trimming preserves the escaped-pipe test. -/
theorem pipesEscaped_trim (s : Str) (h : pipesEscaped s = true) :
    pipesEscaped (trim s) = true :=
  pipesEscaped_trimR (trimL s) (pipesEscaped_trimL s h)

/-- Members of a trimmed string are members of the string. -/
theorem mem_trim_mem {x : Char} {s : Str} (h : x ∈ trim s) : x ∈ s := by
  unfold trim trimR trimL at h
  have h1 := mem_dropWhile_mem (List.mem_reverse.mp h)
  exact mem_dropWhile_mem (List.mem_reverse.mp h1)

/-- Newline flattening leaves no newline. -/
theorem noNl_map_flattenNl (s : Str) : noNl (s.map flattenNl) = true := by
  simp only [noNl, List.all_eq_true, List.mem_map]
  rintro x ⟨c, _, rfl⟩
  by_cases hc : c = '\n' <;> simp [flattenNl, hc]

/-- Trimming preserves newline-freeness. -/
theorem noNl_trim (s : Str) (h : noNl s = true) : noNl (trim s) = true := by
  simp only [noNl, List.all_eq_true] at h ⊢
  intro x hx
  exact h x (mem_trim_mem hx)

/-- Every cell the clean-up emits has all its pipes escaped. -/
theorem escapeCell_pipes (s : Str) : pipesEscaped (escapeCell s) = true := by
  unfold escapeCell
  split
  · decide
  · exact pipesEscaped_trim _ (pipesEscaped_map_flattenNl _ (pipesEscaped_escPipe s))

/-- Every cell the clean-up emits is newline-free. -/
theorem escapeCell_noNl (s : Str) : noNl (escapeCell s) = true := by
  unfold escapeCell
  split
  · decide
  · exact noNl_trim _ (noNl_map_flattenNl _)

/-- Newline-freeness distributes over append. -/
theorem noNl_append (a b : Str) : noNl (a ++ b) = (noNl a && noNl b) := by
  simp [noNl, List.all_append]

/-- A join of newline-free strings by a newline-free separator is newline-free. -/
theorem noNl_joinSep (sep : Str) (ls : List Str) (hs : noNl sep = true)
    (h : ∀ l ∈ ls, noNl l = true) : noNl (joinSep sep ls) = true := by
  induction ls with
  | nil => rfl
  | cons l ls ih =>
    cases ls with
    | nil => exact h l (by simp)
    | cons l2 ls' =>
      rw [show joinSep sep (l :: l2 :: ls') = l ++ sep ++ joinSep sep (l2 :: ls') from by
        simp [joinSep]]
      rw [noNl_append, noNl_append]
      rw [h l (by simp), hs, ih (fun x hx => h x (by simp [hx]))]
      rfl

/-- Newline counting distributes over append. -/
theorem countNl_append (a b : Str) : countNl (a ++ b) = countNl a + countNl b := by
  simp [countNl, List.filter_append]

/-- A newline-free string has newline count zero. -/
theorem countNl_of_noNl (s : Str) (h : noNl s = true) : countNl s = 0 := by
  simp only [countNl, List.length_eq_zero, List.filter_eq_nil_iff]
  intro a ha
  simp only [noNl, List.all_eq_true] at h
  simpa using h a ha

/-- Every value cell of a response row is a cleaned-up cell. -/
theorem responseCells_mem (f2l : List (Str × Str)) (labels : List Str)
    (resp : List (Str × Jv)) :
    ∀ x ∈ responseCells f2l labels resp, ∃ t, x = escapeCell t := by
  intro x hx
  simp only [responseCells, List.mem_map] at hx
  obtain ⟨a, _, hax⟩ := hx
  exact ⟨_, hax.symm⟩

/-- A response row carries exactly one newline, its terminator. -/
theorem countNl_responseRow (fmtDate : Str → Str) (hfd : ∀ s, noNl (fmtDate s) = true)
    (f2l : List (Str × Str)) (labels : List Str) (r : ResponseRec) :
    countNl (responseRow fmtDate f2l labels r) = 1 := by
  unfold responseRow
  rw [countNl_append, countNl_append]
  have hjoin : noNl (joinSep (toStr " | ")
      (fmtDate r.submittedAt :: responseCells f2l labels r.responses)) = true := by
    refine noNl_joinSep _ _ (by decide) ?_
    intro l hl
    rcases List.mem_cons.mp hl with rfl | hl'
    · exact hfd _
    · obtain ⟨t, rfl⟩ := responseCells_mem _ _ _ l hl'
      exact escapeCell_noNl t
  rw [countNl_of_noNl _ hjoin]
  decide

/-- The concatenation steps off its head block. -/
theorem concatAll_cons {α : Type} (l : List α) (ls : List (List α)) :
    concatAll (l :: ls) = l ++ concatAll ls := rfl

/-- The rows block carries one newline per response. -/
theorem countNl_rows (fmtDate : Str → Str) (hfd : ∀ s, noNl (fmtDate s) = true)
    (f2l : List (Str × Str)) (labels : List Str) (rs : List ResponseRec) :
    countNl (concatAll (rs.map (responseRow fmtDate f2l labels))) = rs.length := by
  induction rs with
  | nil => rfl
  | cons r rest ih =>
    rw [List.map_cons, concatAll_cons, countNl_append,
      countNl_responseRow fmtDate hfd, ih, List.length_cons]
    omega

/-- The exported response document contains the block of response rows. -/
theorem exportResponses_has_rows (fmtDate : Str → Str) (nowStr : Str)
    (tpl : FormTemplate) (r : ResponseRec) (rest : List ResponseRec) (incl : Bool) :
    ∃ pre post,
      exportResponsesToMarkdown fmtDate nowStr tpl (r :: rest) incl
        = pre ++ concatAll ((r :: rest).map (responseRow fmtDate
            (collectIdLabel tpl (r :: rest)).1 (collectIdLabel tpl (r :: rest)).2)) ++ post := by
  simp only [exportResponsesToMarkdown, List.isEmpty_cons, Bool.false_eq_true, if_false]
  apply Exists.intro
  apply Exists.intro
  conv_lhs => rw [List.append_assoc]

/-- C9: every value cell the response exporter emits has all its pipes escaped
and is newline-free, an empty formatted value renders as a dash, each response
contributes exactly one newline-terminated table row (for a timestamp renderer
that emits no newline), and the exported document contains the block of those
rows, whose newline count — the table's row count — equals the number of
responses. -/
theorem response_table_cell_escaping (fmtDate : Str → Str)
    (hfd : ∀ s, noNl (fmtDate s) = true) :
    (∀ s, pipesEscaped (escapeCell s) = true ∧ noNl (escapeCell s) = true)
    ∧ (∀ v, formatCell v = [] → escapeCell (formatCell v) = ['-'])
    ∧ (∀ (f2l : List (Str × Str)) (labels : List Str) (r : ResponseRec),
        countNl (responseRow fmtDate f2l labels r) = 1)
    ∧ (∀ (nowStr : Str) (tpl : FormTemplate) (incl : Bool) (r : ResponseRec)
        (rest : List ResponseRec),
        countNl (concatAll ((r :: rest).map (responseRow fmtDate
            (collectIdLabel tpl (r :: rest)).1 (collectIdLabel tpl (r :: rest)).2)))
          = (r :: rest).length
        ∧ ∃ pre post,
            exportResponsesToMarkdown fmtDate nowStr tpl (r :: rest) incl
              = pre ++ concatAll ((r :: rest).map (responseRow fmtDate
                  (collectIdLabel tpl (r :: rest)).1
                  (collectIdLabel tpl (r :: rest)).2)) ++ post) := by
  refine ⟨fun s => ⟨escapeCell_pipes s, escapeCell_noNl s⟩,
    fun v hv => by rw [hv]; rfl,
    fun f2l labels r => countNl_responseRow fmtDate hfd f2l labels r,
    fun nowStr tpl incl r rest =>
      ⟨countNl_rows fmtDate hfd _ _ (r :: rest),
       exportResponses_has_rows fmtDate nowStr tpl r rest incl⟩⟩

/-- C9 witness: the cell guarantees at a concrete pipe-and-newline value and a
concrete one-response table. -/
theorem response_table_cell_escaping_witness :
    pipesEscaped (escapeCell (toStr "a|b" ++ '\n' :: toStr "c")) = true
    ∧ noNl (escapeCell (toStr "a|b" ++ '\n' :: toStr "c")) = true
    ∧ countNl (responseRow (fun _ => toStr "2024-05-01 10:30")
        [(toStr "f1", toStr "Pole")] [toStr "Pole"]
        ⟨toStr "r1", [(toStr "f1", Jv.jstr (toStr "x|y"))], toStr "t1"⟩) = 1 := by
  have h := response_table_cell_escaping (fun _ => toStr "2024-05-01 10:30")
    (fun s => by show noNl (toStr "2024-05-01 10:30") = true; decide)
  exact ⟨(h.1 _).1, (h.1 _).2, h.2.2.1 _ _ _⟩

/-! ## C3: foundations on line splitting and trimming -/

/-- The line splitter never returns an empty list. -/
theorem splitNl_ne_nil (s : Str) : splitNl s ≠ [] := by
  cases s with
  | nil => simp [splitNl]
  | cons c cs =>
    unfold splitNl
    by_cases hc : c = '\n'
    · rw [if_pos hc]; simp
    · rw [if_neg hc]
      cases h : splitNl cs <;> simp

/-- A leading newline contributes an empty first line. -/
theorem splitNl_nl_cons (r : Str) : splitNl ('\n' :: r) = [] :: splitNl r := rfl

/-- Splitting an append: the last line of the left part fuses with the first
line of the right part. -/
theorem splitNl_append_decomp (a b : Str) :
    ∃ init last h t, splitNl a = init ++ [last] ∧ splitNl b = h :: t
      ∧ splitNl (a ++ b) = init ++ (last ++ h) :: t := by
  induction a with
  | nil =>
    cases hb : splitNl b with
    | nil => exact absurd hb (splitNl_ne_nil b)
    | cons h t => exact ⟨[], [], h, t, rfl, rfl, by simpa using hb⟩
  | cons c cs ih =>
    obtain ⟨init, last, h, t, ha, hb, hab⟩ := ih
    by_cases hc : c = '\n'
    · subst hc
      refine ⟨[] :: init, last, h, t, ?_, hb, ?_⟩
      · rw [splitNl_nl_cons, ha]; rfl
      · rw [List.cons_append, splitNl_nl_cons, hab]; rfl
    · cases init with
      | nil =>
        refine ⟨[], c :: last, h, t, ?_, hb, ?_⟩
        · rw [splitNl_cons_not_nl c cs hc, ha]
          rfl
        · rw [List.cons_append, splitNl_cons_not_nl c _ hc, hab]
          rfl
      | cons i0 irest =>
        refine ⟨(c :: i0) :: irest, last, h, t, ?_, hb, ?_⟩
        · rw [splitNl_cons_not_nl c cs hc, ha]
          rfl
        · rw [List.cons_append, splitNl_cons_not_nl c _ hc, hab]
          rfl

/-- A cons head hops out of a line join. -/
theorem joinSep_cons_head (sep : Str) (c : Char) (l : Str) (ls : List Str) :
    joinSep sep ((c :: l) :: ls) = c :: joinSep sep (l :: ls) := by
  cases ls with
  | nil => rfl
  | cons l2 ls' => simp [joinSep]

/-- Rebuilding a string from its lines. -/
theorem join_splitNl (s : Str) : joinSep ['\n'] (splitNl s) = s := by
  induction s with
  | nil => rfl
  | cons c cs ih =>
    by_cases hc : c = '\n'
    · subst hc
      rw [splitNl_nl_cons]
      cases h : splitNl cs with
      | nil => exact absurd h (splitNl_ne_nil cs)
      | cons l ls =>
        rw [show joinSep ['\n'] ([] :: l :: ls) = '\n' :: joinSep ['\n'] (l :: ls) from by
          simp [joinSep]]
        rw [← h, ih]
    · rw [splitNl_cons_not_nl c cs hc]
      cases h : splitNl cs with
      | nil => exact absurd h (splitNl_ne_nil cs)
      | cons l ls =>
        rw [show (match l :: ls with
            | [] => [[c]]
            | h :: t => (c :: h) :: t) = (c :: l) :: ls from rfl]
        rw [joinSep_cons_head, ← h, ih]

/-- A character of a line join comes from the separator or a member. -/
theorem mem_joinSep {c : Char} (sep : Str) :
    ∀ (ls : List Str) (l : Str), l ∈ ls → c ∈ l → c ∈ joinSep sep ls := by
  intro ls
  induction ls with
  | nil => simp
  | cons a as ih =>
    intro l hl hc
    cases as with
    | nil =>
      simp only [List.mem_singleton] at hl
      subst hl
      exact hc
    | cons a2 as' =>
      rw [show joinSep sep (a :: a2 :: as') = a ++ sep ++ joinSep sep (a2 :: as') from by
        simp [joinSep]]
      rcases List.mem_cons.mp hl with rfl | hl'
      · exact List.mem_append_left _ (List.mem_append_left _ hc)
      · exact List.mem_append_right _ (ih l hl' hc)

/-- A character of a line is a character of the split string. -/
theorem mem_of_mem_splitNl {c : Char} {l s : Str} (hl : l ∈ splitNl s) (hc : c ∈ l) :
    c ∈ s := by
  rw [← join_splitNl s]
  exact mem_joinSep ['\n'] _ l hl hc

/-- Dropping-while an always-true run empties the list. -/
theorem dropWhile_head_false {α : Type} {p : α → Bool} {s : List α} {x : α} {xs : List α}
    (h : s.dropWhile p = x :: xs) : p x = false := by
  induction s with
  | nil => simp [List.dropWhile] at h
  | cons a as ih =>
    rw [List.dropWhile_cons] at h
    by_cases hp : p a = true
    · rw [if_pos hp] at h
      exact ih h
    · rw [if_neg hp] at h
      obtain ⟨rfl, -⟩ := List.cons.inj h
      simpa using hp

/-- A fully dropped list was all matches. -/
theorem all_of_dropWhile_nil {α : Type} {p : α → Bool} {s : List α}
    (h : s.dropWhile p = []) : ∀ c ∈ s, p c = true := by
  induction s with
  | nil => simp
  | cons a as ih =>
    rw [List.dropWhile_cons] at h
    by_cases hp : p a = true
    · rw [if_pos hp] at h
      intro c hc
      rcases List.mem_cons.mp hc with rfl | hc'
      · exact hp
      · exact ih h c hc'
    · rw [if_neg hp] at h
      simp at h

/-- dropWhile is idempotent. -/
theorem dropWhile_idem {α : Type} (p : α → Bool) (s : List α) :
    (s.dropWhile p).dropWhile p = s.dropWhile p := by
  cases h : s.dropWhile p with
  | nil => rfl
  | cons x xs =>
    rw [List.dropWhile_cons, if_neg (by simp [dropWhile_head_false h])]

/-- The whitespace-only trim is empty. -/
theorem trim_allWs {s : Str} (h : ∀ c ∈ s, jsWsCh c = true) : trim s = [] := by
  have h1 : trimL s = [] := by
    have := dropWhile_all_append jsWsCh s [] h
    simpa [trimL] using this
  unfold trim
  rw [h1]
  rfl

/-- Appending trailing whitespace leaves the right trim alone. -/
theorem trimR_append_ws {s w : Str} (h : ∀ c ∈ w, jsWsCh c = true) :
    trimR (s ++ w) = trimR s := by
  unfold trimR trimL
  rw [List.reverse_append,
    dropWhile_all_append jsWsCh w.reverse s.reverse (fun c hc => h c (List.mem_reverse.mp hc))]

/-- Appending trailing whitespace leaves the trim alone. -/
theorem trim_append_ws {s w : Str} (h : ∀ c ∈ w, jsWsCh c = true) :
    trim (s ++ w) = trim s := by
  unfold trim
  cases htl : trimL s with
  | nil =>
    have hs : ∀ c ∈ s, jsWsCh c = true := all_of_dropWhile_nil htl
    have h2 : trimL (s ++ w) = [] := by
      unfold trimL
      rw [dropWhile_all_append jsWsCh s w hs]
      have := dropWhile_all_append jsWsCh w [] h
      simpa using this
    rw [h2]
  | cons x xs =>
    have h2 : trimL (s ++ w) = trimL s ++ w := by
      unfold trimL
      rw [List.dropWhile_append]
      rw [show (s.dropWhile jsWsCh).isEmpty = false from by
        unfold trimL at htl; simp [htl]]
      simp
    rw [h2, trimR_append_ws h, htl]

/-- Prepending leading whitespace leaves the trim alone. -/
theorem trim_ws_append {w s : Str} (h : ∀ c ∈ w, jsWsCh c = true) :
    trim (w ++ s) = trim s := by
  unfold trim trimL
  rw [dropWhile_all_append jsWsCh w s h]

/-- Right trim is idempotent. -/
theorem trimR_idem (s : Str) : trimR (trimR s) = trimR s := by
  unfold trimR trimL
  rw [List.reverse_reverse, dropWhile_idem]

/-- Trim is idempotent. -/
theorem trim_trim (s : Str) : trim (trim s) = trim s := by
  unfold trim
  cases hz : trimR (trimL s) with
  | nil => simp [trimL, trimR]
  | cons x xs =>
    have hx : jsWsCh x = false := by
      have hdec := trimR_decomp (trimL s)
      rw [hz] at hdec
      cases hz2 : trimL s with
      | nil => rw [hz2] at hdec; simp at hdec
      | cons y ys =>
        have hy : jsWsCh y = false := dropWhile_head_false hz2
        rw [hz2] at hdec
        have : y = x := by
          have := congrArg List.head? hdec
          simpa using this
        rw [← this]
        exact hy
    have h1 : trimL (x :: xs) = x :: xs := by
      unfold trimL
      rw [List.dropWhile_cons, if_neg (by simp [hx])]
    rw [h1, ← hz, trimR_idem]

/-- The configuration-line test ignores outer whitespace. -/
theorem configLineTest_trim (l : Str) : configLineTest (trim l) = configLineTest l := by
  unfold configLineTest
  rw [trim_trim]

/-- A string with non-whitespace first and last characters trims to itself. -/
theorem trim_noop {s : Str}
    (hh : ∀ c, s.head? = some c → jsWsCh c = false)
    (hl : ∀ c, s.getLast? = some c → jsWsCh c = false) : trim s = s := by
  have h1 : trimL s = s := by
    cases s with
    | nil => rfl
    | cons a as =>
      unfold trimL
      rw [List.dropWhile_cons, if_neg (by simp [hh a rfl])]
  have h2 : trimR s = s := by
    unfold trimR trimL
    cases hr : s.reverse with
    | nil => simpa using congrArg List.reverse hr
    | cons a as =>
      have ha : s.getLast? = some a := by
        rw [← List.head?_reverse, hr]
        rfl
      rw [List.dropWhile_cons, if_neg (by simp [hl a ha]), ← hr, List.reverse_reverse]
  unfold trim
  rw [h1, h2]

/-! ## C3: line provenance through trimming -/

/-- Lines of a right-trimmed string have trim-equal partners in the string. -/
theorem lines_trimR_transfer (y : Str) :
    ∀ raw ∈ splitNl (trimR y), ∃ r2 ∈ splitNl y, trim raw = trim r2 := by
  intro raw hraw
  have hdec := trimR_decomp y
  have hwws : ∀ c ∈ (y.reverse.takeWhile jsWsCh).reverse, jsWsCh c = true := by
    intro c hc
    exact List.mem_takeWhile_imp (List.mem_reverse.mp hc)
  obtain ⟨init, last, h, t, h1, h2, h3⟩ :=
    splitNl_append_decomp (trimR y) ((y.reverse.takeWhile jsWsCh).reverse)
  rw [← hdec] at h3
  rw [h1] at hraw
  rcases List.mem_append.mp hraw with hi | hlast
  · exact ⟨raw, by rw [h3]; exact List.mem_append_left _ hi, rfl⟩
  · simp only [List.mem_singleton] at hlast
    subst hlast
    refine ⟨raw ++ h, by rw [h3]; exact List.mem_append_right _ (List.mem_cons_self _ _), ?_⟩
    have hh : ∀ c ∈ h, jsWsCh c = true := fun c hc =>
      hwws c (mem_of_mem_splitNl (by rw [h2]; exact List.mem_cons_self _ _) hc)
    exact (trim_append_ws hh).symm

/-- Lines of a left-trimmed string have trim-equal partners in the string. -/
theorem lines_trimL_transfer (x : Str) :
    ∀ raw ∈ splitNl (trimL x), ∃ r2 ∈ splitNl x, trim raw = trim r2 := by
  intro raw hraw
  have hx : x = x.takeWhile jsWsCh ++ trimL x := (List.takeWhile_append_dropWhile _ _).symm
  have hwws : ∀ c ∈ x.takeWhile jsWsCh, jsWsCh c = true := fun c hc =>
    List.mem_takeWhile_imp hc
  obtain ⟨init, last, h, t, h1, h2, h3⟩ :=
    splitNl_append_decomp (x.takeWhile jsWsCh) (trimL x)
  rw [← hx] at h3
  rw [h2] at hraw
  rcases List.mem_cons.mp hraw with rfl | ht
  · refine ⟨last ++ raw,
      by rw [h3]; exact List.mem_append_right _ (List.mem_cons_self _ _), ?_⟩
    have hlast : ∀ c ∈ last, jsWsCh c = true := fun c hc =>
      hwws c (mem_of_mem_splitNl
        (by rw [h1]; exact List.mem_append_right _ (List.mem_singleton.mpr rfl)) hc)
    exact (trim_ws_append hlast).symm
  · refine ⟨raw, ?_, rfl⟩
    rw [h3]
    exact List.mem_append_right _ (List.mem_cons_of_mem _ ht)

/-- Lines of a trimmed string have trim-equal partners in the string. -/
theorem lines_trim_transfer (x : Str) :
    ∀ raw ∈ splitNl (trim x), ∃ r2 ∈ splitNl x, trim raw = trim r2 := by
  intro raw hraw
  obtain ⟨r1, hr1, he1⟩ := lines_trimR_transfer (trimL x) raw hraw
  obtain ⟨r2, hr2, he2⟩ := lines_trimL_transfer x r1 hr1
  exact ⟨r2, hr2, he1.trans he2⟩

/-! ## C3: the messages the amended claim rules out -/

/-- The missing-options message starts with a `T`. -/
theorem head_missingOptionsMsg (t : FieldTy) : (missingOptionsMsg t).head? = some 'T' := rfl

/-- The invalid-type message starts with an `N`. -/
theorem head_invalidTypeMsg (x : Str) : (invalidTypeMsg x).head? = some 'N' := rfl

/-- The invalid-properties wrapper starts with an `N`. -/
theorem head_invalidPropsMsg (x : Str) : (invalidPropsMsg x).head? = some 'N' := rfl

/-- A message starting with `N` is not a forbidden message. -/
theorem notBanned_of_head_N (e : Str) (he : e.head? = some 'N') : notBanned e := by
  refine ⟨fun ty h => ?_, fun h => ?_, fun h => ?_⟩
  · rw [h] at he
    exact absurd (he.symm.trans (head_missingOptionsMsg ty)) (by decide)
  · rw [h] at he
    exact absurd he (by decide)
  · rw [h] at he
    exact absurd he (by decide)

/-- The header message is not forbidden. -/
theorem headerErr_notBanned : notBanned headerErrMsg := by
  refine ⟨fun ty h => ?_, by decide, by decide⟩
  cases ty <;> exact absurd h (by decide)

/-- The empty-label message is not forbidden. -/
theorem emptyLabel_notBanned : notBanned emptyLabelMsg := by
  refine ⟨fun ty h => ?_, by decide, by decide⟩
  cases ty <;> exact absurd h (by decide)

/-- The missing-type message is not forbidden. -/
theorem typeRequired_notBanned : notBanned typeRequiredMsg := by
  refine ⟨fun ty h => ?_, by decide, by decide⟩
  cases ty <;> exact absurd h (by decide)

/-- Any error of `parseConfigLine` is a missing-type, invalid-type or
invalid-properties message. -/
theorem parseConfigLine_error_shape (l : Str) (e : Str) (h : parseConfigLine l = .error e) :
    e = typeRequiredMsg ∨ (∃ x, e = invalidTypeMsg x) ∨ (∃ x, e = invalidPropsMsg x) := by
  cases hb : bracketTok l with
  | none =>
    rw [parseConfigLine_no_tok l hb] at h
    exact Or.inl (Except.error.inj h).symm
  | some tok =>
    cases hf : fieldTyOfStr (trim tok) with
    | none =>
      rw [parseConfigLine_no_type l tok hb hf] at h
      exact Or.inr (Or.inl ⟨trim tok, (Except.error.inj h).symm⟩)
    | some t =>
      cases hbr : braceTok l with
      | none =>
        rw [parseConfigLine_no_props l tok t hb hf hbr] at h
        exact absurd h (by simp)
      | some c =>
        rw [parseConfigLine_props l tok c t hb hf hbr] at h
        cases hp : parseProperties c with
        | ok props => rw [hp] at h; exact absurd h (by simp)
        | error e2 =>
          rw [hp] at h
          exact Or.inr (Or.inr ⟨e2, (Except.error.inj h).symm⟩)

/-- No error of `parseConfigLine` is a forbidden message. -/
theorem parseConfigLine_error_notBanned (l : Str) (e : Str)
    (h : parseConfigLine l = .error e) : notBanned e := by
  rcases parseConfigLine_error_shape l e h with rfl | ⟨x, rfl⟩ | ⟨x, rfl⟩
  · exact typeRequired_notBanned
  · exact notBanned_of_head_N _ (head_invalidTypeMsg x)
  · exact notBanned_of_head_N _ (head_invalidPropsMsg x)

/-! ## C3: section errors come from the chosen configuration line -/

/-- The chosen configuration line is the initial value or a matching member. -/
theorem scanConfig_chosen (ls : List Str) :
    (scanConfig ls false [] []).1 = ([] : Str)
    ∨ ((scanConfig ls false [] []).1 ∈ ls
        ∧ configLineTest (scanConfig ls false [] []).1 = true) := by
  rw [scanConfig_not_found]
  cases hd : ls.dropWhile (fun l => !configLineTest l) with
  | nil => exact Or.inl rfl
  | cons c after =>
    refine Or.inr ⟨?_, ?_⟩
    · show c ∈ ls
      exact mem_dropWhile_mem (by rw [hd]; exact List.mem_cons_self c after)
    · show configLineTest c = true
      simpa using dropWhile_head_false hd

/-- A failing section body only reports a forbidden message through a
scan-unsafe line. -/
theorem parseSectionLines_error_notBanned (ls : List Str)
    (hsafe : ∀ l ∈ ls, scanSafe l) :
    ∀ e, parseSectionLines ls = .error e → notBanned e := by
  intro e h
  cases ls with
  | nil => simp [parseSectionLines] at h
  | cons headerLine rest =>
    by_cases hpre : List.isPrefixOf (toStr "##") headerLine = true
    · by_cases hlab : (trim (stripHdr headerLine)).isEmpty = true
      · have hred : parseSectionLines (headerLine :: rest) = .error emptyLabelMsg := by
          simp [parseSectionLines, hpre, hlab]
        rw [hred] at h
        rw [← Except.error.inj h]
        exact emptyLabel_notBanned
      · rw [parseSectionLines_cons headerLine rest hpre (by simpa using hlab)] at h
        cases hcfg : parseConfigLine (scanConfig rest false [] []).1 with
        | error e2 =>
          simp only [hcfg] at h
          rw [← Except.error.inj h]
          exact parseConfigLine_error_notBanned _ e2 hcfg
        | ok config =>
          simp only [hcfg] at h
          cases happ : applyFieldProperties
              (baseField config.ftype (trim (stripHdr headerLine)) config.required
                (scanConfig rest false [] []).2) config.properties with
          | ok f =>
            simp only [happ] at h
            exact absurd h (by simp)
          | error e2 =>
            simp only [happ] at h
            rw [← Except.error.inj h]
            rcases scanConfig_chosen rest with hnil | ⟨hmem, hcl⟩
            · rw [hnil] at hcfg
              rw [parseConfigLine_no_tok [] rfl] at hcfg
              exact absurd hcfg (by simp)
            · exact hsafe _ (List.mem_cons_of_mem _ hmem) hcl config hcfg _ rfl e2 happ
    · have hred : parseSectionLines (headerLine :: rest) = .error headerErrMsg := by
        simp [parseSectionLines, hpre]
      rw [hred] at h
      rw [← Except.error.inj h]
      exact headerErr_notBanned

/-- A failing section whose trimmed lines are all scan-safe never reports a
forbidden message. -/
theorem parseSection_error_notBanned (sec : Str)
    (hsafe : ∀ raw ∈ splitNl sec, scanSafe (trim raw)) :
    ∀ e, parseSection sec = .error e → notBanned e := by
  intro e h
  unfold parseSection at h
  refine parseSectionLines_error_notBanned _ ?_ e h
  intro l hl
  rw [List.mem_filter] at hl
  obtain ⟨hl1, -⟩ := hl
  rw [List.mem_map] at hl1
  obtain ⟨raw, hraw, rfl⟩ := hl1
  exact hsafe raw hraw

/-- The splitter's fold keeps every accumulated line a document or synthetic
line. -/
theorem sisStep_fold_invariant (md : Str) :
    ∀ (ls : List Str) (st : List Str × List Str),
      (∀ l ∈ ls, l ∈ splitNl md) →
      (∀ sec ∈ st.1, ∀ raw ∈ splitNl sec, docLine md raw) →
      (∀ l ∈ st.2, docLine md l ∧ noNl l = true) →
      (∀ sec ∈ (ls.foldl sisStep st).1, ∀ raw ∈ splitNl sec, docLine md raw)
      ∧ (∀ l ∈ (ls.foldl sisStep st).2, docLine md l ∧ noNl l = true) := by
  intro ls
  induction ls with
  | nil => exact fun st _ h1 h2 => ⟨h1, h2⟩
  | cons l ls ih =>
    intro st hls h1 h2
    rw [List.foldl_cons]
    have hl : l ∈ splitNl md := hls l (List.mem_cons_self _ _)
    have hlnn : noNl l = true := splitNl_no_nl md l hl
    have hls' : ∀ x ∈ ls, x ∈ splitNl md := fun x hx => hls x (List.mem_cons_of_mem _ hx)
    have hflush : ∀ sec ∈ (if st.2.isEmpty then st.1 else st.1 ++ [joinSep ['\n'] st.2]),
        ∀ raw ∈ splitNl sec, docLine md raw := by
      split
      · exact h1
      · intro sec hsec raw hraw
        rcases List.mem_append.mp hsec with hs | hs
        · exact h1 sec hs raw hraw
        · simp only [List.mem_singleton] at hs
          subst hs
          rename_i hne
          rw [splitNl_joinNl st.2 (fun x hx => (h2 x hx).2)
            (by simpa using hne)] at hraw
          exact (h2 raw hraw).1
    by_cases hp : List.isPrefixOf (toStr "##") (trim l) = true
    · have hstep : sisStep st l
          = ((if st.2.isEmpty then st.1 else st.1 ++ [joinSep ['\n'] st.2]), [l]) := by
        simp [sisStep, hp]
      rw [hstep]
      refine ih _ hls' hflush ?_
      intro x hx
      simp only [List.mem_singleton] at hx
      subst hx
      exact ⟨Or.inl hl, hlnn⟩
    · by_cases hh : isHrTrim (trim l) = true
      · have hstep : sisStep st l
            = ((if st.2.isEmpty then st.1 else st.1 ++ [joinSep ['\n'] st.2]),
               [toStr "## Belka dzieląca", toStr "[separator]"]) := by
          simp [sisStep, hp, hh]
        rw [hstep]
        refine ih _ hls' hflush ?_
        intro x hx
        rcases List.mem_cons.mp hx with rfl | hx'
        · exact ⟨Or.inr (Or.inl rfl), by decide⟩
        · simp only [List.mem_singleton] at hx'
          subst hx'
          exact ⟨Or.inr (Or.inr rfl), by decide⟩
      · by_cases hcur : st.2.isEmpty = true
        · have hstep : sisStep st l = st := by
            simp [sisStep, hp, hh, hcur]
          rw [hstep]
          exact ih _ hls' h1 h2
        · have hstep : sisStep st l = (st.1, st.2 ++ [l]) := by
            simp [sisStep, hp, hh, hcur]
          rw [hstep]
          refine ih _ hls' h1 ?_
          intro x hx
          rcases List.mem_append.mp hx with hx' | hx'
          · exact h2 x hx'
          · simp only [List.mem_singleton] at hx'
            subst hx'
            exact ⟨Or.inl hl, hlnn⟩

/-- Every line of every section of a document is a document line or one of
the two synthetic separator lines. -/
theorem splitIntoSections_line_provenance (md : Str) :
    ∀ sec ∈ splitIntoSections md, ∀ raw ∈ splitNl sec, docLine md raw := by
  have hinv := sisStep_fold_invariant md (splitNl md) ([], [])
    (fun l hl => hl) (by simp) (by simp)
  intro sec hsec raw hraw
  unfold splitIntoSections at hsec
  rw [List.mem_filter] at hsec
  obtain ⟨hsec, -⟩ := hsec
  revert hsec
  split
  · intro hsec
    exact hinv.1 sec hsec raw hraw
  · intro hsec
    rcases List.mem_append.mp hsec with hs | hs
    · exact hinv.1 sec hs raw hraw
    · simp only [List.mem_singleton] at hs
      subst hs
      rename_i hne
      rw [splitNl_joinNl _ (fun x hx => (hinv.2 x hx).2) (by simpa using hne)] at hraw
      exact (hinv.2 raw hraw).1

/-- Every error entry of `parseMarkdown` is the error of a failing section. -/
theorem parseMarkdown_error_origin (md : Str) :
    ∀ err ∈ (parseMarkdown md).errors, ∃ sec ∈ splitIntoSections md,
      parseSection sec = .error err.error := by
  intro err herr
  unfold parseMarkdown at herr
  rw [foldl_pmStep] at herr
  simp only [List.nil_append, List.mem_filterMap] at herr
  obtain ⟨sec, hsec, hof⟩ := herr
  unfold sectionErrorOf at hof
  cases hps : parseSection sec with
  | ok o => rw [hps] at hof; cases o <;> simp at hof
  | error e =>
    rw [hps] at hof
    refine ⟨sec, hsec, ?_⟩
    rw [hps, ← Option.some.inj hof]

/-! ## C3: characters of printed JSON -/

/-- A hex digit character produced by `toHexCh` re-reads to its value and is
a harmless character. -/
theorem toHexCh_facts (n : Nat) (h : n < 16) :
    hexDigVal (toHexCh n) = some n ∧ ¬toHexCh n = '\n' ∧ ¬toHexCh n = '\x7d' := by
  interval_cases n <;> exact ⟨by decide, by decide, by decide⟩

/-- Characters of an escaped character: never a newline, and a closing brace
only from a closing brace. -/
theorem jsonEscapeChar_chars (c : Char) :
    (∀ x ∈ jsonEscapeChar c, ¬x = '\n') ∧ (¬c = '\x7d' → ∀ x ∈ jsonEscapeChar c, ¬x = '\x7d') := by
  unfold jsonEscapeChar
  by_cases h1 : c = '"'
  · simp [h1]
  · rw [if_neg h1]
    by_cases h2 : c = '\\'
    · simp [h2]
    · rw [if_neg h2]
      by_cases h3 : c = '\n'
      · simp [h3]
      · rw [if_neg h3]
        by_cases h4 : c = '\r'
        · simp [h4]
        · rw [if_neg h4]
          by_cases h5 : c = '\t'
          · simp [h5]
          · rw [if_neg h5]
            by_cases h6 : c = '\x08'
            · simp [h6]
            · rw [if_neg h6]
              by_cases h7 : c = '\x0c'
              · simp [h7]
              · rw [if_neg h7]
                by_cases h8 : c.toNat < 32
                · rw [if_pos h8]
                  have hhi := toHexCh_facts (c.toNat / 16) (by omega)
                  have hlo := toHexCh_facts (c.toNat % 16) (by omega)
                  constructor
                  · intro x hx
                    simp only [List.mem_cons, List.not_mem_nil, or_false] at hx
                    rcases hx with rfl | rfl | rfl | rfl | rfl | rfl
                    · decide
                    · decide
                    · decide
                    · decide
                    · exact hhi.2.1
                    · exact hlo.2.1
                  · intro _ x hx
                    simp only [List.mem_cons, List.not_mem_nil, or_false] at hx
                    rcases hx with rfl | rfl | rfl | rfl | rfl | rfl
                    · decide
                    · decide
                    · decide
                    · decide
                    · exact hhi.2.2
                    · exact hlo.2.2
                · rw [if_neg h8]
                  constructor
                  · intro x hx
                    simp only [List.mem_singleton] at hx
                    subst hx
                    intro hxe
                    subst hxe
                    exact h8 (by decide)
                  · intro hc x hx
                    simp only [List.mem_singleton] at hx
                    subst hx
                    exact hc

/-- Membership in a character-level expansion. -/
theorem mem_strConcatMap {c : Char} (f : Char → Str) :
    ∀ s : Str, c ∈ strConcatMap f s → ∃ a ∈ s, c ∈ f a := by
  intro s
  induction s with
  | nil => simp [strConcatMap]
  | cons a as ih =>
    intro h
    rw [show strConcatMap f (a :: as) = f a ++ strConcatMap f as from rfl] at h
    rcases List.mem_append.mp h with h' | h'
    · exact ⟨a, List.mem_cons_self _ _, h'⟩
    · obtain ⟨b, hb, hcb⟩ := ih h'
      exact ⟨b, List.mem_cons_of_mem _ hb, hcb⟩

/-- An escaped string body contains no newline. -/
theorem jsonEscape_no_nl (s : Str) : ∀ x ∈ jsonEscape s, ¬x = '\n' := by
  intro x hx
  obtain ⟨a, -, hxa⟩ := mem_strConcatMap jsonEscapeChar s hx
  exact (jsonEscapeChar_chars a).1 x hxa

/-- An escaped brace-free string body contains no closing brace. -/
theorem jsonEscape_no_brace (s : Str) (h : '\x7d' ∉ s) : ∀ x ∈ jsonEscape s, ¬x = '\x7d' := by
  intro x hx
  obtain ⟨a, ha, hxa⟩ := mem_strConcatMap jsonEscapeChar s hx
  exact (jsonEscapeChar_chars a).2 (fun hc => h (hc ▸ ha)) x hxa

/-- Digits of the positional rendering of a natural number. -/
theorem natToStrAux_digits : ∀ (fuel n : Nat), ∀ c ∈ natToStrAux fuel n, isDigitCh c = true := by
  intro fuel
  induction fuel with
  | zero => simp [natToStrAux]
  | succ fuel ih =>
    intro n c hc
    unfold natToStrAux at hc
    by_cases hn : n = 0
    · simp [hn] at hc
    · rw [if_neg hn] at hc
      rcases List.mem_append.mp hc with h' | h'
      · exact ih (n / 10) c h'
      · simp only [List.mem_singleton] at h'
        subst h'
        have hlt : n % 10 < 10 := Nat.mod_lt _ (by omega)
        interval_cases h : n % 10 <;> decide

/-- Every character of a rendered natural number is a digit. -/
theorem natToStr_digits (n : Nat) : ∀ c ∈ natToStr n, isDigitCh c = true := by
  intro c hc
  unfold natToStr at hc
  by_cases hn : n = 0
  · simp [hn] at hc
    subst hc
    decide
  · rw [if_neg hn] at hc
    exact natToStrAux_digits (n + 1) n c hc

/-- Every character of a rendered scaled decimal is a digit, a minus sign or
a dot. -/
theorem jsNumToStr_chars (m e : Int) :
    ∀ c ∈ jsNumToStr m e, isDigitCh c = true ∨ c = '-' ∨ c = '.' := by
  intro c hc
  unfold jsNumToStr at hc
  by_cases he : 0 ≤ e
  · rw [if_pos he] at hc
    unfold intToStr at hc
    rcases List.mem_append.mp hc with h' | h'
    · revert h'
      split
      · intro h'
        simp only [List.mem_singleton] at h'
        subst h'
        right; left; rfl
      · intro h'
        simp at h'
    · exact Or.inl (natToStr_digits _ c h')
  · rw [if_neg he] at hc
    simp only at hc
    by_cases hk : e.natAbs < (natToStr m.natAbs).length
    · rw [if_pos hk] at hc
      rcases List.mem_append.mp hc with h' | h'
      · rcases List.mem_append.mp h' with h'' | h''
        · rcases List.mem_append.mp h'' with h3 | h3
          · revert h3
            split
            · intro h3
              simp only [List.mem_singleton] at h3
              subst h3
              right; left; rfl
            · intro h3
              simp at h3
          · exact Or.inl (natToStr_digits _ c (List.mem_of_mem_take h3))
        · simp only [List.mem_singleton] at h''
          subst h''
          right; right; rfl
      · exact Or.inl (natToStr_digits _ c (List.mem_of_mem_drop h'))
    · rw [if_neg hk] at hc
      rcases List.mem_append.mp hc with h' | h'
      · rcases List.mem_append.mp h' with h'' | h''
        · rcases List.mem_append.mp h'' with h3 | h3
          · revert h3
            split
            · intro h3
              simp only [List.mem_singleton] at h3
              subst h3
              right; left; rfl
            · intro h3
              simp at h3
          · simp only [List.mem_cons, List.not_mem_nil, or_false] at h3
            rcases h3 with rfl | rfl
            · left; decide
            · right; right; rfl
        · left
          have := List.eq_of_mem_replicate h''
          subst this
          decide
      · exact Or.inl (natToStr_digits _ c h')

/-- A digit, minus or dot is neither a newline nor a closing brace. -/
theorem jsNumToStr_harmless (m e : Int) :
    ∀ c ∈ jsNumToStr m e, ¬c = '\n' ∧ ¬c = '\x7d' := by
  intro c hc
  rcases jsNumToStr_chars m e c hc with hd | rfl | rfl
  · constructor <;> (intro h; subst h; exact absurd hd (by decide))
  · exact ⟨by decide, by decide⟩
  · exact ⟨by decide, by decide⟩

/-- Characters of a printed string value with no brace inside. -/
theorem jvToJson_jstr_chars (s : Str) (hs : '\x7d' ∉ s) :
    ∀ x ∈ jvToJson (.jstr s), ¬x = '\n' ∧ ¬x = '\x7d' := by
  intro x hx
  rw [show jvToJson (.jstr s) = '"' :: (jsonEscape s ++ ['"']) from rfl] at hx
  rcases List.mem_cons.mp hx with rfl | hx'
  · exact ⟨by decide, by decide⟩
  · rcases List.mem_append.mp hx' with h' | h'
    · exact ⟨jsonEscape_no_nl s x h', jsonEscape_no_brace s hs x h'⟩
    · simp only [List.mem_singleton] at h'
      subst h'
      exact ⟨by decide, by decide⟩

/-- Characters of a printed array of brace-free strings (bounded form). -/
theorem jvArrBody_chars_aux (n : Nat) : ∀ vs : JvArr, arrLen vs ≤ n →
    (∀ v ∈ arrElems vs, ∃ s, v = Jv.jstr s ∧ '\x7d' ∉ s) →
    ∀ x ∈ jvArrBody vs, ¬x = '\n' ∧ ¬x = '\x7d' := by
  induction n with
  | zero =>
    intro vs hn hv
    cases vs with
    | anil => simp [jvArrBody]
    | acons v r => simp [arrLen] at hn
  | succ n ih =>
    intro vs hn hv
    cases vs with
    | anil => simp [jvArrBody]
    | acons v r =>
      intro x hx
      obtain ⟨s, rfl, hs⟩ := hv v (by simp [arrElems])
      cases r with
      | anil =>
        rw [show jvArrBody (.acons (Jv.jstr s) .anil) = jvToJson (Jv.jstr s) from rfl] at hx
        exact jvToJson_jstr_chars s hs x hx
      | acons v2 r2 =>
        rw [show jvArrBody (.acons (Jv.jstr s) (.acons v2 r2))
            = jvToJson (Jv.jstr s) ++ [','] ++ jvArrBody (.acons v2 r2) from rfl] at hx
        rcases List.mem_append.mp hx with h' | h'
        · rcases List.mem_append.mp h' with h'' | h''
          · exact jvToJson_jstr_chars s hs x h''
          · simp only [List.mem_singleton] at h''
            subst h''
            exact ⟨by decide, by decide⟩
        · refine ih (.acons v2 r2) (by simp [arrLen] at hn ⊢; omega)
            (fun w hw => hv w (by simp [arrElems] at hw ⊢; exact Or.inr hw)) x h'

/-- Characters of a printed array of brace-free strings. -/
theorem jvArrBody_chars (vs : JvArr)
    (hv : ∀ v ∈ arrElems vs, ∃ s, v = Jv.jstr s ∧ '\x7d' ∉ s) :
    ∀ x ∈ jvArrBody vs, ¬x = '\n' ∧ ¬x = '\x7d' :=
  jvArrBody_chars_aux (arrLen vs) vs le_rfl hv

/-- Characters of a printed clean value: no newline, no closing brace. -/
theorem jvToJson_clean_chars (v : Jv) (hv : cleanVal v) :
    ∀ x ∈ jvToJson v, ¬x = '\n' ∧ ¬x = '\x7d' := by
  cases v with
  | jnull => exact absurd hv (by simp [cleanVal])
  | jobj kvs => exact absurd hv (by simp [cleanVal])
  | jbool b =>
    cases b <;> (intro x hx; constructor <;> (intro h; subst h; revert hx; decide))
  | jnum m e => exact fun x hx => jsNumToStr_harmless m e x hx
  | jstr s => exact jvToJson_jstr_chars s hv
  | jarr vs =>
    intro x hx
    rw [show jvToJson (.jarr vs) = '[' :: (jvArrBody vs ++ [']']) from rfl] at hx
    rcases List.mem_cons.mp hx with rfl | hx'
    · exact ⟨by decide, by decide⟩
    · rcases List.mem_append.mp hx' with h' | h'
      · exact jvArrBody_chars vs hv x h'
      · simp only [List.mem_singleton] at h'
        subst h'
        exact ⟨by decide, by decide⟩

/-- Characters of a printed clean object body (bounded form). -/
theorem jvObjBody_chars_aux (n : Nat) : ∀ kvs : JvObj, objLen kvs ≤ n → cleanObj kvs →
    ∀ x ∈ jvObjBody kvs, ¬x = '\n' ∧ ¬x = '\x7d' := by
  induction n with
  | zero =>
    intro kvs hn hk
    cases kvs with
    | onil => simp [jvObjBody]
    | ocons k v r => simp [objLen] at hn
  | succ n ih =>
    intro kvs hn hk
    cases kvs with
    | onil => simp [jvObjBody]
    | ocons k v r =>
      obtain ⟨hkb, hv, -, hr⟩ := hk
      intro x hx
      have hkey : ∀ x ∈ ('"' :: (jsonEscape k ++ ['"', ':'])), ¬x = '\n' ∧ ¬x = '\x7d' := by
        intro y hy
        rcases List.mem_cons.mp hy with rfl | hy'
        · exact ⟨by decide, by decide⟩
        · rcases List.mem_append.mp hy' with h' | h'
          · exact ⟨jsonEscape_no_nl k y h', jsonEscape_no_brace k hkb y h'⟩
          · simp only [List.mem_cons, List.not_mem_nil, or_false] at h'
            rcases h' with rfl | rfl
            · exact ⟨by decide, by decide⟩
            · exact ⟨by decide, by decide⟩
      cases r with
      | onil =>
        rw [show jvObjBody (.ocons k v .onil)
            = '"' :: (jsonEscape k ++ ['"', ':']) ++ jvToJson v from rfl] at hx
        rcases List.mem_append.mp hx with h' | h'
        · exact hkey x h'
        · exact jvToJson_clean_chars v hv x h'
      | ocons k2 v2 r2 =>
        rw [show jvObjBody (.ocons k v (.ocons k2 v2 r2))
            = '"' :: (jsonEscape k ++ ['"', ':']) ++ jvToJson v ++ [',']
              ++ jvObjBody (.ocons k2 v2 r2) from rfl] at hx
        rcases List.mem_append.mp hx with h' | h'
        · rcases List.mem_append.mp h' with h'' | h''
          · rcases List.mem_append.mp h'' with h3 | h3
            · exact hkey x h3
            · exact jvToJson_clean_chars v hv x h3
          · simp only [List.mem_singleton] at h''
            subst h''
            exact ⟨by decide, by decide⟩
        · exact ih (.ocons k2 v2 r2) (by simp [objLen] at hn ⊢; omega) hr x h'

/-- Characters of a printed clean object body: no newline, no closing brace. -/
theorem jvObjBody_chars (kvs : JvObj) (hk : cleanObj kvs) :
    ∀ x ∈ jvObjBody kvs, ¬x = '\n' ∧ ¬x = '\x7d' :=
  jvObjBody_chars_aux (objLen kvs) kvs le_rfl hk

/-- A nonempty clean object prints to a nonempty body. -/
theorem jvObjBody_ne_nil (k : Str) (v : Jv) (r : JvObj) :
    jvObjBody (.ocons k v r) ≠ [] := by
  cases r <;> simp [jvObjBody]

/-! ## C3: token extraction on the exported configuration line -/

/-- takeWhile/dropWhile through an all-true run stopped by the next head. -/
theorem takeWhile_append_stop {α : Type} (p : α → Bool) (w s : List α)
    (hw : ∀ x ∈ w, p x = true) (hs : ∀ c, s.head? = some c → p c = false) :
    (w ++ s).takeWhile p = w ∧ (w ++ s).dropWhile p = s := by
  induction w with
  | nil =>
    cases s with
    | nil => exact ⟨rfl, rfl⟩
    | cons c r =>
      rw [List.nil_append]
      constructor
      · rw [List.takeWhile_cons, if_neg (by simp [hs c rfl])]
      · rw [List.dropWhile_cons, if_neg (by simp [hs c rfl])]
  | cons a w' ih =>
    have hpa := hw a (List.mem_cons_self _ _)
    obtain ⟨ih1, ih2⟩ := ih (fun x hx => hw x (List.mem_cons_of_mem _ hx))
    constructor
    · rw [List.cons_append, List.takeWhile_cons, if_pos hpa, ih1]
    · rw [List.cons_append, List.dropWhile_cons, if_pos (by simp [hpa]), ih2]

/-- The bracket-token scan reads a bracketed body at the head. -/
theorem bracketTok_at (body rest : Str) (hne : body ≠ [])
    (hnb : ∀ c ∈ body, ¬c = ']') :
    bracketTok ('[' :: (body ++ ']' :: rest)) = some body := by
  obtain ⟨ht, -⟩ := takeWhile_append_stop (fun d => !(d == ']')) body (']' :: rest)
    (fun x hx => by simp [hnb x hx]) (fun c hc => by simp at hc; simp [← hc])
  unfold bracketTok
  rw [if_pos rfl]
  simp only [ht]
  rw [show (body ++ ']' :: rest).drop body.length = ']' :: rest from List.drop_left _ _]
  simp [hne]

/-- The brace-token scan reads a braced body at the head. -/
theorem braceTok_at (body rest : Str) (hne : body ≠ [])
    (hnb : ∀ c ∈ body, ¬c = '\x7d') :
    braceTok ('\x7b' :: (body ++ '\x7d' :: rest)) = some body := by
  obtain ⟨ht, -⟩ := takeWhile_append_stop (fun d => !(d == '\x7d')) body ('\x7d' :: rest)
    (fun x hx => by simp [hnb x hx]) (fun c hc => by simp at hc; simp [← hc])
  unfold braceTok
  rw [if_pos rfl]
  simp only [ht]
  rw [show (body ++ '\x7d' :: rest).drop body.length = '\x7d' :: rest from List.drop_left _ _]
  simp [hne]

/-- The brace-token scan skips a brace-free prefix. -/
theorem braceTok_skip (pre s : Str) (hp : ∀ c ∈ pre, ¬c = '\x7b') :
    braceTok (pre ++ s) = braceTok s := by
  induction pre with
  | nil => rfl
  | cons a pre' ih =>
    rw [List.cons_append]
    conv_lhs => unfold braceTok
    rw [if_neg (hp a (List.mem_cons_self _ _))]
    exact ih (fun c hc => hp c (List.mem_cons_of_mem _ hc))

/-- A brace-free line has no brace token. -/
theorem braceTok_none (l : Str) (h : ∀ c ∈ l, ¬c = '\x7b') : braceTok l = none := by
  have := braceTok_skip l [] h
  simpa using this

/-! ## C3: print-parse roundtrip for JSON strings -/

/-- The string parser closes on an unescaped quote. -/
theorem parseJStr_quote (acc r : Str) : parseJStr acc ('"' :: r) = .ok (acc.reverse, r) := rfl

/-- The string parser steps over a plain character. -/
theorem parseJStr_plain (acc : Str) (c : Char) (r : Str)
    (hq : ¬c = '"') (hb : ¬c = '\\') :
    parseJStr acc (c :: r)
      = if c.toNat < 32 then .error (toStr "Bad control character in JSON string literal")
        else parseJStr (c :: acc) r := by
  conv_lhs => unfold parseJStr
  split
  all_goals simp_all

/-- Skipping JSON whitespace stops at a non-whitespace head. -/
theorem skipJWs_nows {c : Char} (r : Str) (h : jsonWsCh c = false) :
    skipJWs (c :: r) = c :: r := by
  simp [skipJWs, List.dropWhile_cons, h]

/-- The string parser reads a `\u00XY` escape. -/
theorem parseJStr_u (acc : Str) (a b : Char) (va vb : Nat) (r : Str)
    (ha : hexDigVal a = some va) (hb : hexDigVal b = some vb) :
    parseJStr acc ('\\' :: 'u' :: '0' :: '0' :: a :: b :: r)
      = parseJStr (Char.ofNat (((0 * 16 + 0) * 16 + va) * 16 + vb) :: acc) r := by
  conv_lhs => unfold parseJStr
  split
  all_goals try simp_all
  · rename_i heq
    obtain ⟨ha0, hb0, -, -, -⟩ := heq
    rw [← ha0, ← hb0, show hexDigVal '0' = some 0 from rfl]
    norm_num
  all_goals
    first
    | (rename_i hx heq
       exact absurd heq.2.symm (hx _ _ _ _ _ heq.1.symm))
    | (rename_i hx heq
       exact absurd heq.2.symm (hx _ _ heq.1.symm))

/-- The string parser undoes the printer's escaping. -/
theorem parseJStr_escape : ∀ (s acc rest : Str),
    parseJStr acc (jsonEscape s ++ '"' :: rest) = .ok (acc.reverse ++ s, rest) := by
  intro s
  induction s with
  | nil =>
    intro acc rest
    rw [show jsonEscape [] = [] from rfl, List.nil_append, parseJStr_quote]
    simp
  | cons c cs ih =>
    intro acc rest
    rw [show jsonEscape (c :: cs) = jsonEscapeChar c ++ jsonEscape cs from rfl,
      List.append_assoc]
    by_cases h1 : c = '"'
    · subst h1
      rw [show jsonEscapeChar '"' = ['\\', '"'] from rfl]
      rw [show parseJStr acc ((['\\', '"'] : Str) ++ (jsonEscape cs ++ '"' :: rest))
          = parseJStr ('"' :: acc) (jsonEscape cs ++ '"' :: rest) from rfl]
      rw [ih]
      simp
    · by_cases h2 : c = '\\'
      · subst h2
        rw [show jsonEscapeChar '\\' = ['\\', '\\'] from rfl]
        rw [show parseJStr acc ((['\\', '\\'] : Str) ++ (jsonEscape cs ++ '"' :: rest))
            = parseJStr ('\\' :: acc) (jsonEscape cs ++ '"' :: rest) from rfl]
        rw [ih]
        simp
      · by_cases h3 : c = '\n'
        · subst h3
          rw [show jsonEscapeChar '\n' = ['\\', 'n'] from rfl]
          rw [show parseJStr acc ((['\\', 'n'] : Str) ++ (jsonEscape cs ++ '"' :: rest))
              = parseJStr ('\n' :: acc) (jsonEscape cs ++ '"' :: rest) from rfl]
          rw [ih]
          simp
        · by_cases h4 : c = '\r'
          · subst h4
            rw [show jsonEscapeChar '\r' = ['\\', 'r'] from rfl]
            rw [show parseJStr acc ((['\\', 'r'] : Str) ++ (jsonEscape cs ++ '"' :: rest))
                = parseJStr ('\r' :: acc) (jsonEscape cs ++ '"' :: rest) from rfl]
            rw [ih]
            simp
          · by_cases h5 : c = '\t'
            · subst h5
              rw [show jsonEscapeChar '\t' = ['\\', 't'] from rfl]
              rw [show parseJStr acc ((['\\', 't'] : Str) ++ (jsonEscape cs ++ '"' :: rest))
                  = parseJStr ('\t' :: acc) (jsonEscape cs ++ '"' :: rest) from rfl]
              rw [ih]
              simp
            · by_cases h6 : c = '\x08'
              · subst h6
                rw [show jsonEscapeChar '\x08' = ['\\', 'b'] from rfl]
                rw [show parseJStr acc ((['\\', 'b'] : Str) ++ (jsonEscape cs ++ '"' :: rest))
                    = parseJStr ('\x08' :: acc) (jsonEscape cs ++ '"' :: rest) from rfl]
                rw [ih]
                simp
              · by_cases h7 : c = '\x0c'
                · subst h7
                  rw [show jsonEscapeChar '\x0c' = ['\\', 'f'] from rfl]
                  rw [show parseJStr acc ((['\\', 'f'] : Str) ++ (jsonEscape cs ++ '"' :: rest))
                      = parseJStr ('\x0c' :: acc) (jsonEscape cs ++ '"' :: rest) from rfl]
                  rw [ih]
                  simp
                · by_cases h8 : c.toNat < 32
                  · rw [show jsonEscapeChar c
                        = ['\\', 'u', '0', '0', toHexCh (c.toNat / 16), toHexCh (c.toNat % 16)]
                      from by simp [jsonEscapeChar, h1, h2, h3, h4, h5, h6, h7, h8]]
                    have e1 : hexDigVal (toHexCh (c.toNat / 16)) = some (c.toNat / 16) :=
                      (toHexCh_facts _ (by omega)).1
                    have e2 : hexDigVal (toHexCh (c.toNat % 16)) = some (c.toNat % 16) :=
                      (toHexCh_facts _ (by omega)).1
                    have hval : Char.ofNat
                        (((0 * 16 + 0) * 16 + c.toNat / 16) * 16 + c.toNat % 16) = c := by
                      rw [show (((0 * 16 + 0) * 16 + c.toNat / 16) * 16 + c.toNat % 16)
                        = c.toNat from by omega, Char.ofNat_toNat]
                    rw [show ('\\' :: 'u' :: '0' :: '0' :: toHexCh (c.toNat / 16)
                          :: toHexCh (c.toNat % 16) :: ([] : Str))
                        ++ (jsonEscape cs ++ '"' :: rest)
                        = '\\' :: 'u' :: '0' :: '0' :: toHexCh (c.toNat / 16)
                          :: toHexCh (c.toNat % 16) :: (jsonEscape cs ++ '"' :: rest) from rfl]
                    rw [parseJStr_u acc _ _ _ _ _ e1 e2, hval, ih]
                    simp
                  · rw [show jsonEscapeChar c = [c]
                      from by simp [jsonEscapeChar, h1, h2, h3, h4, h5, h6, h7, h8]]
                    rw [show ([c] : Str) ++ (jsonEscape cs ++ '"' :: rest)
                        = c :: (jsonEscape cs ++ '"' :: rest) from rfl]
                    rw [parseJStr_plain acc c _ h1 h2, if_neg h8, ih]
                    simp

/-! ## C3: the number parser accepts a printed numeral -/

/-- takeDigits reads exactly a digit run up to a non-digit boundary. -/
theorem takeDigits_exact (d rest : Str) (hd : ∀ c ∈ d, isDigitCh c = true)
    (hr : ∀ c, rest.head? = some c → isDigitCh c = false) :
    takeDigits (d ++ rest) = (d, rest) := by
  obtain ⟨h1, h2⟩ := takeWhile_append_stop isDigitCh d rest hd hr
  unfold takeDigits
  rw [h1, h2]

/-- The number parser consumes exactly a printed integer numeral (optional
sign, digit run without a leading zero) and stops at the `,` or closing-brace
boundary. -/
theorem parseJNum_nofrac (sign : Bool) (d : Char) (ip' rest' : Str) (b : Char)
    (hdm : ¬d = '-') (hd0 : d = '0' → ip' = [])
    (hipd : ∀ c ∈ d :: ip', isDigitCh c = true)
    (hb : b = ',' ∨ b = '\x7d') :
    parseJNum ((if sign then ['-'] else []) ++ ((d :: ip') ++ (b :: rest')))
      = .ok (normNum (if sign then -(digitsVal (d :: ip')) else digitsVal (d :: ip')) 0,
          b :: rest') := by
  have hbd : isDigitCh b = false := by rcases hb with rfl | rfl <;> decide
  have htd : takeDigits ((d :: ip') ++ (b :: rest')) = (d :: ip', b :: rest') :=
    takeDigits_exact _ _ hipd (fun c hc => by simp at hc; rw [← hc]; exact hbd)
  unfold parseJNum
  cases sign with
  | true =>
    rw [if_pos rfl]
    rw [show (['-'] : Str) ++ ((d :: ip') ++ (b :: rest'))
        = '-' :: ((d :: ip') ++ (b :: rest')) from rfl]
    simp only [htd]
    split
    · rename_i heq3
      simp at heq3
    · rename_i heq3
      obtain ⟨h1, h2⟩ := List.cons.inj heq3
      obtain rfl := hd0 h1
      simp at h2
    · rcases hb with rfl | rfl <;> simp
  | false =>
    rw [if_neg (by simp), List.nil_append]
    split
    rename_i x neg s1 heq
    split at heq
    · rename_i r heq2
      rw [List.cons_append] at heq2
      exact absurd (List.cons.inj heq2).1 hdm
    · obtain ⟨rfl, rfl⟩ := Prod.mk.inj heq.symm
      simp only [htd]
      split
      · rename_i heq3
        simp at heq3
      · rename_i heq3
        obtain ⟨h1, h2⟩ := List.cons.inj heq3
        obtain rfl := hd0 h1
        simp at h2
      · rcases hb with rfl | rfl <;> simp

/-- The number parser consumes exactly a printed fractional numeral (optional
sign, digit run, dot, digit run) and stops at the `,` or closing-brace
boundary. -/
theorem parseJNum_frac (sign : Bool) (d : Char) (ip' : Str) (f0 : Char) (fp' rest' : Str)
    (b : Char)
    (hdm : ¬d = '-') (hd0 : d = '0' → ip' = [])
    (hipd : ∀ c ∈ d :: ip', isDigitCh c = true)
    (hfpd : ∀ c ∈ f0 :: fp', isDigitCh c = true)
    (hb : b = ',' ∨ b = '\x7d') :
    parseJNum ((if sign then ['-'] else [])
        ++ ((d :: ip') ++ ('.' :: ((f0 :: fp') ++ (b :: rest')))))
      = .ok (normNum
          (if sign then -(digitsVal ((d :: ip') ++ (f0 :: fp')))
           else digitsVal ((d :: ip') ++ (f0 :: fp')))
          (0 - ((f0 :: fp').length : Int)), b :: rest') := by
  have hbd : isDigitCh b = false := by rcases hb with rfl | rfl <;> decide
  have htd1 : takeDigits ((d :: ip') ++ ('.' :: ((f0 :: fp') ++ (b :: rest'))))
      = (d :: ip', '.' :: ((f0 :: fp') ++ (b :: rest'))) :=
    takeDigits_exact _ _ hipd (fun c hc => by simp at hc; rw [← hc]; decide)
  have htd2 : takeDigits ((f0 :: fp') ++ (b :: rest')) = (f0 :: fp', b :: rest') :=
    takeDigits_exact _ _ hfpd (fun c hc => by simp at hc; rw [← hc]; exact hbd)
  unfold parseJNum
  cases sign with
  | true =>
    rw [if_pos rfl]
    rw [show (['-'] : Str) ++ ((d :: ip') ++ ('.' :: ((f0 :: fp') ++ (b :: rest'))))
        = '-' :: ((d :: ip') ++ ('.' :: ((f0 :: fp') ++ (b :: rest')))) from rfl]
    simp only [htd1, htd2]
    split
    · rename_i heq3
      simp at heq3
    · rename_i heq3
      obtain ⟨h1, h2⟩ := List.cons.inj heq3
      obtain rfl := hd0 h1
      simp at h2
    · rcases hb with rfl | rfl <;> simp
  | false =>
    rw [if_neg (by simp), List.nil_append]
    split
    rename_i x neg s1 heq
    split at heq
    · rename_i r heq2
      rw [List.cons_append] at heq2
      exact absurd (List.cons.inj heq2).1 hdm
    · obtain ⟨rfl, rfl⟩ := Prod.mk.inj heq.symm
      simp only [htd1, htd2]
      split
      · rename_i heq3
        simp at heq3
      · rename_i heq3
        obtain ⟨h1, h2⟩ := List.cons.inj heq3
        obtain rfl := hd0 h1
        simp at h2
      · rcases hb with rfl | rfl <;> simp

/-- The fuelled digit renderer maps zero to the empty string. -/
theorem natToStrAux_zero (f : Nat) : natToStrAux f 0 = [] := by
  cases f with
  | zero => rfl
  | succ f =>
    rw [show natToStrAux (f + 1) 0
        = if (0 : Nat) = 0 then [] else natToStrAux f (0 / 10) ++ [Char.ofNat (48 + 0 % 10)]
      from rfl]
    rw [if_pos rfl]

/-- With enough fuel, a positive number renders with a nonzero leading digit. -/
theorem natToStrAux_shape (fuel : Nat) : ∀ n, 0 < n → n ≤ fuel →
    ∃ d t, natToStrAux fuel n = d :: t ∧ ¬d = '0' := by
  induction fuel with
  | zero => intro n hn hf; omega
  | succ f ih =>
    intro n hn hf
    rw [show natToStrAux (f + 1) n
        = if n = 0 then [] else natToStrAux f (n / 10) ++ [Char.ofNat (48 + n % 10)] from rfl]
    rw [if_neg (by omega)]
    by_cases h10 : n / 10 = 0
    · rw [h10, natToStrAux_zero f, List.nil_append]
      refine ⟨Char.ofNat (48 + n % 10), [], rfl, ?_⟩
      have h1 : 1 ≤ n % 10 := by omega
      have h2 : n % 10 ≤ 9 := by omega
      set r := n % 10 with hr
      interval_cases r <;> decide
    · obtain ⟨d, t, heq, hd⟩ := ih (n / 10) (by omega) (by omega)
      rw [heq, List.cons_append]
      exact ⟨d, t ++ [Char.ofNat (48 + n % 10)], rfl, hd⟩

/-- A nonzero natural renders with a nonzero leading digit. -/
theorem natToStr_shape (n : Nat) (hn : n ≠ 0) :
    ∃ d t, natToStr n = d :: t ∧ ¬d = '0' := by
  unfold natToStr
  rw [if_neg hn]
  exact natToStrAux_shape (n + 1) n (by omega) (by omega)

/-- The decimal rendering is never empty. -/
theorem natToStr_ne_nil (n : Nat) : natToStr n ≠ [] := by
  by_cases h : n = 0
  · subst h; decide
  · obtain ⟨d, t, heq, -⟩ := natToStr_shape n h
    rw [heq]
    simp

/-- A digit character is not a minus sign. -/
theorem digit_not_dash {c : Char} (h : isDigitCh c = true) : ¬c = '-' := by
  intro he
  subst he
  exact absurd h (by decide)

/-- The number parser accepts any printed nonzero scaled decimal and stops
at the `,` or closing-brace boundary. -/
theorem parseJNum_jsNum (m e : Int) (hm : m ≠ 0) (b : Char) (rest' : Str)
    (hb : b = ',' ∨ b = '\x7d') :
    ∃ v, parseJNum (jsNumToStr m e ++ b :: rest') = .ok (v, b :: rest') := by
  by_cases he : 0 ≤ e
  · have hi : m * (10 : Int) ^ e.toNat ≠ 0 :=
      mul_ne_zero hm (pow_ne_zero _ (by norm_num))
    have hina : (m * (10 : Int) ^ e.toNat).natAbs ≠ 0 := Int.natAbs_ne_zero.mpr hi
    obtain ⟨d, t, hdt, hd0⟩ := natToStr_shape _ hina
    have hipd : ∀ c ∈ d :: t, isDigitCh c = true := by
      intro c hc
      exact natToStr_digits _ c (by rw [hdt]; exact hc)
    have hdm : ¬d = '-' := digit_not_dash (hipd d (List.mem_cons_self _ _))
    rw [show jsNumToStr m e = intToStr (m * (10 : Int) ^ e.toNat) from by
      rw [jsNumToStr, if_pos he]]
    by_cases hneg : m * (10 : Int) ^ e.toNat < 0
    · rw [intToStr, if_pos hneg, hdt]
      rw [show ((['-'] ++ d :: t) ++ b :: rest')
          = (if (true : Bool) then ['-'] else []) ++ ((d :: t) ++ b :: rest') from by simp]
      apply Exists.intro
      rw [parseJNum_nofrac true d t rest' b hdm (fun h => absurd h hd0) hipd hb]
    · rw [intToStr, if_neg hneg, hdt, List.nil_append]
      rw [show ((d :: t) ++ b :: rest')
          = (if (false : Bool) then ['-'] else []) ++ ((d :: t) ++ b :: rest') from by simp]
      apply Exists.intro
      rw [parseJNum_nofrac false d t rest' b hdm (fun h => absurd h hd0) hipd hb]
  · have hna : m.natAbs ≠ 0 := Int.natAbs_ne_zero.mpr hm
    obtain ⟨d0, t0, hdt, hd0⟩ := natToStr_shape _ hna
    have hdig : ∀ c ∈ natToStr m.natAbs, isDigitCh c = true := natToStr_digits _
    have hke : 1 ≤ e.natAbs := by omega
    by_cases hk : e.natAbs < (natToStr m.natAbs).length
    · have hp1 : 1 ≤ (natToStr m.natAbs).length - e.natAbs := by omega
      obtain ⟨q, hq⟩ : ∃ q, (natToStr m.natAbs).length - e.natAbs = q + 1 :=
        ⟨(natToStr m.natAbs).length - e.natAbs - 1, by omega⟩
      have htake : ∃ it, (natToStr m.natAbs).take ((natToStr m.natAbs).length - e.natAbs)
          = d0 :: it := by
        refine ⟨t0.take q, ?_⟩
        rw [hq, hdt]
        rfl
      obtain ⟨it, hit⟩ := htake
      have hdropne : (natToStr m.natAbs).drop ((natToStr m.natAbs).length - e.natAbs) ≠ [] := by
        intro hcon
        have := List.length_drop ((natToStr m.natAbs).length - e.natAbs) (natToStr m.natAbs)
        rw [hcon] at this
        simp at this
        omega
      obtain ⟨f0, fp', hfd⟩ := List.exists_cons_of_ne_nil hdropne
      have hipd : ∀ c ∈ d0 :: it, isDigitCh c = true := by
        intro c hc
        rw [← hit] at hc
        exact hdig c (List.mem_of_mem_take hc)
      have hfpd : ∀ c ∈ f0 :: fp', isDigitCh c = true := by
        intro c hc
        rw [← hfd] at hc
        exact hdig c (List.mem_of_mem_drop hc)
      have hdm : ¬d0 = '-' := digit_not_dash (hipd d0 (List.mem_cons_self _ _))
      simp only [jsNumToStr]
      rw [if_neg he, if_pos hk, hit, hfd]
      by_cases hneg : m < 0
      · rw [if_pos hneg]
        rw [show ((['-'] : Str) ++ (d0 :: it) ++ ['.'] ++ (f0 :: fp') ++ b :: rest')
            = (if (true : Bool) then ['-'] else [])
              ++ ((d0 :: it) ++ ('.' :: ((f0 :: fp') ++ (b :: rest')))) from by simp]
        apply Exists.intro
        rw [parseJNum_frac true d0 it f0 fp' rest' b hdm (fun h => absurd h hd0) hipd hfpd hb]
      · rw [if_neg hneg, List.nil_append]
        rw [show ((d0 :: it) ++ ['.'] ++ (f0 :: fp') ++ b :: rest')
            = (if (false : Bool) then ['-'] else [])
              ++ ((d0 :: it) ++ ('.' :: ((f0 :: fp') ++ (b :: rest')))) from by simp]
        apply Exists.intro
        rw [parseJNum_frac false d0 it f0 fp' rest' b hdm (fun h => absurd h hd0) hipd hfpd hb]
    · have hrepne : List.replicate (e.natAbs - (natToStr m.natAbs).length) '0'
          ++ natToStr m.natAbs ≠ [] := by
        simp [natToStr_ne_nil]
      obtain ⟨f0, fp', hfd⟩ := List.exists_cons_of_ne_nil hrepne
      have hfpd : ∀ c ∈ f0 :: fp', isDigitCh c = true := by
        intro c hc
        rw [← hfd] at hc
        rcases List.mem_append.mp hc with h1 | h1
        · rw [List.eq_of_mem_replicate h1]; decide
        · exact hdig c h1
      simp only [jsNumToStr]
      rw [if_neg he, if_neg hk]
      by_cases hneg : m < 0
      · rw [if_pos hneg]
        rw [show ((['-'] : Str) ++ ['0', '.']
              ++ List.replicate (e.natAbs - (natToStr m.natAbs).length) '0'
              ++ natToStr m.natAbs ++ b :: rest')
            = (if (true : Bool) then ['-'] else [])
              ++ (('0' :: ([] : Str)) ++ ('.' :: ((f0 :: fp') ++ (b :: rest')))) from by
          rw [← hfd]; simp]
        apply Exists.intro
        rw [parseJNum_frac true '0' [] f0 fp' rest' b (by decide) (fun _ => rfl)
          (by intro c hc; simp at hc; subst hc; decide) hfpd hb]
      · rw [if_neg hneg, List.nil_append]
        rw [show ((['0', '.'] : Str)
              ++ List.replicate (e.natAbs - (natToStr m.natAbs).length) '0'
              ++ natToStr m.natAbs ++ b :: rest')
            = (if (false : Bool) then ['-'] else [])
              ++ (('0' :: ([] : Str)) ++ ('.' :: ((f0 :: fp') ++ (b :: rest')))) from by
          rw [← hfd]; simp]
        apply Exists.intro
        rw [parseJNum_frac false '0' [] f0 fp' rest' b (by decide) (fun _ => rfl)
          (by intro c hc; simp at hc; subst hc; decide) hfpd hb]

/-! ## C3: the JSON parser accepts every printed clean object -/

theorem parseJVal_str (f : Nat) (s rest : Str) :
    parseJVal (f + 1) ('"' :: (jsonEscape s ++ '"' :: rest)) = .ok (.jstr s, rest) := by
  have hskip : skipJWs ('"' :: (jsonEscape s ++ '"' :: rest))
      = '"' :: (jsonEscape s ++ '"' :: rest) := skipJWs_nows _ (by decide)
  conv_lhs => unfold parseJVal
  simp only [hskip]
  rw [parseJStr_escape s [] rest]
  simp

theorem parseJVal_true (f : Nat) (rest : Str) :
    parseJVal (f + 1) (toStr "true" ++ rest) = .ok (.jbool true, rest) := rfl

theorem parseJVal_false (f : Nat) (rest : Str) :
    parseJVal (f + 1) (toStr "false" ++ rest) = .ok (.jbool false, rest) := rfl

theorem parseJVal_arrnil (f : Nat) (rest : Str) :
    parseJVal (f + 1) ('[' :: (']' :: rest)) = .ok (.jarr .anil, rest) := rfl

theorem parseJVal_via_num (f : Nat) (c : Char) (r : Str)
    (hc : c = '-' ∨ isDigitCh c = true) (v : Int × Int) (rest2 : Str)
    (hnum : parseJNum (c :: r) = .ok (v, rest2)) :
    parseJVal (f + 1) (c :: r) = .ok (.jnum v.1 v.2, rest2) := by
  have hws : jsonWsCh c = false := by
    rcases hc with rfl | hd
    · decide
    · cases hjw : jsonWsCh c with
      | false => rfl
      | true =>
        exfalso
        simp only [jsonWsCh, Bool.or_eq_true, beq_iff_eq] at hjw
        rcases hjw with ((rfl | rfl) | rfl) | rfl <;> exact absurd hd (by decide)
  conv_lhs => unfold parseJVal
  rw [skipJWs_nows r hws]
  split
  all_goals try (rename_i heq; obtain ⟨rfl, -⟩ := List.cons.inj heq; rcases hc with h | h <;> exact absurd h (by decide))
  all_goals try (rename_i heq; exact absurd heq (List.cons_ne_nil _ _))
  rename_i heq
  obtain ⟨rfl, rfl⟩ := List.cons.inj heq
  have hcond : (decide (c = '-') || isDigitCh c) = true := by
    rcases hc with rfl | h
    · simp
    · simp [h]
  rw [if_pos hcond, hnum]

theorem arrLen_arrOfList (l : List Jv) : arrLen (arrOfList l) = l.length := by
  induction l with
  | nil => rfl
  | cons v vs ih => simp [arrOfList, arrLen, ih]

theorem arrElems_arrOfList (l : List Jv) : arrElems (arrOfList l) = l := by
  induction l with
  | nil => rfl
  | cons v vs ih => simp [arrOfList, arrElems, ih]

theorem list_all_jstr (l : List Jv) (h : ∀ v ∈ l, ∃ s, v = Jv.jstr s ∧ '\x7d' ∉ s) :
    ∃ ss : List Str, l = ss.map Jv.jstr := by
  induction l with
  | nil => exact ⟨[], rfl⟩
  | cons v vs ih =>
    obtain ⟨s, rfl, -⟩ := h v (List.mem_cons_self _ _)
    obtain ⟨ss, rfl⟩ := ih (fun w hw => h w (List.mem_cons_of_mem _ hw))
    exact ⟨s :: ss, rfl⟩

theorem parseJElems_strs (ss : List Str) : ∀ fuel s0 rest, ss.length + 1 < fuel →
    parseJElems fuel (jvArrBody (arrOfList ((s0 :: ss).map Jv.jstr)) ++ ']' :: rest)
      = .ok (arrOfList ((s0 :: ss).map Jv.jstr), rest) := by
  induction ss with
  | nil =>
    intro fuel s0 rest hf
    obtain ⟨f, rfl⟩ : ∃ f, fuel = f + 2 := ⟨fuel - 2, by omega⟩
    rw [show jvArrBody (arrOfList ([s0].map Jv.jstr)) = '"' :: (jsonEscape s0 ++ ['"'])
      from rfl]
    rw [show ('"' :: (jsonEscape s0 ++ ['"'])) ++ ']' :: rest
        = '"' :: (jsonEscape s0 ++ '"' :: (']' :: rest)) from by simp]
    conv_lhs => unfold parseJElems
    rw [parseJVal_str (f) s0 (']' :: rest)]
    rfl
  | cons s1 ss' ih =>
    intro fuel s0 rest hf
    obtain ⟨f, rfl⟩ : ∃ f, fuel = f + 1 := ⟨fuel - 1, by omega⟩
    rw [show jvArrBody (arrOfList ((s0 :: s1 :: ss').map Jv.jstr))
        = ('"' :: (jsonEscape s0 ++ ['"'])) ++ [',']
          ++ jvArrBody (arrOfList ((s1 :: ss').map Jv.jstr)) from rfl]
    rw [show ((('"' :: (jsonEscape s0 ++ ['"'])) ++ [',']
          ++ jvArrBody (arrOfList ((s1 :: ss').map Jv.jstr))) ++ ']' :: rest)
        = '"' :: (jsonEscape s0 ++ '"'
            :: (',' :: (jvArrBody (arrOfList ((s1 :: ss').map Jv.jstr)) ++ ']' :: rest)))
      from by simp]
    obtain ⟨f1, rfl⟩ : ∃ f1, f = f1 + 1 := ⟨f - 1, by omega⟩
    conv_lhs => unfold parseJElems
    simp only [parseJVal_str f1 s0
      (',' :: (jvArrBody (arrOfList ((s1 :: ss').map Jv.jstr)) ++ ']' :: rest))]
    have hsk : skipJWs (',' :: (jvArrBody (arrOfList ((s1 :: ss').map Jv.jstr)) ++ ']' :: rest))
        = ',' :: (jvArrBody (arrOfList ((s1 :: ss').map Jv.jstr)) ++ ']' :: rest) :=
      skipJWs_nows _ (by decide)
    simp only [hsk]
    simp only [ih (f1 + 1) s1 rest (by simp at hf ⊢; omega)]
    rfl

theorem arrOfList_arrElems_aux (n : Nat) : ∀ vs : JvArr, arrLen vs ≤ n →
    arrOfList (arrElems vs) = vs := by
  induction n with
  | zero =>
    intro vs hn
    cases vs with
    | anil => rfl
    | acons v r => simp [arrLen] at hn
  | succ n ih =>
    intro vs hn
    cases vs with
    | anil => rfl
    | acons v r =>
      rw [show arrElems (.acons v r) = v :: arrElems r from rfl]
      rw [show arrOfList (v :: arrElems r) = .acons v (arrOfList (arrElems r)) from rfl]
      rw [ih r (by simp [arrLen] at hn; omega)]

theorem arrOfList_arrElems (vs : JvArr) : arrOfList (arrElems vs) = vs :=
  arrOfList_arrElems_aux (arrLen vs) vs le_rfl

theorem jvArrBody_strs_head (s0 : Str) (ss' : List Str) :
    ∃ tl, jvArrBody (arrOfList ((s0 :: ss').map Jv.jstr)) = '"' :: tl := by
  cases ss' with
  | nil => exact ⟨jsonEscape s0 ++ ['"'], rfl⟩
  | cons s1 ss2 =>
    refine ⟨jsonEscape s0 ++ '"' :: ',' :: jvArrBody (arrOfList ((s1 :: ss2).map Jv.jstr)), ?_⟩
    rw [show jvArrBody (arrOfList ((s0 :: s1 :: ss2).map Jv.jstr))
        = jvToJson (Jv.jstr s0) ++ [','] ++ jvArrBody (arrOfList ((s1 :: ss2).map Jv.jstr))
      from rfl]
    rw [show jvToJson (Jv.jstr s0) = '"' :: (jsonEscape s0 ++ ['"']) from rfl]
    simp

theorem parseJVal_arr (f : Nat) (s0 : Str) (ss' : List Str) (rest : Str)
    (hf : ss'.length + 1 < f) :
    parseJVal (f + 1) ('[' :: (jvArrBody (arrOfList ((s0 :: ss').map Jv.jstr)) ++ ']' :: rest))
      = .ok (.jarr (arrOfList ((s0 :: ss').map Jv.jstr)), rest) := by
  obtain ⟨tl, htl⟩ := jvArrBody_strs_head s0 ss'
  have hbody : jvArrBody (arrOfList ((s0 :: ss').map Jv.jstr)) ++ ']' :: rest
      = '"' :: (tl ++ ']' :: rest) := by
    rw [htl]
    simp
  conv_lhs => unfold parseJVal
  have hsk0 : skipJWs ('[' :: (jvArrBody (arrOfList ((s0 :: ss').map Jv.jstr)) ++ ']' :: rest))
      = '[' :: (jvArrBody (arrOfList ((s0 :: ss').map Jv.jstr)) ++ ']' :: rest) :=
    skipJWs_nows _ (by decide)
  simp only [hsk0]
  have hsk1 : skipJWs (jvArrBody (arrOfList ((s0 :: ss').map Jv.jstr)) ++ ']' :: rest)
      = '"' :: (tl ++ ']' :: rest) := by
    rw [hbody]
    exact skipJWs_nows _ (by decide)
  simp only [hsk1]
  split
  · rename_i r1 heq
    exact absurd (List.cons.inj heq).1 (by decide)
  · rw [← hbody]
    rw [parseJElems_strs ss' f s0 rest hf]

theorem parseJNum_ok_head (c : Char) (r : Str) (p : (Int × Int) × Str)
    (h : parseJNum (c :: r) = .ok p) : c = '-' ∨ isDigitCh c = true := by
  by_contra hcon
  push_neg at hcon
  obtain ⟨hc1, hc2⟩ := hcon
  have hc2' : isDigitCh c = false := by simpa using hc2
  have htd : takeDigits (c :: r) = ([], c :: r) := by
    unfold takeDigits
    rw [List.takeWhile_cons, if_neg (by simp [hc2']), List.dropWhile_cons,
      if_neg (by simp [hc2'])]
  unfold parseJNum at h
  split at h
  rename_i x neg s1 heq
  split at heq
  · rename_i r2 heq2
    exact hc1 (List.cons.inj heq2).1
  · obtain ⟨rfl, rfl⟩ := Prod.mk.inj heq.symm
    simp only [htd] at h
    simp at h

theorem parseJVal_print (v : Jv) (fuel : Nat) (b : Char) (rest : Str)
    (hv : cleanVal v) (hb : b = ',' ∨ b = '\x7d') (hfuel : valFuel v < fuel) :
    ∃ v', parseJVal fuel (jvToJson v ++ b :: rest) = .ok (v', b :: rest) ∧ simVal v v' := by
  obtain ⟨f, rfl⟩ : ∃ f, fuel = f + 1 := ⟨fuel - 1, by cases v <;> simp [valFuel] at hfuel <;> omega⟩
  cases v with
  | jnull => exact absurd hv (by simp [cleanVal])
  | jobj kvs => exact absurd hv (by simp [cleanVal])
  | jbool bb =>
    cases bb with
    | false =>
      refine ⟨.jbool false, ?_, rfl⟩
      rw [show jvToJson (Jv.jbool false) = toStr "false" from rfl]
      exact parseJVal_false f (b :: rest)
    | true =>
      refine ⟨.jbool true, ?_, rfl⟩
      rw [show jvToJson (Jv.jbool true) = toStr "true" from rfl]
      exact parseJVal_true f (b :: rest)
  | jstr s =>
    refine ⟨.jstr s, ?_, rfl⟩
    rw [show jvToJson (Jv.jstr s) = '"' :: (jsonEscape s ++ ['"']) from rfl]
    rw [show ('"' :: (jsonEscape s ++ ['"'])) ++ b :: rest
        = '"' :: (jsonEscape s ++ '"' :: (b :: rest)) from by simp]
    exact parseJVal_str f s (b :: rest)
  | jnum m e =>
    obtain ⟨w, hw⟩ := parseJNum_jsNum m e hv b rest hb
    rw [show jvToJson (Jv.jnum m e) = jsNumToStr m e from rfl]
    cases hj : jsNumToStr m e ++ b :: rest with
    | nil => exact absurd hj (by simp)
    | cons c r0 =>
      rw [hj] at hw
      have hc := parseJNum_ok_head c r0 _ hw
      exact ⟨.jnum w.1 w.2, parseJVal_via_num f c r0 hc w (b :: rest) hw, ⟨w.1, w.2, rfl⟩⟩
  | jarr vs =>
    cases vs with
    | anil =>
      refine ⟨.jarr .anil, ?_, rfl⟩
      rw [show jvToJson (Jv.jarr .anil) ++ b :: rest = '[' :: (']' :: (b :: rest)) from rfl]
      exact parseJVal_arrnil f (b :: rest)
    | acons v0 r0 =>
      obtain ⟨ss, hss⟩ := list_all_jstr _ hv
      have hvs : JvArr.acons v0 r0 = arrOfList (ss.map Jv.jstr) := by
        rw [← hss, arrOfList_arrElems]
      cases ss with
      | nil => simp [arrElems] at hss
      | cons s0 ss' =>
        have hlen : ss'.length + 1 < f := by
          have h1 : arrLen (JvArr.acons v0 r0) = ss'.length + 1 := by
            rw [hvs, arrLen_arrOfList]
            simp
          simp only [valFuel, h1] at hfuel
          omega
        refine ⟨.jarr (arrOfList ((s0 :: ss').map Jv.jstr)), ?_, by rw [hvs]; exact rfl⟩
        rw [hvs]
        rw [show jvToJson (Jv.jarr (arrOfList ((s0 :: ss').map Jv.jstr)))
            = '[' :: (jvArrBody (arrOfList ((s0 :: ss').map Jv.jstr)) ++ [']']) from rfl]
        rw [show ('[' :: (jvArrBody (arrOfList ((s0 :: ss').map Jv.jstr)) ++ [']'])) ++ b :: rest
            = '[' :: (jvArrBody (arrOfList ((s0 :: ss').map Jv.jstr)) ++ ']' :: (b :: rest))
          from by simp]
        exact parseJVal_arr f s0 ss' (b :: rest) hlen

theorem consPair_fresh (k : Str) (v : Jv) (r : JvObj) (h : objGet k r = none) :
    consPair k v r = .ocons k v r := by
  unfold consPair
  rw [h]

theorem simObj_objGet_none (k : Str) : ∀ {o o' : JvObj}, SimObj o o' →
    objGet k o = none → objGet k o' = none := by
  intro o o' h
  induction h with
  | nil => intro h0; exact h0
  | cons k2 v v' r r' hsv hso ih =>
    intro h0
    rw [show objGet k (.ocons k2 v r) = if k2 = k then some v else objGet k r from rfl] at h0
    rw [show objGet k (.ocons k2 v' r') = if k2 = k then some v' else objGet k r' from rfl]
    by_cases hk : k2 = k
    · rw [if_pos hk] at h0
      simp at h0
    · rw [if_neg hk] at h0 ⊢
      exact ih h0

theorem simObj_objGet_arr (k : Str) : ∀ {o o' : JvObj}, SimObj o o' →
    ∀ a, objGet k o = some (Jv.jarr a) → objGet k o' = some (Jv.jarr a) := by
  intro o o' h
  induction h with
  | nil => intro a h0; simp [objGet] at h0
  | cons k2 v v' r r' hsv hso ih =>
    intro a h0
    rw [show objGet k (.ocons k2 v r) = if k2 = k then some v else objGet k r from rfl] at h0
    rw [show objGet k (.ocons k2 v' r') = if k2 = k then some v' else objGet k r' from rfl]
    by_cases hk : k2 = k
    · rw [if_pos hk] at h0 ⊢
      obtain hv := Option.some.inj h0
      subst hv
      revert hsv
      unfold simVal
      intro hsv
      rw [hsv]
    · rw [if_neg hk] at h0 ⊢
      exact ih a h0

theorem parseJPairs_print (n : Nat) : ∀ kvs : JvObj, objLen kvs ≤ n → ∀ fuel rest,
    cleanObj kvs → kvs ≠ .onil → objFuel kvs < fuel →
    ∃ kvs', parseJPairs fuel (jvObjBody kvs ++ '\x7d' :: rest) = .ok (kvs', rest)
      ∧ SimObj kvs kvs' := by
  induction n with
  | zero =>
    intro kvs hn fuel rest hc hne hfuel
    cases kvs with
    | onil => exact absurd rfl hne
    | ocons k v r => simp [objLen] at hn
  | succ n ih =>
    intro kvs hn fuel rest hc hne hfuel
    cases kvs with
    | onil => exact absurd rfl hne
    | ocons k v r =>
      obtain ⟨hkb, hv, hfresh, hr⟩ := hc
      have hvf : 1 ≤ valFuel v := by cases v <;> simp [valFuel]
      have hof : 1 ≤ objFuel r := by
        cases r with
        | onil => simp [objFuel]
        | ocons a bb c => simp [objFuel]; omega
      obtain ⟨f, rfl⟩ : ∃ f, fuel = f + 1 :=
        ⟨fuel - 1, by simp [objFuel] at hfuel; omega⟩
      cases r with
      | onil =>
        have hcanon : jvObjBody (.ocons k v .onil) ++ '\x7d' :: rest
            = '"' :: (jsonEscape k ++ '"' :: (':' :: (jvToJson v ++ '\x7d' :: rest))) := by
          rw [show jvObjBody (.ocons k v .onil)
              = '"' :: (jsonEscape k ++ ['"', ':']) ++ jvToJson v from rfl]
          simp
        rw [hcanon]
        obtain ⟨v', hv', hsv⟩ := parseJVal_print v f '\x7d' rest hv (Or.inr rfl)
          (by simp [objFuel] at hfuel; omega)
        refine ⟨.ocons k v' .onil, ?_, SimObj.cons k v v' .onil .onil hsv SimObj.nil⟩
        conv_lhs => unfold parseJPairs
        have h0 : skipJWs ('"' :: (jsonEscape k ++ '"' :: (':' :: (jvToJson v ++ '\x7d' :: rest))))
            = '"' :: (jsonEscape k ++ '"' :: (':' :: (jvToJson v ++ '\x7d' :: rest))) :=
          skipJWs_nows _ (by decide)
        simp only [h0]
        simp only [parseJStr_escape k [] (':' :: (jvToJson v ++ '\x7d' :: rest))]
        simp only [List.reverse_nil, List.nil_append]
        have h1 : skipJWs (':' :: (jvToJson v ++ '\x7d' :: rest))
            = ':' :: (jvToJson v ++ '\x7d' :: rest) := skipJWs_nows _ (by decide)
        simp only [h1]
        simp only [hv']
        have h2 : skipJWs ('\x7d' :: rest) = '\x7d' :: rest := skipJWs_nows _ (by decide)
        simp only [h2]
      | ocons k2 v2 r2 =>
        have hcanon : jvObjBody (.ocons k v (.ocons k2 v2 r2)) ++ '\x7d' :: rest
            = '"' :: (jsonEscape k ++ '"' :: (':' :: (jvToJson v
                ++ ',' :: (jvObjBody (.ocons k2 v2 r2) ++ '\x7d' :: rest)))) := by
          rw [show jvObjBody (.ocons k v (.ocons k2 v2 r2))
              = '"' :: (jsonEscape k ++ ['"', ':']) ++ jvToJson v ++ [',']
                ++ jvObjBody (.ocons k2 v2 r2) from rfl]
          simp
        rw [hcanon]
        obtain ⟨v', hv', hsv⟩ := parseJVal_print v f ','
          (jvObjBody (.ocons k2 v2 r2) ++ '\x7d' :: rest) hv (Or.inl rfl)
          (by simp [objFuel] at hfuel; omega)
        obtain ⟨kvs2, hk2, hs2⟩ := ih (.ocons k2 v2 r2) (by simp [objLen] at hn ⊢; omega)
          f rest hr (by intro hcon; exact JvObj.noConfusion hcon)
          (by simp [objFuel] at hfuel ⊢; omega)
        refine ⟨.ocons k v' kvs2, ?_,
          SimObj.cons k v v' (.ocons k2 v2 r2) kvs2 hsv hs2⟩
        conv_lhs => unfold parseJPairs
        have h0 : skipJWs ('"' :: (jsonEscape k ++ '"' :: (':' :: (jvToJson v
              ++ ',' :: (jvObjBody (.ocons k2 v2 r2) ++ '\x7d' :: rest)))))
            = '"' :: (jsonEscape k ++ '"' :: (':' :: (jvToJson v
              ++ ',' :: (jvObjBody (.ocons k2 v2 r2) ++ '\x7d' :: rest)))) :=
          skipJWs_nows _ (by decide)
        simp only [h0]
        simp only [parseJStr_escape k [] (':' :: (jvToJson v
          ++ ',' :: (jvObjBody (.ocons k2 v2 r2) ++ '\x7d' :: rest)))]
        simp only [List.reverse_nil, List.nil_append]
        have h1 : skipJWs (':' :: (jvToJson v ++ ',' :: (jvObjBody (.ocons k2 v2 r2)
              ++ '\x7d' :: rest)))
            = ':' :: (jvToJson v ++ ',' :: (jvObjBody (.ocons k2 v2 r2) ++ '\x7d' :: rest)) :=
          skipJWs_nows _ (by decide)
        simp only [h1]
        simp only [hv']
        have h2 : skipJWs (',' :: (jvObjBody (.ocons k2 v2 r2) ++ '\x7d' :: rest))
            = ',' :: (jvObjBody (.ocons k2 v2 r2) ++ '\x7d' :: rest) :=
          skipJWs_nows _ (by decide)
        simp only [h2]
        simp only [hk2]
        rw [consPair_fresh k v' kvs2 (simObj_objGet_none k hs2 hfresh)]

theorem arrLen_le_body_aux (n : Nat) : ∀ vs : JvArr, arrLen vs ≤ n →
    arrLen vs ≤ (jvArrBody vs).length + 1 := by
  induction n with
  | zero =>
    intro vs hn
    cases vs with
    | anil => simp [arrLen]
    | acons v r => simp [arrLen] at hn
  | succ n ih =>
    intro vs hn
    cases vs with
    | anil => simp [arrLen]
    | acons v r =>
      cases r with
      | anil => simp [arrLen]
      | acons v2 r2 =>
        have h1 := ih (.acons v2 r2) (by simp [arrLen] at hn ⊢; omega)
        rw [show jvArrBody (.acons v (.acons v2 r2))
            = jvToJson v ++ [','] ++ jvArrBody (.acons v2 r2) from rfl]
        rw [show arrLen (.acons v (.acons v2 r2)) = arrLen (.acons v2 r2) + 1 from rfl]
        simp only [List.length_append, List.length_cons, List.length_nil]
        omega

theorem valFuel_le_len (v : Jv) : valFuel v ≤ (jvToJson v).length + 2 := by
  cases v with
  | jarr vs =>
    have h1 := arrLen_le_body_aux (arrLen vs) vs le_rfl
    rw [show jvToJson (Jv.jarr vs) = '[' :: (jvArrBody vs ++ [']']) from rfl]
    rw [show valFuel (Jv.jarr vs) = arrLen vs + 1 from rfl]
    simp only [List.length_cons, List.length_append, List.length_nil]
    omega
  | jnull => simp [valFuel]
  | jbool b => simp [valFuel]
  | jnum m e => simp [valFuel]
  | jstr t => simp [valFuel]
  | jobj kvs => simp [valFuel]

theorem objFuel_le_body_aux (n : Nat) : ∀ kvs : JvObj, objLen kvs ≤ n →
    objFuel kvs ≤ 2 * (jvObjBody kvs).length + 2 := by
  induction n with
  | zero =>
    intro kvs hn
    cases kvs with
    | onil => simp [objFuel, jvObjBody]
    | ocons k v r => simp [objLen] at hn
  | succ n ih =>
    intro kvs hn
    cases kvs with
    | onil => simp [objFuel, jvObjBody]
    | ocons k v r =>
      have hvl := valFuel_le_len v
      cases r with
      | onil =>
        rw [show jvObjBody (.ocons k v .onil)
            = '"' :: (jsonEscape k ++ ['"', ':']) ++ jvToJson v from rfl]
        rw [show objFuel (.ocons k v .onil) = valFuel v + 1 + 1 from rfl]
        simp only [List.length_append, List.length_cons, List.length_nil]
        omega
      | ocons k2 v2 r2 =>
        have h1 := ih (.ocons k2 v2 r2) (by simp [objLen] at hn ⊢; omega)
        rw [show jvObjBody (.ocons k v (.ocons k2 v2 r2))
            = '"' :: (jsonEscape k ++ ['"', ':']) ++ jvToJson v ++ [',']
              ++ jvObjBody (.ocons k2 v2 r2) from rfl]
        rw [show objFuel (.ocons k v (.ocons k2 v2 r2))
            = valFuel v + 1 + objFuel (.ocons k2 v2 r2) from rfl]
        simp only [List.length_append, List.length_cons, List.length_nil]
        omega

theorem jvObjBody_head (k : Str) (v : Jv) (r : JvObj) :
    ∃ tl, jvObjBody (.ocons k v r) = '"' :: tl := by
  cases r with
  | onil =>
    refine ⟨jsonEscape k ++ '"' :: ':' :: jvToJson v, ?_⟩
    rw [show jvObjBody (.ocons k v .onil)
        = '"' :: (jsonEscape k ++ ['"', ':']) ++ jvToJson v from rfl]
    simp
  | ocons k2 v2 r2 =>
    refine ⟨jsonEscape k ++ '"' :: ':' :: (jvToJson v ++ ','
      :: jvObjBody (.ocons k2 v2 r2)), ?_⟩
    rw [show jvObjBody (.ocons k v (.ocons k2 v2 r2))
        = '"' :: (jsonEscape k ++ ['"', ':']) ++ jvToJson v ++ [',']
          ++ jvObjBody (.ocons k2 v2 r2) from rfl]
    simp

theorem parseJVal_obj (f : Nat) (k : Str) (v : Jv) (r : JvObj)
    (hc : cleanObj (.ocons k v r)) (hfuel : objFuel (.ocons k v r) < f) :
    ∃ kvs', parseJVal (f + 1) ('\x7b' :: (jvObjBody (.ocons k v r) ++ ['\x7d']))
      = .ok (.jobj kvs', []) ∧ SimObj (.ocons k v r) kvs' := by
  obtain ⟨tl, htl⟩ := jvObjBody_head k v r
  obtain ⟨kvs', hpp, hsim⟩ := parseJPairs_print (objLen (.ocons k v r)) (.ocons k v r)
    le_rfl f [] hc (by intro h; exact JvObj.noConfusion h) hfuel
  refine ⟨kvs', ?_, hsim⟩
  conv_lhs => unfold parseJVal
  have h0 : skipJWs ('\x7b' :: (jvObjBody (.ocons k v r) ++ ['\x7d']))
      = '\x7b' :: (jvObjBody (.ocons k v r) ++ ['\x7d']) := skipJWs_nows _ (by decide)
  simp only [h0]
  have hbody2 : jvObjBody (.ocons k v r) ++ ['\x7d'] = '"' :: (tl ++ ['\x7d']) := by
    rw [htl]
    simp
  have h1 : skipJWs (jvObjBody (.ocons k v r) ++ ['\x7d']) = '"' :: (tl ++ ['\x7d']) := by
    rw [hbody2]
    exact skipJWs_nows _ (by decide)
  simp only [h1]
  split
  · rename_i r4 heq
    exact absurd (List.cons.inj heq).1 (by decide)
  · rw [← hbody2]
    rw [show jvObjBody (.ocons k v r) ++ ['\x7d']
        = jvObjBody (.ocons k v r) ++ '\x7d' :: [] from rfl]
    rw [hpp]

theorem jsonParse_print_obj (kvs : JvObj) (hc : cleanObj kvs) :
    ∃ kvs', jsonParse (jvToJson (.jobj kvs)) = .ok (.jobj kvs') ∧ SimObj kvs kvs' := by
  cases kvs with
  | onil => exact ⟨.onil, rfl, SimObj.nil⟩
  | ocons k v r =>
    have hfb := objFuel_le_body_aux (objLen (.ocons k v r)) (.ocons k v r) le_rfl
    unfold jsonParse
    rw [show jvToJson (Jv.jobj (.ocons k v r))
        = '\x7b' :: (jvObjBody (.ocons k v r) ++ ['\x7d']) from rfl]
    rw [show ('\x7b' :: (jvObjBody (.ocons k v r) ++ ['\x7d'])).length
        = (jvObjBody (.ocons k v r)).length + 2 from by simp]
    rw [show (2 : Nat) * ((jvObjBody (.ocons k v r)).length + 2) + 2
        = (2 * (jvObjBody (.ocons k v r)).length + 5) + 1 from by omega]
    obtain ⟨kvs', hval, hsim⟩ := parseJVal_obj (2 * (jvObjBody (.ocons k v r)).length + 5)
      k v r hc (by omega)
    refine ⟨kvs', ?_, hsim⟩
    simp only [hval]
    rfl


/-! ## C3: safety of every line of the exported document -/

/-- Lookup misses a list-built object without the key. -/
theorem objGet_objOfList_none (k : Str) (ps : List (Str × Jv))
    (h : k ∉ ps.map Prod.fst) : objGet k (objOfList ps) = none := by
  induction ps with
  | nil => rfl
  | cons p r ih =>
    obtain ⟨a, b⟩ := p
    rw [show objOfList ((a, b) :: r) = .ocons a b (objOfList r) from rfl]
    rw [show objGet k (.ocons a b (objOfList r))
        = if a = k then some b else objGet k (objOfList r) from rfl]
    have ha : ¬a = k := by
      intro hc
      subst hc
      exact h (List.mem_cons_self _ _)
    rw [if_neg ha]
    exact ih (fun hc => h (List.mem_cons_of_mem _ hc))

/-- A list of clean, distinct-keyed members builds a clean object. -/
theorem cleanObj_objOfList (ps : List (Str × Jv))
    (h1 : ∀ p ∈ ps, '\x7d' ∉ p.1 ∧ cleanVal p.2)
    (h2 : (ps.map Prod.fst).Nodup) : cleanObj (objOfList ps) := by
  induction ps with
  | nil => trivial
  | cons p r ih =>
    obtain ⟨a, b⟩ := p
    rw [show objOfList ((a, b) :: r) = .ocons a b (objOfList r) from rfl]
    obtain ⟨hb, hv⟩ := h1 (a, b) (List.mem_cons_self _ _)
    rw [List.map_cons, List.nodup_cons] at h2
    exact ⟨hb, hv, objGet_objOfList_none a r h2.1,
      ih (fun q hq => h1 q (List.mem_cons_of_mem _ hq)) h2.2⟩

/-- Lookup skips members whose keys differ. -/
theorem objGet_objOfList_append (k : Str) (ps qs : List (Str × Jv))
    (h : k ∉ ps.map Prod.fst) :
    objGet k (objOfList (ps ++ qs)) = objGet k (objOfList qs) := by
  induction ps with
  | nil => rfl
  | cons p r ih =>
    obtain ⟨a, b⟩ := p
    rw [List.cons_append]
    rw [show objOfList ((a, b) :: (r ++ qs)) = .ocons a b (objOfList (r ++ qs)) from rfl]
    rw [show objGet k (.ocons a b (objOfList (r ++ qs)))
        = if a = k then some b else objGet k (objOfList (r ++ qs)) from rfl]
    have ha : ¬a = k := by
      intro hc
      subst hc
      exact h (List.mem_cons_self _ _)
    rw [if_neg ha]
    exact ih (fun hc => h (List.mem_cons_of_mem _ hc))

/-- Lookup hits the head member. -/
theorem objGet_objOfList_head (k : Str) (v : Jv) (r : List (Str × Jv)) :
    objGet k (objOfList ((k, v) :: r)) = some v := by
  rw [show objOfList ((k, v) :: r) = .ocons k v (objOfList r) from rfl]
  rw [show objGet k (.ocons k v (objOfList r))
      = if k = k then some v else objGet k (objOfList r) from rfl]
  rw [if_pos rfl]

/-- The forbidden messages all start with `T`. -/
theorem notBanned_of_head_ne_T (e : Str) (c : Char) (hc : ¬c = 'T')
    (he : e.head? = some c) : notBanned e := by
  refine ⟨fun ty h => ?_, fun h => ?_, fun h => ?_⟩
  · rw [h] at he
    exact hc (Option.some.inj ((head_missingOptionsMsg ty).symm.trans he)).symm
  · rw [h] at he
    exact hc (Option.some.inj
      ((show emptyColumnsMsg.head? = some 'T' from rfl).symm.trans he)).symm
  · rw [h] at he
    exact hc (Option.some.inj
      ((show missingColumnsMsg.head? = some 'T' from rfl).symm.trans he)).symm

/-- The assembled properties object, with the let-bound pieces spelled out. -/
theorem exportProps_eq (f : FormField) : exportProps f = objOfList (
    (match f.placeholder with
     | some p => if !p.isEmpty then [(toStr "placeholder", Jv.jstr p)] else []
     | none => [])
    ++ (if f.ftype = .select ∨ f.ftype = .radio ∨ f.ftype = .checkbox then
          match f.options with
          | some os => if !os.isEmpty then [(toStr "options", listToJArr os)]
              else [(toStr "options", listToJArr [])]
          | none => [(toStr "options", listToJArr [])]
        else
          match f.options with
          | some os => if !os.isEmpty then [(toStr "options", listToJArr os)] else []
          | none => [])
    ++ (match f.acceptedFileTypes with
        | some ts => if !ts.isEmpty then [(toStr "acceptedFileTypes", listToJArr ts)] else []
        | none => [])
    ++ (match f.maxFileSize with
        | some n => if !(n.1 == 0) then [(toStr "maxFileSize", Jv.jnum n.1 n.2)] else []
        | none => [])
    ++ (match f.multiple with
        | some b => if b then [(toStr "multiple", Jv.jbool true)] else []
        | none => [])
    ++ (if f.ftype = .table then
          match f.columns with
          | some cs =>
            if !cs.isEmpty then [(toStr "columns", listToJArr cs)]
            else [(toStr "columns", listToJArr [toStr "Kolumna 1", toStr "Kolumna 2"])]
          | none => [(toStr "columns", listToJArr [toStr "Kolumna 1", toStr "Kolumna 2"])]
        else
          match f.columns with
          | some cs => if !cs.isEmpty then [(toStr "columns", listToJArr cs)] else []
          | none => [])) := rfl

/-- An array of brace-free strings is a clean value. -/
theorem cleanVal_listToJArr (xs : List Str) (h : ∀ x ∈ xs, '\x7d' ∉ x) :
    cleanVal (listToJArr xs) := by
  unfold listToJArr cleanVal
  intro v hv
  rw [arrElems_arrOfList] at hv
  rw [List.mem_map] at hv
  obtain ⟨x, hx, rfl⟩ := hv
  exact ⟨x, rfl, h x hx⟩

/-- Under the line discipline, every exported properties object is clean. -/
theorem exportProps_clean (f : FormField) (hf : lineDisciplined f) :
    cleanObj (exportProps f) := by
  obtain ⟨-, -, hopt, hcol, hplc, haft⟩ := hf
  rw [exportProps_eq]
  apply cleanObj_objOfList
  · intro p hp
    simp only [List.mem_append] at hp
    rcases hp with ((((hp | hp) | hp) | hp) | hp) | hp
    · cases hpl : f.placeholder with
      | none => simp only [hpl] at hp; simp at hp
      | some pl =>
        simp only [hpl] at hp
        by_cases hS : (!pl.isEmpty) = true
        · rw [if_pos hS] at hp
          simp only [List.mem_cons, List.not_mem_nil, or_false] at hp
          subst hp
          exact ⟨(by decide : '\x7d' ∉ toStr "placeholder"), hplc pl hpl⟩
        · rw [if_neg hS] at hp
          simp at hp
    · by_cases hty : f.ftype = .select ∨ f.ftype = .radio ∨ f.ftype = .checkbox
      · rw [if_pos hty] at hp
        cases hos : f.options with
        | none =>
          simp only [hos] at hp
          simp only [List.mem_cons, List.not_mem_nil, or_false] at hp
          subst hp
          exact ⟨(by decide : '\x7d' ∉ toStr "options"), cleanVal_listToJArr [] (by simp)⟩
        | some os =>
          simp only [hos] at hp
          by_cases hS : (!os.isEmpty) = true
          · rw [if_pos hS] at hp
            simp only [List.mem_cons, List.not_mem_nil, or_false] at hp
            subst hp
            exact ⟨(by decide : '\x7d' ∉ toStr "options"), cleanVal_listToJArr os (hopt os hos)⟩
          · rw [if_neg hS] at hp
            simp only [List.mem_cons, List.not_mem_nil, or_false] at hp
            subst hp
            exact ⟨(by decide : '\x7d' ∉ toStr "options"), cleanVal_listToJArr [] (by simp)⟩
      · rw [if_neg hty] at hp
        cases hos : f.options with
        | none => simp only [hos] at hp; simp at hp
        | some os =>
          simp only [hos] at hp
          by_cases hS : (!os.isEmpty) = true
          · rw [if_pos hS] at hp
            simp only [List.mem_cons, List.not_mem_nil, or_false] at hp
            subst hp
            exact ⟨(by decide : '\x7d' ∉ toStr "options"), cleanVal_listToJArr os (hopt os hos)⟩
          · rw [if_neg hS] at hp
            simp at hp
    · cases hts : f.acceptedFileTypes with
      | none => simp only [hts] at hp; simp at hp
      | some ts =>
        simp only [hts] at hp
        by_cases hS : (!ts.isEmpty) = true
        · rw [if_pos hS] at hp
          simp only [List.mem_cons, List.not_mem_nil, or_false] at hp
          subst hp
          exact ⟨(by decide : '\x7d' ∉ toStr "acceptedFileTypes"), cleanVal_listToJArr ts (haft ts hts)⟩
        · rw [if_neg hS] at hp
          simp at hp
    · cases hms : f.maxFileSize with
      | none => simp only [hms] at hp; simp at hp
      | some mfs =>
        simp only [hms] at hp
        by_cases hS : (!(mfs.1 == 0)) = true
        · rw [if_pos hS] at hp
          simp only [List.mem_cons, List.not_mem_nil, or_false] at hp
          subst hp
          refine ⟨(by decide : '\x7d' ∉ toStr "maxFileSize"), ?_⟩
          simp only [cleanVal]
          simp at hS
          exact hS
        · rw [if_neg hS] at hp
          simp at hp
    · cases hmu : f.multiple with
      | none => simp only [hmu] at hp; simp at hp
      | some b =>
        simp only [hmu] at hp
        by_cases hS : b = true
        · rw [if_pos hS] at hp
          simp only [List.mem_cons, List.not_mem_nil, or_false] at hp
          subst hp
          exact ⟨(by decide : '\x7d' ∉ toStr "multiple"), trivial⟩
        · rw [if_neg hS] at hp
          simp at hp
    · by_cases hty : f.ftype = .table
      · rw [if_pos hty] at hp
        cases hcs : f.columns with
        | none =>
          simp only [hcs] at hp
          simp only [List.mem_cons, List.not_mem_nil, or_false] at hp
          subst hp
          exact ⟨(by decide : '\x7d' ∉ toStr "columns"), cleanVal_listToJArr _ (by intro x hx; simp only [List.mem_cons, List.not_mem_nil, or_false] at hx; rcases hx with rfl | rfl <;> decide)⟩
        | some cs =>
          simp only [hcs] at hp
          by_cases hS : (!cs.isEmpty) = true
          · rw [if_pos hS] at hp
            simp only [List.mem_cons, List.not_mem_nil, or_false] at hp
            subst hp
            exact ⟨(by decide : '\x7d' ∉ toStr "columns"), cleanVal_listToJArr cs (hcol cs hcs)⟩
          · rw [if_neg hS] at hp
            simp only [List.mem_cons, List.not_mem_nil, or_false] at hp
            subst hp
            exact ⟨(by decide : '\x7d' ∉ toStr "columns"), cleanVal_listToJArr _ (by intro x hx; simp only [List.mem_cons, List.not_mem_nil, or_false] at hx; rcases hx with rfl | rfl <;> decide)⟩
      · rw [if_neg hty] at hp
        cases hcs : f.columns with
        | none => simp only [hcs] at hp; simp at hp
        | some cs =>
          simp only [hcs] at hp
          by_cases hS : (!cs.isEmpty) = true
          · rw [if_pos hS] at hp
            simp only [List.mem_cons, List.not_mem_nil, or_false] at hp
            subst hp
            exact ⟨(by decide : '\x7d' ∉ toStr "columns"), cleanVal_listToJArr cs (hcol cs hcs)⟩
          · rw [if_neg hS] at hp
            simp at hp
  · have hsub1 : ((match f.placeholder with
        | some p => if !p.isEmpty then [(toStr "placeholder", Jv.jstr p)] else []
        | none => ([] : List (Str × Jv))).map Prod.fst).Sublist [toStr "placeholder"] := by
      cases hpl : f.placeholder with
      | none => exact List.nil_sublist _
      | some pl =>
        show (List.map Prod.fst (if (!pl.isEmpty) = true
          then [(toStr "placeholder", Jv.jstr pl)] else [])).Sublist [toStr "placeholder"]
        by_cases hS : (!pl.isEmpty) = true
        · rw [if_pos hS]
          exact List.Sublist.refl _
        · rw [if_neg hS]
          exact List.nil_sublist _
    have hsub2 : (((if f.ftype = .select ∨ f.ftype = .radio ∨ f.ftype = .checkbox then
          match f.options with
          | some os => if !os.isEmpty then [(toStr "options", listToJArr os)]
              else [(toStr "options", listToJArr [])]
          | none => [(toStr "options", listToJArr [])]
        else
          match f.options with
          | some os => if !os.isEmpty then [(toStr "options", listToJArr os)] else []
          | none => []) : List (Str × Jv)).map Prod.fst).Sublist [toStr "options"] := by
      by_cases hty : f.ftype = .select ∨ f.ftype = .radio ∨ f.ftype = .checkbox
      · rw [if_pos hty]
        cases hos : f.options with
        | none => exact List.Sublist.refl _
        | some os =>
          show (List.map Prod.fst (if (!os.isEmpty) = true
            then [(toStr "options", listToJArr os)]
            else [(toStr "options", listToJArr [])])).Sublist [toStr "options"]
          by_cases hS : (!os.isEmpty) = true
          · rw [if_pos hS]
            exact List.Sublist.refl _
          · rw [if_neg hS]
            exact List.Sublist.refl _
      · rw [if_neg hty]
        cases hos : f.options with
        | none => exact List.nil_sublist _
        | some os =>
          show (List.map Prod.fst (if (!os.isEmpty) = true
            then [(toStr "options", listToJArr os)] else [])).Sublist [toStr "options"]
          by_cases hS : (!os.isEmpty) = true
          · rw [if_pos hS]
            exact List.Sublist.refl _
          · rw [if_neg hS]
            exact List.nil_sublist _
    have hsub3 : ((match f.acceptedFileTypes with
        | some ts => if !ts.isEmpty then [(toStr "acceptedFileTypes", listToJArr ts)] else []
        | none => ([] : List (Str × Jv))).map Prod.fst).Sublist [toStr "acceptedFileTypes"] := by
      cases hts : f.acceptedFileTypes with
      | none => exact List.nil_sublist _
      | some ts =>
        show (List.map Prod.fst (if (!ts.isEmpty) = true
          then [(toStr "acceptedFileTypes", listToJArr ts)] else [])).Sublist
          [toStr "acceptedFileTypes"]
        by_cases hS : (!ts.isEmpty) = true
        · rw [if_pos hS]
          exact List.Sublist.refl _
        · rw [if_neg hS]
          exact List.nil_sublist _
    have hsub4 : ((match f.maxFileSize with
        | some n => if !(n.1 == 0) then [(toStr "maxFileSize", Jv.jnum n.1 n.2)] else []
        | none => ([] : List (Str × Jv))).map Prod.fst).Sublist [toStr "maxFileSize"] := by
      cases hms : f.maxFileSize with
      | none => exact List.nil_sublist _
      | some n =>
        show (List.map Prod.fst (if (!(n.1 == 0)) = true
          then [(toStr "maxFileSize", Jv.jnum n.1 n.2)] else [])).Sublist [toStr "maxFileSize"]
        by_cases hS : (!(n.1 == 0)) = true
        · rw [if_pos hS]
          exact List.Sublist.refl _
        · rw [if_neg hS]
          exact List.nil_sublist _
    have hsub5 : ((match f.multiple with
        | some b => if b then [(toStr "multiple", Jv.jbool true)] else []
        | none => ([] : List (Str × Jv))).map Prod.fst).Sublist [toStr "multiple"] := by
      cases hmu : f.multiple with
      | none => exact List.nil_sublist _
      | some b =>
        show (List.map Prod.fst (if b = true
          then [(toStr "multiple", Jv.jbool true)] else [])).Sublist [toStr "multiple"]
        by_cases hS : b = true
        · rw [if_pos hS]
          exact List.Sublist.refl _
        · rw [if_neg hS]
          exact List.nil_sublist _
    have hsub6 : (((if f.ftype = .table then
          match f.columns with
          | some cs =>
            if !cs.isEmpty then [(toStr "columns", listToJArr cs)]
            else [(toStr "columns", listToJArr [toStr "Kolumna 1", toStr "Kolumna 2"])]
          | none => [(toStr "columns", listToJArr [toStr "Kolumna 1", toStr "Kolumna 2"])]
        else
          match f.columns with
          | some cs => if !cs.isEmpty then [(toStr "columns", listToJArr cs)] else []
          | none => []) : List (Str × Jv)).map Prod.fst).Sublist [toStr "columns"] := by
      by_cases hty : f.ftype = .table
      · rw [if_pos hty]
        cases hcs : f.columns with
        | none => exact List.Sublist.refl _
        | some cs =>
          show (List.map Prod.fst (if (!cs.isEmpty) = true
            then [(toStr "columns", listToJArr cs)]
            else [(toStr "columns",
              listToJArr [toStr "Kolumna 1", toStr "Kolumna 2"])])).Sublist [toStr "columns"]
          by_cases hS : (!cs.isEmpty) = true
          · rw [if_pos hS]
            exact List.Sublist.refl _
          · rw [if_neg hS]
            exact List.Sublist.refl _
      · rw [if_neg hty]
        cases hcs : f.columns with
        | none => exact List.nil_sublist _
        | some cs =>
          show (List.map Prod.fst (if (!cs.isEmpty) = true
            then [(toStr "columns", listToJArr cs)] else [])).Sublist [toStr "columns"]
          by_cases hS : (!cs.isEmpty) = true
          · rw [if_pos hS]
            exact List.Sublist.refl _
          · rw [if_neg hS]
            exact List.nil_sublist _
    refine List.Nodup.sublist ?_ (show ([toStr "placeholder", toStr "options",
      toStr "acceptedFileTypes", toStr "maxFileSize", toStr "multiple",
      toStr "columns"] : List Str).Nodup from by decide)
    simp only [List.map_append]
    exact ((((hsub1.append hsub2).append hsub3).append hsub4).append hsub5).append hsub6

/-- Lookup skips a piece holding at most one other key. -/
theorem objGet_objOfList_sub (k k2 : Str) (hne : ¬k2 = k) (ps qs : List (Str × Jv))
    (h : (ps.map Prod.fst).Sublist [k2]) :
    objGet k (objOfList (ps ++ qs)) = objGet k (objOfList qs) := by
  apply objGet_objOfList_append
  intro hm
  have := h.mem hm
  simp only [List.mem_cons, List.not_mem_nil, or_false] at this
  exact hne (this ▸ rfl)

/-- A choice field is always exported with an `options` array. -/
theorem exportProps_options (f : FormField)
    (hty : f.ftype = .select ∨ f.ftype = .radio ∨ f.ftype = .checkbox) :
    ∃ os : List Str, objGet (toStr "options") (exportProps f) = some (listToJArr os) := by
  rw [exportProps_eq]
  simp only [List.append_assoc]
  rw [objGet_objOfList_sub (toStr "options") (toStr "placeholder") (by decide) _ _ (by
    cases hpl : f.placeholder with
    | none => exact List.nil_sublist _
    | some pl =>
      show (List.map Prod.fst (if (!pl.isEmpty) = true
        then [(toStr "placeholder", Jv.jstr pl)] else [])).Sublist [toStr "placeholder"]
      by_cases hS : (!pl.isEmpty) = true
      · rw [if_pos hS]
        exact List.Sublist.refl _
      · rw [if_neg hS]
        exact List.nil_sublist _)]
  rw [if_pos hty]
  cases hos : f.options with
  | none =>
    refine ⟨[], ?_⟩
    exact objGet_objOfList_head _ _ _
  | some os =>
    by_cases hS : (!os.isEmpty) = true
    · refine ⟨os, ?_⟩
      simp only [hos]
      rw [if_pos hS]
      exact objGet_objOfList_head _ _ _
    · refine ⟨[], ?_⟩
      simp only [hos]
      rw [if_neg hS]
      exact objGet_objOfList_head _ _ _

/-- A table field is always exported with a nonempty `columns` array. -/
theorem exportProps_columns (f : FormField) (hty : f.ftype = .table) :
    ∃ cs : List Str, cs ≠ []
      ∧ objGet (toStr "columns") (exportProps f) = some (listToJArr cs) := by
  rw [exportProps_eq]
  simp only [List.append_assoc]
  rw [objGet_objOfList_sub (toStr "columns") (toStr "placeholder") (by decide) _ _ (by
    cases hpl : f.placeholder with
    | none => exact List.nil_sublist _
    | some pl =>
      show (List.map Prod.fst (if (!pl.isEmpty) = true
        then [(toStr "placeholder", Jv.jstr pl)] else [])).Sublist [toStr "placeholder"]
      by_cases hS : (!pl.isEmpty) = true
      · rw [if_pos hS]
        exact List.Sublist.refl _
      · rw [if_neg hS]
        exact List.nil_sublist _)]
  rw [objGet_objOfList_sub (toStr "columns") (toStr "options") (by decide) _ _ (by
    by_cases hty2 : f.ftype = .select ∨ f.ftype = .radio ∨ f.ftype = .checkbox
    · rw [if_pos hty2]
      cases hos : f.options with
      | none => exact List.Sublist.refl _
      | some os =>
        show (List.map Prod.fst (if (!os.isEmpty) = true
          then [(toStr "options", listToJArr os)]
          else [(toStr "options", listToJArr [])])).Sublist [toStr "options"]
        by_cases hS : (!os.isEmpty) = true
        · rw [if_pos hS]
          exact List.Sublist.refl _
        · rw [if_neg hS]
          exact List.Sublist.refl _
    · rw [if_neg hty2]
      cases hos : f.options with
      | none => exact List.nil_sublist _
      | some os =>
        show (List.map Prod.fst (if (!os.isEmpty) = true
          then [(toStr "options", listToJArr os)] else [])).Sublist [toStr "options"]
        by_cases hS : (!os.isEmpty) = true
        · rw [if_pos hS]
          exact List.Sublist.refl _
        · rw [if_neg hS]
          exact List.nil_sublist _)]
  rw [objGet_objOfList_sub (toStr "columns") (toStr "acceptedFileTypes") (by decide) _ _ (by
    cases hts : f.acceptedFileTypes with
    | none => exact List.nil_sublist _
    | some ts =>
      show (List.map Prod.fst (if (!ts.isEmpty) = true
        then [(toStr "acceptedFileTypes", listToJArr ts)] else [])).Sublist
        [toStr "acceptedFileTypes"]
      by_cases hS : (!ts.isEmpty) = true
      · rw [if_pos hS]
        exact List.Sublist.refl _
      · rw [if_neg hS]
        exact List.nil_sublist _)]
  rw [objGet_objOfList_sub (toStr "columns") (toStr "maxFileSize") (by decide) _ _ (by
    cases hms : f.maxFileSize with
    | none => exact List.nil_sublist _
    | some n =>
      show (List.map Prod.fst (if (!(n.1 == 0)) = true
        then [(toStr "maxFileSize", Jv.jnum n.1 n.2)] else [])).Sublist [toStr "maxFileSize"]
      by_cases hS : (!(n.1 == 0)) = true
      · rw [if_pos hS]
        exact List.Sublist.refl _
      · rw [if_neg hS]
        exact List.nil_sublist _)]
  rw [objGet_objOfList_sub (toStr "columns") (toStr "multiple") (by decide) _ _ (by
    cases hmu : f.multiple with
    | none => exact List.nil_sublist _
    | some b =>
      show (List.map Prod.fst (if b = true
        then [(toStr "multiple", Jv.jbool true)] else [])).Sublist [toStr "multiple"]
      by_cases hS : b = true
      · rw [if_pos hS]
        exact List.Sublist.refl _
      · rw [if_neg hS]
        exact List.nil_sublist _)]
  rw [if_pos hty]
  cases hcs : f.columns with
  | none =>
    refine ⟨[toStr "Kolumna 1", toStr "Kolumna 2"], by decide, ?_⟩
    exact objGet_objOfList_head _ _ _
  | some cs =>
    by_cases hS : (!cs.isEmpty) = true
    · refine ⟨cs, by simpa using hS, ?_⟩
      simp only [hcs]
      rw [if_pos hS]
      exact objGet_objOfList_head _ _ _
    · refine ⟨[toStr "Kolumna 1", toStr "Kolumna 2"], by decide, ?_⟩
      simp only [hcs]
      rw [if_neg hS]
      exact objGet_objOfList_head _ _ _

/-- Stringifying an array of strings is the identity. -/
theorem jsArrMapString_strs (ss : List Str) :
    jsArrMapString (arrOfList (ss.map Jv.jstr)) = ss := by
  unfold jsArrMapString
  rw [arrElems_arrOfList, List.map_map]
  induction ss with
  | nil => rfl
  | cons a t ih => rw [List.map_cons, ih]; rfl

/-- A choice field with an `options` array applies without error. -/
theorem applyProps_choice_ok (fld : FormField) (props : JvObj)
    (hty : fld.ftype = .select ∨ fld.ftype = .radio ∨ fld.ftype = .checkbox)
    (a : JvArr) (ha : objGet (toStr "options") props = some (Jv.jarr a)) :
    ∃ g, applyFieldProperties fld props = .ok g := by
  rcases hty with h | h | h <;> simp [applyFieldProperties, h, ha, jvTruthy]

/-- A table field with a nonempty `columns` array applies without error. -/
theorem applyProps_table_ok (fld : FormField) (props : JvObj)
    (hty : fld.ftype = .table) (cs : List Str) (hne : cs ≠ [])
    (ha : objGet (toStr "columns") props = some (listToJArr cs)) :
    ∃ g, applyFieldProperties fld props = .ok g := by
  simp [applyFieldProperties, hty, ha, listToJArr, jvTruthy, jsArrMapString_strs, hne]

/-- The file-types step only throws its own message. -/
theorem applyFileTypes_error (f : FormField) (props : JvObj) (e : Str)
    (h : applyFileTypes f props = .error e) : e = fileTypesNotArrayMsg := by
  unfold applyFileTypes at h
  split at h
  · rename_i v hv
    split at h
    · rename_i ht
      split at h
      · simp at h
      · simp at h
        exact h.symm
    · simp at h
  · simp at h

/-- The max-size step only throws its own message. -/
theorem applyMaxSize_error (f : FormField) (props : JvObj) (e : Str)
    (h : applyMaxSize f props = .error e) : e = badMaxFileSizeMsg := by
  unfold applyMaxSize at h
  split at h
  · rename_i v hv
    split at h
    · simp at h
      exact h.symm
    · split at h
      · simp at h
        exact h.symm
      · simp at h
  · simp at h

/-- Fields of other types never throw a forbidden message. -/
theorem applyProps_other_notBanned (fld : FormField) (props : JvObj)
    (h1 : ¬(fld.ftype = .select ∨ fld.ftype = .radio ∨ fld.ftype = .checkbox))
    (h2 : ¬fld.ftype = .table) :
    ∀ e, applyFieldProperties fld props = .error e → notBanned e := by
  intro e he
  unfold applyFieldProperties at he
  cases hty : fld.ftype
  case select => exact absurd (Or.inl hty) h1
  case radio => exact absurd (Or.inr (Or.inl hty)) h1
  case checkbox => exact absurd (Or.inr (Or.inr hty)) h1
  case table => exact absurd hty h2
  case text => simp only [hty] at he; simp at he
  case textarea => simp only [hty] at he; simp at he
  case email => simp only [hty] at he; simp at he
  case number => simp only [hty] at he; simp at he
  case date => simp only [hty] at he; simp at he
  case separator => simp only [hty] at he; simp at he
  case file =>
    simp only [hty] at he
    split at he
    · rename_i e1 hft
      simp at he
      subst he
      exact notBanned_of_head_ne_T _ 'a' (by decide)
        (by rw [applyFileTypes_error _ _ _ hft]; rfl)
    · rename_i f1 hft
      split at he
      · rename_i e2 hms
        simp at he
        subst he
        exact notBanned_of_head_ne_T _ 'm' (by decide)
          (by rw [applyMaxSize_error _ _ _ hms]; rfl)
      · rename_i f2 hms
        simp at he

-- more assumed prior results

/-- A string with a non-whitespace head does not trim to empty. -/
theorem trim_head_ne_empty (c : Char) (s : Str) (hc : jsWsCh c = false) :
    (trim (c :: s)).isEmpty = false := by
  unfold trim
  rw [show trimL (c :: s) = c :: s from by
    unfold trimL
    rw [List.dropWhile_cons, if_neg (by simp [hc])]]
  cases hT : trimR (c :: s) with
  | cons a t => simp
  | nil =>
    exfalso
    have hd := trimR_decomp (c :: s)
    rw [hT, List.nil_append] at hd
    have hcm : c ∈ ((c :: s).reverse.takeWhile jsWsCh).reverse := by
      rw [← hd]
      exact List.mem_cons_self _ _
    rw [List.mem_reverse] at hcm
    exact absurd (List.mem_takeWhile_imp hcm) (by simp [hc])

/-- Type names are nonempty. -/
theorem fieldTy_name_ne_nil (t : FieldTy) : t.name ≠ [] := by cases t <;> decide

/-- Type names avoid the token delimiters and whitespace. -/
theorem fieldTy_name_chars (t : FieldTy) :
    ∀ c ∈ t.name, ¬c = ']' ∧ ¬c = '\x7b' ∧ ¬c = '\n' ∧ jsWsCh c = false := by
  cases t <;> decide

/-- Parsing a printed type name recovers the type. -/
theorem fieldTy_roundtrip (t : FieldTy) : fieldTyOfStr (trim t.name) = some t := by
  cases t <;> decide

/-- Parsing a printed clean object body succeeds, up to similarity. -/
theorem parseProperties_print (kvs : JvObj) (hc : cleanObj kvs) (hne : kvs ≠ .onil) :
    ∃ kvs', parseProperties (jvObjBody kvs) = .ok kvs' ∧ SimObj kvs kvs' := by
  obtain ⟨kvs', hjp, hsim⟩ := jsonParse_print_obj kvs hc
  refine ⟨kvs', ?_, hsim⟩
  unfold parseProperties
  have hnee : ((trim (jvObjBody kvs)).isEmpty = true) = False := by
    cases kvs with
    | onil => exact absurd rfl hne
    | ocons k v r =>
      obtain ⟨tl, htl⟩ := jvObjBody_head k v r
      rw [htl, trim_head_ne_empty '"' tl (by decide)]
      simp
  rw [if_neg (by rw [hnee]; exact id)]
  rw [show ('\x7b' :: (jvObjBody kvs ++ ['\x7d'])) = jvToJson (.jobj kvs) from rfl]
  rw [hjp]

/-- The required marker has no brace and no newline. -/
theorem req_chars (b : Bool) :
    ∀ c ∈ (if b then toStr " (required)" else []), ¬c = '\x7b' ∧ ¬c = '\n' := by
  cases b with
  | false => simp
  | true =>
    intro c hc
    simp only [if_pos rfl] at hc
    revert c
    decide

/-- The exported configuration line parses back: same type, similar properties. -/
theorem exportConfigLine_parse (f : FormField) (hf : lineDisciplined f)
    (hne : exportProps f ≠ .onil) :
    ∃ req props', parseConfigLine
        ('[' :: (f.ftype.name ++ [']'])
          ++ (if f.required then toStr " (required)" else [])
          ++ ' ' :: jvToJson (.jobj (exportProps f)))
      = .ok ⟨f.ftype, req, props'⟩ ∧ SimObj (exportProps f) props' := by
  have hclean : cleanObj (exportProps f) := exportProps_clean f hf
  have hbodyne : jvObjBody (exportProps f) ≠ [] := by
    cases hkv : exportProps f with
    | onil => exact absurd hkv hne
    | ocons k v r => exact jvObjBody_ne_nil k v r
  have hbodych : ∀ x ∈ jvObjBody (exportProps f), ¬x = '\n' ∧ ¬x = '\x7d' :=
    jvObjBody_chars _ hclean
  have hbr : bracketTok
      ('[' :: (f.ftype.name ++ [']'])
        ++ (if f.required then toStr " (required)" else [])
        ++ ' ' :: jvToJson (.jobj (exportProps f)))
      = some f.ftype.name := by
    rw [show ('[' :: (f.ftype.name ++ [']'])
        ++ (if f.required then toStr " (required)" else [])
        ++ ' ' :: jvToJson (.jobj (exportProps f)))
      = '[' :: (f.ftype.name
          ++ ']' :: ((if f.required then toStr " (required)" else [])
            ++ ' ' :: jvToJson (.jobj (exportProps f)))) from by simp]
    exact bracketTok_at _ _ (fieldTy_name_ne_nil f.ftype)
      (fun c hc => (fieldTy_name_chars f.ftype c hc).1)
  have hbt : braceTok
      ('[' :: (f.ftype.name ++ [']'])
        ++ (if f.required then toStr " (required)" else [])
        ++ ' ' :: jvToJson (.jobj (exportProps f)))
      = some (jvObjBody (exportProps f)) := by
    rw [show ('[' :: (f.ftype.name ++ [']'])
        ++ (if f.required then toStr " (required)" else [])
        ++ ' ' :: jvToJson (.jobj (exportProps f)))
      = ('[' :: (f.ftype.name ++ [']'])
          ++ (if f.required then toStr " (required)" else []) ++ [' '])
        ++ ('\x7b' :: (jvObjBody (exportProps f) ++ '\x7d' :: [])) from by
        rw [show jvToJson (.jobj (exportProps f))
            = '\x7b' :: (jvObjBody (exportProps f) ++ ['\x7d']) from rfl]
        simp]
    rw [braceTok_skip _ _ (by
      intro c hc
      simp only [List.mem_append, List.mem_cons, List.not_mem_nil, or_false] at hc
      rcases hc with (hc | hc) | rfl
      · rcases hc with rfl | hc | rfl
        · decide
        · exact (fieldTy_name_chars f.ftype c hc).2.1
        · decide
      · exact (req_chars f.required c hc).1
      · decide)]
    exact braceTok_at _ _ hbodyne (fun c hc => (hbodych c hc).2)
  obtain ⟨props', hpp, hsim⟩ := parseProperties_print (exportProps f) hclean hne
  refine ⟨requiredTest ('[' :: (f.ftype.name ++ [']'])
    ++ (if f.required then toStr " (required)" else [])
    ++ ' ' :: jvToJson (.jobj (exportProps f))), props', ?_, hsim⟩
  unfold parseConfigLine
  simp only [hbr]
  rw [fieldTy_roundtrip f.ftype]
  simp only [hbt]
  rw [hpp]

/-- The exported configuration line with properties is scan-safe. -/
theorem exportFieldLine_safe_props (f : FormField) (hf : lineDisciplined f)
    (hne : exportProps f ≠ .onil) :
    safeLine ('[' :: (f.ftype.name ++ [']'])
      ++ (if f.required then toStr " (required)" else [])
      ++ ' ' :: jvToJson (.jobj (exportProps f))) := by
  intro cfg hcfg fld hft e herr
  obtain ⟨req, props', hparse, hsim⟩ := exportConfigLine_parse f hf hne
  rw [hparse] at hcfg
  obtain rfl := Except.ok.inj hcfg
  by_cases hty : f.ftype = .select ∨ f.ftype = .radio ∨ f.ftype = .checkbox
  · obtain ⟨os, hos⟩ := exportProps_options f hty
    have hos' : objGet (toStr "options") (exportProps f)
        = some (Jv.jarr (arrOfList (os.map Jv.jstr))) := hos
    have ha := simObj_objGet_arr _ hsim _ hos'
    obtain ⟨g, hg⟩ := applyProps_choice_ok fld props' (by rw [hft]; exact hty) _ ha
    rw [hg] at herr
    exact Except.noConfusion herr
  · by_cases hty2 : f.ftype = .table
    · obtain ⟨cs, hcsne, hcs⟩ := exportProps_columns f hty2
      have hcs' : objGet (toStr "columns") (exportProps f)
          = some (Jv.jarr (arrOfList (cs.map Jv.jstr))) := hcs
      have ha := simObj_objGet_arr _ hsim _ hcs'
      obtain ⟨g, hg⟩ := applyProps_table_ok fld props' (by rw [hft]; exact hty2) cs hcsne ha
      rw [hg] at herr
      exact Except.noConfusion herr
    · exact applyProps_other_notBanned fld props'
        (by rw [hft]; exact hty) (by rw [hft]; exact hty2) e herr

/-- The exported bare configuration line is scan-safe. -/
theorem exportFieldLine_safe_bare (f : FormField) (hnil : exportProps f = .onil) :
    safeLine ('[' :: (f.ftype.name ++ [']'])
      ++ (if f.required then toStr " (required)" else [])) := by
  intro cfg hcfg fld hft e herr
  have hty : ¬(f.ftype = .select ∨ f.ftype = .radio ∨ f.ftype = .checkbox) := by
    intro hty
    obtain ⟨os, hos⟩ := exportProps_options f hty
    rw [hnil, show objGet (toStr "options") JvObj.onil = none from rfl] at hos
    exact Option.noConfusion hos
  have hty2 : ¬f.ftype = .table := by
    intro hty2
    obtain ⟨cs, -, hcs⟩ := exportProps_columns f hty2
    rw [hnil, show objGet (toStr "columns") JvObj.onil = none from rfl] at hcs
    exact Option.noConfusion hcs
  have hbr : bracketTok ('[' :: (f.ftype.name ++ [']'])
      ++ (if f.required then toStr " (required)" else []))
      = some f.ftype.name := by
    rw [show ('[' :: (f.ftype.name ++ [']'])
        ++ (if f.required then toStr " (required)" else []))
      = '[' :: (f.ftype.name
          ++ ']' :: (if f.required then toStr " (required)" else [])) from by simp]
    exact bracketTok_at _ _ (fieldTy_name_ne_nil f.ftype)
      (fun c hc => (fieldTy_name_chars f.ftype c hc).1)
  have hbt : braceTok ('[' :: (f.ftype.name ++ [']'])
      ++ (if f.required then toStr " (required)" else [])) = none := by
    apply braceTok_none
    intro c hc
    simp only [List.mem_append, List.mem_cons, List.not_mem_nil, or_false] at hc
    rcases hc with (rfl | hc | rfl) | hc
    · decide
    · exact (fieldTy_name_chars f.ftype c hc).2.1
    · decide
    · exact (req_chars f.required c hc).1
  unfold parseConfigLine at hcfg
  simp only [hbr] at hcfg
  rw [fieldTy_roundtrip] at hcfg
  simp only [hbt] at hcfg
  obtain rfl := Except.ok.inj hcfg
  exact applyProps_other_notBanned fld _ (by rw [hft]; exact hty)
    (by rw [hft]; exact hty2) e herr

/-- A string whose characters are not newlines is newline-free. -/
theorem noNl_of_mem {s : Str} (h : ∀ c ∈ s, ¬c = '\n') : noNl s = true := by
  simp only [noNl, List.all_eq_true, Bool.not_eq_eq_eq_not, Bool.not_true, beq_eq_false_iff_ne,
    ne_eq]
  exact h

/-- A line whose first character is non-whitespace and not `[` is no configuration line. -/
theorem configLineTest_head (l : Str) (c : Char) (hc : l.head? = some c)
    (hws : jsWsCh c = false) (hlb : ¬c = '[') : configLineTest l = false := by
  cases l with
  | nil => simp at hc
  | cons a t =>
    have hca : a = c := by simpa using hc
    subst hca
    have h1 : trimL (a :: t) = a :: t := by
      unfold trimL
      rw [List.dropWhile_cons, if_neg (by simp [hws])]
    have h2 : ∃ u, trim (a :: t) = a :: u := by
      unfold trim
      rw [h1]
      have hd := trimR_decomp (a :: t)
      cases hT : trimR (a :: t) with
      | cons b u =>
        rw [hT] at hd
        refine ⟨u, ?_⟩
        have := (List.cons.inj hd).1
        rw [← this]
      | nil =>
        exfalso
        rw [hT, List.nil_append] at hd
        have hcm : a ∈ ((a :: t).reverse.takeWhile jsWsCh).reverse := by
          rw [← hd]
          exact List.mem_cons_self _ _
        rw [List.mem_reverse] at hcm
        exact absurd (List.mem_takeWhile_imp hcm) (by simp [hws])
    obtain ⟨u, hu⟩ := h2
    unfold configLineTest
    rw [show trimL (trim (a :: t)) = a :: u from by
      rw [hu]
      unfold trimL
      rw [List.dropWhile_cons, if_neg (by simp [hws])]]
    split
    · rename_i rest heq
      exact absurd (List.cons.inj heq).1 hlb
    · rfl

/-- A non-configuration line is vacuously scan-safe. -/
theorem scanSafe_of_test_false (l : Str) (h : configLineTest l = false) :
    scanSafe (trim l) := by
  intro hct
  rw [configLineTest_trim, h] at hct
  exact absurd hct (by decide)

/-- Scan safety extends over one newline-terminated line. -/
theorem splitNl_safe_cons (l r : Str) (hl : noNl l = true) (hs : scanSafe (trim l))
    (hr : ∀ raw ∈ splitNl r, scanSafe (trim raw)) :
    ∀ raw ∈ splitNl (l ++ '\n' :: r), scanSafe (trim raw) := by
  intro raw hraw
  rw [splitNl_append_nl l r hl] at hraw
  rcases List.mem_cons.mp hraw with rfl | h
  · exact hs
  · exact hr raw h

/-- Scan safety extends over an empty line. -/
theorem splitNl_safe_nl (r : Str)
    (hr : ∀ raw ∈ splitNl r, scanSafe (trim raw)) :
    ∀ raw ∈ splitNl ('\n' :: r), scanSafe (trim raw) := by
  intro raw hraw
  rw [splitNl_nl_cons r] at hraw
  rcases List.mem_cons.mp hraw with rfl | h
  · exact scanSafe_of_test_false [] (by decide)
  · exact hr raw h

/-- The exported configuration line with properties survives trimming. -/
theorem scanSafe_fieldLine_props (f : FormField) (hf : lineDisciplined f)
    (hne : exportProps f ≠ .onil) :
    scanSafe (trim ('[' :: (f.ftype.name ++ [']'])
      ++ (if f.required then toStr " (required)" else [])
      ++ ' ' :: jvToJson (.jobj (exportProps f)))) := by
  have hfl : ('[' :: (f.ftype.name ++ [']'])
      ++ (if f.required then toStr " (required)" else [])
      ++ ' ' :: jvToJson (.jobj (exportProps f)))
      = ('[' :: (f.ftype.name ++ [']'])
        ++ (if f.required then toStr " (required)" else [])
        ++ ' ' :: '\x7b' :: jvObjBody (exportProps f)) ++ ['\x7d'] := by
    rw [show jvToJson (.jobj (exportProps f))
        = '\x7b' :: (jvObjBody (exportProps f) ++ ['\x7d']) from rfl]
    simp
  have hh : ∀ c, ('[' :: (f.ftype.name ++ [']'])
      ++ (if f.required then toStr " (required)" else [])
      ++ ' ' :: jvToJson (.jobj (exportProps f))).head? = some c → jsWsCh c = false := by
    intro c hcc
    rw [show ('[' :: (f.ftype.name ++ [']'])
      ++ (if f.required then toStr " (required)" else [])
      ++ ' ' :: jvToJson (.jobj (exportProps f))).head? = some '[' from rfl] at hcc
    obtain rfl := Option.some.inj hcc
    decide
  have hl : ∀ c, ('[' :: (f.ftype.name ++ [']'])
      ++ (if f.required then toStr " (required)" else [])
      ++ ' ' :: jvToJson (.jobj (exportProps f))).getLast? = some c → jsWsCh c = false := by
    intro c hcc
    rw [hfl, List.getLast?_concat] at hcc
    obtain rfl := Option.some.inj hcc
    decide
  intro hct
  rw [trim_noop hh hl]
  exact exportFieldLine_safe_props f hf hne

/-- The exported bare configuration line survives trimming. -/
theorem scanSafe_fieldLine_bare (f : FormField) (hnil : exportProps f = .onil) :
    scanSafe (trim ('[' :: (f.ftype.name ++ [']'])
      ++ (if f.required then toStr " (required)" else []))) := by
  have hh : ∀ c, ('[' :: (f.ftype.name ++ [']'])
      ++ (if f.required then toStr " (required)" else [])).head? = some c
      → jsWsCh c = false := by
    intro c hcc
    rw [show ('[' :: (f.ftype.name ++ [']'])
      ++ (if f.required then toStr " (required)" else [])).head? = some '[' from rfl] at hcc
    obtain rfl := Option.some.inj hcc
    decide
  have hl : ∀ c, ('[' :: (f.ftype.name ++ [']'])
      ++ (if f.required then toStr " (required)" else [])).getLast? = some c
      → jsWsCh c = false := by
    intro c hcc
    by_cases hrq : f.required = true
    · rw [show ('[' :: (f.ftype.name ++ [']'])
          ++ (if f.required then toStr " (required)" else []))
        = ('[' :: (f.ftype.name ++ [']']) ++ toStr " (required") ++ [')'] from by
          rw [hrq]
          rw [show (if (true : Bool) then toStr " (required)" else [])
            = toStr " (required)" from rfl]
          rw [show toStr " (required)" = toStr " (required" ++ [')'] from by decide]
          simp] at hcc
      rw [List.getLast?_concat] at hcc
      obtain rfl := Option.some.inj hcc
      decide
    · rw [show ('[' :: (f.ftype.name ++ [']'])
          ++ (if f.required then toStr " (required)" else []))
        = ('[' :: f.ftype.name) ++ [']'] from by
          rw [show f.required = false from by simpa using hrq]
          simp] at hcc
      rw [List.getLast?_concat] at hcc
      obtain rfl := Option.some.inj hcc
      decide
  intro hct
  rw [trim_noop hh hl]
  exact exportFieldLine_safe_bare f hnil

/-- The exported configuration line with properties has no newline. -/
theorem noNl_fieldLine_props (f : FormField) (hclean : cleanObj (exportProps f)) :
    noNl ('[' :: (f.ftype.name ++ [']'])
      ++ (if f.required then toStr " (required)" else [])
      ++ ' ' :: jvToJson (.jobj (exportProps f))) = true := by
  apply noNl_of_mem
  intro c hc
  rw [show jvToJson (.jobj (exportProps f))
      = '\x7b' :: (jvObjBody (exportProps f) ++ ['\x7d']) from rfl] at hc
  simp only [List.mem_append, List.mem_cons, List.not_mem_nil, or_false] at hc
  rcases hc with ((rfl | hc | rfl) | hc) | rfl | rfl | hc | rfl
  · decide
  · exact (fieldTy_name_chars f.ftype c hc).2.2.1
  · decide
  · exact (req_chars f.required c hc).2
  · decide
  · decide
  · exact (jvObjBody_chars _ hclean c hc).1
  · decide

/-- The exported bare configuration line has no newline. -/
theorem noNl_fieldLine_bare (f : FormField) :
    noNl ('[' :: (f.ftype.name ++ [']'])
      ++ (if f.required then toStr " (required)" else [])) = true := by
  apply noNl_of_mem
  intro c hc
  simp only [List.mem_append, List.mem_cons, List.not_mem_nil, or_false] at hc
  rcases hc with (rfl | hc | rfl) | hc
  · decide
  · exact (fieldTy_name_chars f.ftype c hc).2.2.1
  · decide
  · exact (req_chars f.required c hc).2

/-- A line headed by a harmless character is scan-safe. -/
theorem scanSafe_head_char (l : Str) (c : Char) (hc : l.head? = some c)
    (hws : jsWsCh c = false) (hlb : ¬c = '[') : scanSafe (trim l) :=
  scanSafe_of_test_false l (configLineTest_head l c hc hws hlb)

/-- Scan safety transports along an equality of documents. -/
theorem splitNl_safe_eq (a b : Str) (hab : a = b)
    (h : ∀ raw ∈ splitNl b, scanSafe (trim raw)) :
    ∀ raw ∈ splitNl a, scanSafe (trim raw) := by
  rw [hab]
  exact h

/-- Every line of one exported field block is scan-safe. -/
theorem exportFieldMd_safe (f : FormField) (hf : lineDisciplined f) (R : Str)
    (hR : ∀ raw ∈ splitNl R, scanSafe (trim raw)) :
    ∀ raw ∈ splitNl (exportFieldMd f ++ R), scanSafe (trim raw) := by
  have hlab : noNl f.label = true := hf.1
  have hhelp := hf.2.1
  have harrow : toStr " -->\n" = toStr " -->" ++ ['\n'] := by decide
  by_cases hsep : f.ftype = .separator
  · rw [show exportFieldMd f
        = (if !f.label.isEmpty && !(f.label == defaultSepLabel)
           then toStr "<!-- " ++ f.label ++ toStr " -->\n" else [])
          ++ ((match f.helpText with
              | some h => if !h.isEmpty then toStr "<!-- " ++ h ++ toStr " -->\n" else []
              | none => [])
            ++ toStr "---\n\n") from by rw [exportFieldMd, if_pos hsep]; simp]
    have hrest : ∀ raw ∈ splitNl (toStr "---\n\n" ++ R), scanSafe (trim raw) := by
      refine splitNl_safe_eq _ (toStr "---" ++ '\n' :: ('\n' :: R)) rfl ?_
      exact splitNl_safe_cons _ _ (by decide)
        (scanSafe_head_char _ '-' rfl (by decide) (by decide))
        (splitNl_safe_nl R hR)
    have hmid : ∀ raw ∈ splitNl ((match f.helpText with
        | some h => if !h.isEmpty then toStr "<!-- " ++ h ++ toStr " -->\n" else []
        | none => []) ++ (toStr "---\n\n" ++ R)), scanSafe (trim raw) := by
      cases hht : f.helpText with
      | none => simpa using hrest
      | some h =>
        by_cases hS : (!h.isEmpty) = true
        · simp only [hht, if_pos hS]
          refine splitNl_safe_eq _
            ((toStr "<!-- " ++ h ++ toStr " -->") ++ '\n' :: (toStr "---\n\n" ++ R))
            (by simp [harrow]) ?_
          refine splitNl_safe_cons _ _ ?_ ?_ hrest
          · rw [noNl_append, noNl_append]
            simp only [Bool.and_eq_true]
            exact ⟨⟨by decide, (hhelp h hht).1⟩, by decide⟩
          · exact scanSafe_head_char _ '<' rfl (by decide) (by decide)
        · simp only [hht, if_neg hS]
          simpa using hrest
    by_cases hcm : (!f.label.isEmpty && !(f.label == defaultSepLabel)) = true
    · rw [if_pos hcm]
      refine splitNl_safe_eq _
        ((toStr "<!-- " ++ f.label ++ toStr " -->")
          ++ '\n' :: ((match f.helpText with
              | some h => if !h.isEmpty then toStr "<!-- " ++ h ++ toStr " -->\n" else []
              | none => []) ++ (toStr "---\n\n" ++ R)))
        (by simp [harrow]) ?_
      refine splitNl_safe_cons _ _ ?_ ?_ hmid
      · rw [noNl_append, noNl_append]
        simp only [Bool.and_eq_true]
        exact ⟨⟨by decide, hlab⟩, by decide⟩
      · exact scanSafe_head_char _ '<' rfl (by decide) (by decide)
    · rw [if_neg hcm]
      refine splitNl_safe_eq _ ((match f.helpText with
          | some h => if !h.isEmpty then toStr "<!-- " ++ h ++ toStr " -->\n" else []
          | none => []) ++ (toStr "---\n\n" ++ R)) (by simp) hmid
  · rw [show exportFieldMd f
        = toStr "## " ++ f.label ++ ['\n']
          ++ ((match exportProps f with
              | JvObj.onil => '[' :: (f.ftype.name ++ [']'])
                  ++ (if f.required then toStr " (required)" else [])
              | _ => ('[' :: (f.ftype.name ++ [']'])
                  ++ (if f.required then toStr " (required)" else []))
                  ++ [' '] ++ jvToJson (.jobj (exportProps f)))
            ++ (['\n']
              ++ ((match f.helpText with
                  | some h => if !h.isEmpty then h ++ ['\n'] else []
                  | none => [])
                ++ ['\n']))) from by rw [exportFieldMd, if_neg hsep]; simp]
    have hrest0 : ∀ raw ∈ splitNl ('\n' :: R), scanSafe (trim raw) := splitNl_safe_nl R hR
    have hht : ∀ raw ∈ splitNl (((match f.helpText with
        | some h => if !h.isEmpty then h ++ ['\n'] else []
        | none => []) ++ ['\n']) ++ R), scanSafe (trim raw) := by
      cases hh2 : f.helpText with
      | none => simpa using hrest0
      | some h =>
        by_cases hS : (!h.isEmpty) = true
        · simp only [hh2, if_pos hS]
          refine splitNl_safe_eq _ (h ++ '\n' :: ('\n' :: R)) (by simp) ?_
          exact splitNl_safe_cons _ _ (hhelp h hh2).1
            (scanSafe_of_test_false h (hhelp h hh2).2) hrest0
        · simp only [hh2, if_neg hS]
          simpa using hrest0
    have hfln : ∀ raw ∈ splitNl (((match exportProps f with
        | JvObj.onil => '[' :: (f.ftype.name ++ [']'])
            ++ (if f.required then toStr " (required)" else [])
        | _ => ('[' :: (f.ftype.name ++ [']'])
            ++ (if f.required then toStr " (required)" else []))
            ++ [' '] ++ jvToJson (.jobj (exportProps f)))
        ++ (['\n']
          ++ ((match f.helpText with
              | some h => if !h.isEmpty then h ++ ['\n'] else []
              | none => [])
            ++ ['\n']))) ++ R), scanSafe (trim raw) := by
      cases hkv : exportProps f with
      | onil =>
        refine splitNl_safe_eq _
          (('[' :: (f.ftype.name ++ [']'])
              ++ (if f.required then toStr " (required)" else []))
            ++ '\n' :: (((match f.helpText with
                  | some h => if !h.isEmpty then h ++ ['\n'] else []
                  | none => [])
                ++ ['\n']) ++ R)) (by simp) ?_
        exact splitNl_safe_cons _ _ (noNl_fieldLine_bare f)
          (scanSafe_fieldLine_bare f hkv) hht
      | ocons k v r =>
        have hnee : exportProps f ≠ .onil := by
          rw [hkv]
          intro hcon
          exact JvObj.noConfusion hcon
        have hsafe := scanSafe_fieldLine_props f hf hnee
        have hnl := noNl_fieldLine_props f (exportProps_clean f hf)
        rw [hkv] at hsafe hnl
        refine splitNl_safe_eq _
          (('[' :: (f.ftype.name ++ [']'])
              ++ (if f.required then toStr " (required)" else [])
              ++ ' ' :: jvToJson (.jobj (JvObj.ocons k v r)))
            ++ '\n' :: (((match f.helpText with
                  | some h => if !h.isEmpty then h ++ ['\n'] else []
                  | none => [])
                ++ ['\n']) ++ R)) (by simp) ?_
        exact splitNl_safe_cons _ _ hnl hsafe hht
    refine splitNl_safe_eq _
      ((toStr "## " ++ f.label)
        ++ '\n' :: (((match exportProps f with
            | JvObj.onil => '[' :: (f.ftype.name ++ [']'])
                ++ (if f.required then toStr " (required)" else [])
            | _ => ('[' :: (f.ftype.name ++ [']'])
                ++ (if f.required then toStr " (required)" else []))
                ++ [' '] ++ jvToJson (.jobj (exportProps f)))
          ++ (['\n']
            ++ ((match f.helpText with
                | some h => if !h.isEmpty then h ++ ['\n'] else []
                | none => [])
              ++ ['\n']))) ++ R)) (by simp) ?_
    refine splitNl_safe_cons _ _ ?_ ?_ hfln
    · rw [noNl_append]
      simp only [Bool.and_eq_true]
      exact ⟨by decide, hlab⟩
    · exact scanSafe_head_char _ '#' rfl (by decide) (by decide)

/-- Every line of the exported field blocks is scan-safe. -/
theorem export_blocks_safe (fs : List FormField) (hfs : ∀ f ∈ fs, lineDisciplined f) :
    ∀ raw ∈ splitNl (concatAll (fs.map exportFieldMd)), scanSafe (trim raw) := by
  induction fs with
  | nil =>
    intro raw hraw
    rw [show concatAll (([] : List FormField).map exportFieldMd) = [] from rfl] at hraw
    rw [show splitNl [] = [[]] from rfl] at hraw
    simp only [List.mem_cons, List.not_mem_nil, or_false] at hraw
    subst hraw
    exact scanSafe_of_test_false [] (by decide)
  | cons f fs' ih =>
    rw [show concatAll ((f :: fs').map exportFieldMd)
        = exportFieldMd f ++ concatAll (fs'.map exportFieldMd) from rfl]
    exact exportFieldMd_safe f (hfs f (List.mem_cons_self _ _)) _
      (ih (fun g hg => hfs g (List.mem_cons_of_mem _ hg)))

/-- Every line of the exported document body is scan-safe. -/
theorem export_doc_safe (fs : List FormField) (hfs : ∀ f ∈ fs, lineDisciplined f)
    (head1 head2 : Str)
    (h1 : head1 = [] ∨ ∃ t, noNl t = true ∧ head1 = toStr "# " ++ t ++ toStr "\n\n")
    (h2 : head2 = [] ∨ ∃ d, noNl d = true ∧ configLineTest d = false
      ∧ head2 = d ++ toStr "\n\n") :
    ∀ raw ∈ splitNl (head1 ++ head2 ++ concatAll (fs.map exportFieldMd)),
      scanSafe (trim raw) := by
  have hblocks := export_blocks_safe fs hfs
  have hmid : ∀ raw ∈ splitNl (head2 ++ concatAll (fs.map exportFieldMd)),
      scanSafe (trim raw) := by
    rcases h2 with rfl | ⟨d, hdn, hdc, rfl⟩
    · simpa using hblocks
    · refine splitNl_safe_eq _
        (d ++ '\n' :: ('\n' :: concatAll (fs.map exportFieldMd)))
        (by rw [show toStr "\n\n" = ['\n', '\n'] from rfl]; simp) ?_
      exact splitNl_safe_cons _ _ hdn
        (scanSafe_of_test_false d hdc)
        (splitNl_safe_nl _ hblocks)
  rcases h1 with rfl | ⟨t, htn, rfl⟩
  · simpa using hmid
  · refine splitNl_safe_eq _
      ((toStr "# " ++ t) ++ '\n' :: ('\n' :: (head2 ++ concatAll (fs.map exportFieldMd))))
      (by rw [show toStr "\n\n" = ['\n', '\n'] from rfl]; simp) ?_
    refine splitNl_safe_cons _ _ ?_ ?_ (splitNl_safe_nl _ hmid)
    · rw [noNl_append]
      simp only [Bool.and_eq_true]
      exact ⟨by decide, htn⟩
    · exact scanSafe_head_char _ '#' rfl (by decide) (by decide)

/-- The synthetic separator configuration line is scan-safe. -/
theorem sepLine_safe : safeLine (toStr "[separator]") := by
  intro cfg hcfg fld hft e herr
  rw [show parseConfigLine (toStr "[separator]")
      = .ok ⟨.separator, false, .onil⟩ from rfl] at hcfg
  obtain rfl := Except.ok.inj hcfg
  exact applyProps_other_notBanned fld _ (by rw [hft]; decide) (by rw [hft]; decide) e herr

/-- No reimport error of a disciplined export is a forbidden message. -/
theorem export_reimport_props_core (fs : List FormField)
    (formTitle formDescription : Option Str)
    (hfs : ∀ f ∈ fs, lineDisciplined f)
    (ht : ∀ t, formTitle = some t → noNl t = true)
    (hd : ∀ d, formDescription = some d → noNl d = true ∧ configLineTest d = false) :
    ∀ err ∈ (parseMarkdown (exportToMarkdown fs formTitle formDescription)).errors,
      notBanned err.error := by
  intro err herr
  obtain ⟨sec, hsec, hperr⟩ := parseMarkdown_error_origin _ err herr
  refine parseSection_error_notBanned sec ?_ err.error hperr
  intro raw hraw
  have hdoc := splitIntoSections_line_provenance _ sec hsec raw hraw
  rcases hdoc with hmem | hsyn | hsyn
  · unfold exportToMarkdown at hmem
    obtain ⟨r2, hr2, htr⟩ := lines_trim_transfer _ raw hmem
    rw [htr]
    refine export_doc_safe fs hfs _ _ ?_ ?_ r2 hr2
    · cases hts : formTitle with
      | none => exact Or.inl rfl
      | some t =>
        by_cases hS : (!t.isEmpty) = true
        · refine Or.inr ⟨t, ht t hts, ?_⟩
          show (if (!t.isEmpty) = true then toStr "# " ++ t ++ toStr "\n\n" else [])
            = toStr "# " ++ t ++ toStr "\n\n"
          rw [if_pos hS]
        · refine Or.inl ?_
          show (if (!t.isEmpty) = true then toStr "# " ++ t ++ toStr "\n\n" else []) = []
          rw [if_neg hS]
    · cases hds : formDescription with
      | none => exact Or.inl rfl
      | some d =>
        by_cases hS : (!d.isEmpty) = true
        · refine Or.inr ⟨d, (hd d hds).1, (hd d hds).2, ?_⟩
          show (if (!d.isEmpty) = true then d ++ toStr "\n\n" else [])
            = d ++ toStr "\n\n"
          rw [if_pos hS]
        · refine Or.inl ?_
          show (if (!d.isEmpty) = true then d ++ toStr "\n\n" else []) = []
          rw [if_neg hS]
  · subst hsyn
    exact scanSafe_of_test_false _ (by decide)
  · subst hsyn
    intro hct
    rw [show trim (toStr "[separator]") = toStr "[separator]" from by decide]
    exact sepLine_safe



/-- C3 (amended): the exporter always writes the mandatory `options` key for a
choice field and a nonempty `columns` array for a table field; and for every
field list of line-disciplined fields, with a newline-free title and a
newline-free non-configuration description, no error reported by reimporting
the exported markdown is a missing-options, empty-columns or missing-columns
message. -/
theorem export_reimport_mandatory_props (fs : List FormField)
    (formTitle formDescription : Option Str)
    (hfs : ∀ f ∈ fs, lineDisciplined f)
    (ht : ∀ t, formTitle = some t → noNl t = true)
    (hd : ∀ d, formDescription = some d → noNl d = true ∧ configLineTest d = false) :
    (∀ f ∈ fs,
      ((f.ftype = .select ∨ f.ftype = .radio ∨ f.ftype = .checkbox) →
        ∃ os, objGet (toStr "options") (exportProps f) = some (listToJArr os))
      ∧ (f.ftype = .table →
        ∃ cs, cs ≠ [] ∧ objGet (toStr "columns") (exportProps f) = some (listToJArr cs)))
    ∧ ∀ err ∈ (parseMarkdown (exportToMarkdown fs formTitle formDescription)).errors,
        (∀ ty, err.error ≠ missingOptionsMsg ty)
        ∧ err.error ≠ emptyColumnsMsg ∧ err.error ≠ missingColumnsMsg := by
  refine ⟨fun f hfm => ⟨fun hty => exportProps_options f hty,
    fun hty => exportProps_columns f hty⟩, ?_⟩
  intro err herr
  exact export_reimport_props_core fs formTitle formDescription hfs ht hd err herr

/-- C3: counterexample to the unamended claim.  A select field whose label
smuggles a line break, a section header and a bare `[select]` token makes the
reimport of its own export fail with the missing-options message, although the
field itself carries a nonempty options array. -/
theorem export_reimport_counterexample :
    fieldC3bad.ftype = .select ∧ fieldC3bad.options = some [toStr "x"]
    ∧ (parseMarkdown (exportToMarkdown [fieldC3bad] none none)).errors
      = [⟨toStr "A", typeRequiredMsg⟩, ⟨toStr "B", missingOptionsMsg .select⟩] :=
  ⟨rfl, rfl, rfl⟩

/-- C3: the amended theorem applied to a concrete export holding a choice
field, a column-less table field and a file field with a fractional size. -/
theorem export_reimport_mandatory_props_witness :
    (∀ f ∈ [fieldC3sel, fieldC3tab, fieldC3file], lineDisciplined f)
    ∧ (∀ t, some (toStr "Formularz") = some t → noNl t = true)
    ∧ (∀ d, some (toStr "Opis pola") = some d → noNl d = true ∧ configLineTest d = false)
    ∧ ((∀ f ∈ [fieldC3sel, fieldC3tab, fieldC3file],
      ((f.ftype = .select ∨ f.ftype = .radio ∨ f.ftype = .checkbox) →
        ∃ os, objGet (toStr "options") (exportProps f) = some (listToJArr os))
      ∧ (f.ftype = .table →
        ∃ cs, cs ≠ [] ∧ objGet (toStr "columns") (exportProps f) = some (listToJArr cs)))
    ∧ ∀ err ∈ (parseMarkdown (exportToMarkdown [fieldC3sel, fieldC3tab, fieldC3file]
        (some (toStr "Formularz")) (some (toStr "Opis pola")))).errors,
        (∀ ty, err.error ≠ missingOptionsMsg ty)
        ∧ err.error ≠ emptyColumnsMsg ∧ err.error ≠ missingColumnsMsg) := by
  have hfs : ∀ f ∈ [fieldC3sel, fieldC3tab, fieldC3file], lineDisciplined f := by
    intro f hf
    simp only [List.mem_cons, List.not_mem_nil, or_false] at hf
    rcases hf with rfl | rfl | rfl
    · refine ⟨by decide, ?_, ?_, ?_, ?_, ?_⟩
      · intro h hcon
        exact Option.noConfusion hcon
      · intro os hos
        obtain rfl := Option.some.inj hos
        intro x hx
        simp only [List.mem_cons, List.not_mem_nil, or_false] at hx
        rcases hx with rfl | rfl <;> decide
      · intro cs hcs
        exact Option.noConfusion hcs
      · intro p hp
        exact Option.noConfusion hp
      · intro ts hts
        exact Option.noConfusion hts
    · refine ⟨by decide, ?_, ?_, ?_, ?_, ?_⟩
      · intro h hcon
        obtain rfl := Option.some.inj hcon
        exact ⟨by decide, by decide⟩
      · intro os hos
        exact Option.noConfusion hos
      · intro cs hcs
        exact Option.noConfusion hcs
      · intro p hp
        exact Option.noConfusion hp
      · intro ts hts
        exact Option.noConfusion hts
    · refine ⟨by decide, ?_, ?_, ?_, ?_, ?_⟩
      · intro h hcon
        exact Option.noConfusion hcon
      · intro os hos
        exact Option.noConfusion hos
      · intro cs hcs
        exact Option.noConfusion hcs
      · intro p hp
        exact Option.noConfusion hp
      · intro ts hts
        obtain rfl := Option.some.inj hts
        intro x hx
        simp only [List.mem_cons, List.not_mem_nil, or_false] at hx
        rcases hx with rfl
        decide
  have ht : ∀ t, (some (toStr "Formularz") : Option Str) = some t → noNl t = true := by
    intro t hts
    obtain rfl := Option.some.inj hts
    decide
  have hd : ∀ d, (some (toStr "Opis pola") : Option Str) = some d
      → noNl d = true ∧ configLineTest d = false := by
    intro d hds
    obtain rfl := Option.some.inj hds
    exact ⟨by decide, by decide⟩
  exact ⟨hfs, ht, hd,
    export_reimport_mandatory_props [fieldC3sel, fieldC3tab, fieldC3file]
      (some (toStr "Formularz")) (some (toStr "Opis pola")) hfs ht hd⟩

end Formgen
